import Mathlib

/-!
# Process lookup on Linux (`component/process/process_linux.go`)

A shallow embedding of `findProcessPath`, `resolveSocketByNetlink`,
`resolveProcessPathByProcSearch` and `isPid`.  The kernel (netlink channel, `/proc`
tree) and the scratch buffer pool are an explicit `World` of oracles, and every call
that crosses that boundary is recorded in an effect trace.
-/

set_option autoImplicit false

namespace Clash

/-! ## Bytes, Go strings, runes -/

/-- A Go `byte`. -/
abbrev Byte := Fin 256

/-- Go `string` and `[]byte` values: a sequence of bytes (not necessarily valid UTF-8). -/
abbrev GoString := List Byte

/-- The conversion `byte(v)` of an unsigned integer: the low eight bits. -/
def byte (v : Nat) : Byte := ⟨v % 256, Nat.mod_lt _ (by decide)⟩

/-- An ASCII string literal of the source as bytes. -/
def lit (s : String) : GoString := s.toList.map (fun c => byte c.toNat)

/-- The builtin `copy(dst, src)`: the new contents of `dst`. -/
def copy (dst src : List Byte) : List Byte := src.take dst.length ++ dst.drop src.length

/-- The Unicode replacement character, which `range` yields for invalid UTF-8. -/
def RuneError : Nat := 0xFFFD

/-- Continuation byte of a UTF-8 sequence. -/
def isCont (b : Byte) : Bool := 0x80 ≤ b.val && b.val ≤ 0xBF

/-- Decoding of the first rune of a string, as the `range` clause does it: the rune and
the number of bytes it takes. Invalid or short sequences give `(RuneError, 1)`. -/
def decodeRune : GoString → Nat × Nat
  | [] => (RuneError, 0)
  | b0 :: rest =>
    if b0.val < 0x80 then (b0.val, 1)
    else if 0xC2 ≤ b0.val ∧ b0.val ≤ 0xDF then
      match rest with
      | b1 :: _ =>
        if isCont b1 then (b0.val % 32 * 64 + b1.val % 64, 2) else (RuneError, 1)
      | [] => (RuneError, 1)
    else if 0xE0 ≤ b0.val ∧ b0.val ≤ 0xEF then
      match rest with
      | b1 :: b2 :: _ =>
        let lo := if b0.val = 0xE0 then 0xA0 else 0x80
        let hi := if b0.val = 0xED then 0x9F else 0xBF
        if lo ≤ b1.val ∧ b1.val ≤ hi ∧ isCont b2 then
          (b0.val % 16 * 4096 + b1.val % 64 * 64 + b2.val % 64, 3)
        else (RuneError, 1)
      | _ => (RuneError, 1)
    else if 0xF0 ≤ b0.val ∧ b0.val ≤ 0xF4 then
      match rest with
      | b1 :: b2 :: b3 :: _ =>
        let lo := if b0.val = 0xF0 then 0x90 else 0x80
        let hi := if b0.val = 0xF4 then 0x8F else 0xBF
        if lo ≤ b1.val ∧ b1.val ≤ hi ∧ isCont b2 ∧ isCont b3 then
          (b0.val % 8 * 262144 + b1.val % 64 * 4096 + b2.val % 64 * 64 + b3.val % 64, 4)
        else (RuneError, 1)
      | _ => (RuneError, 1)
    else (RuneError, 1)

/-- The runes of `for _, c := range s`, with `fuel` bounding the number of iterations. -/
def rangeRunes : Nat → GoString → List Nat
  | 0, _ => []
  | _ + 1, [] => []
  | fuel + 1, b :: rest =>
    (decodeRune (b :: rest)).1 :: rangeRunes fuel ((b :: rest).drop (decodeRune (b :: rest)).2)

/-- The runes of `for _, c := range s`: every iteration consumes at least one byte, so
`len(s)` iterations are enough. -/
def rangeString (s : GoString) : List Nat := rangeRunes s.length s

/-- Body of the loop of `isPid` over the runes of the name. -/
def isPidLoop : List Nat → Bool
  | [] => true
  | c :: cs => if c < 48 ∨ c > 57 then false else isPidLoop cs

/-- Source `isPid`: no rune of the name is outside `'0'..'9'`. -/
def isPid (name : GoString) : Bool := isPidLoop (rangeString name)

/-- Digits of `fmt`'s `%d` for an unsigned value, most significant first. -/
def fmtUintAux : Nat → Nat → List Byte → List Byte
  | 0, _, acc => acc
  | fuel + 1, n, acc =>
    if n / 10 = 0 then byte (48 + n % 10) :: acc
    else fmtUintAux fuel (n / 10) (byte (48 + n % 10) :: acc)

/-- The verb `%d` of `fmt` applied to an unsigned integer. -/
def fmtUint (n : Nat) : GoString := fmtUintAux (n + 1) n []

/-! ## Errors -/

/-- Go `error` values that reach the functions of this file. -/
inductive Error where
  /-- The sentinel `ErrInvalidNetwork`. -/
  | ErrInvalidNetwork
  /-- The sentinel `ErrNotFound`. -/
  | ErrNotFound
  /-- A failure of `netlink.Dial` or `Conn.Execute`, with the code the kernel gave. -/
  | netlink (code : Nat)
  /-- An `*os.PathError`: operation, path and errno. -/
  | pathError (op : GoString) (path : GoString) (errno : Nat)
  /-- An error made by `fmt.Errorf`, with its message. -/
  | errorf (msg : GoString)
  deriving DecidableEq, Repr

/-! ## `netip` endpoints -/

/-- A `netip.Addr`: the zero value, an IPv4 address, or an IPv6 address with a zone. -/
inductive Addr where
  | zero
  | v4 (a b c d : Byte)
  | v6 (bytes : { l : List Byte // l.length = 16 }) (zone : GoString)
  deriving DecidableEq

/-- The method `Addr.Is4`. -/
def Addr.Is4 : Addr → Bool
  | .v4 _ _ _ _ => true
  | _ => false

/-- The method `Addr.Is6` (true for IPv4-mapped IPv6 addresses too). -/
def Addr.Is6 : Addr → Bool
  | .v6 _ _ => true
  | _ => false

/-- The method `Addr.AsSlice`: 4 bytes, 16 bytes, or nil for the zero address. -/
def Addr.AsSlice : Addr → List Byte
  | .zero => []
  | .v4 a b c d => [a, b, c, d]
  | .v6 bytes _ => bytes.val

/-- A `netip.AddrPort`; the port is a `uint16`. -/
structure AddrPort where
  ip : Addr
  port : Fin 65536
  deriving DecidableEq

/-- The method `AddrPort.Addr`. -/
def AddrPort.Addr (p : AddrPort) : Addr := p.ip

/-- The method `AddrPort.Port`. -/
def AddrPort.Port (p : AddrPort) : Nat := p.port.val

/-! ## Constants of `golang.org/x/sys/unix` and `netlink` -/

def AF_INET : Byte := 2
def AF_INET6 : Byte := 10
def IPPROTO_TCP : Byte := 6
def IPPROTO_UDP : Byte := 17
def NETLINK_INET_DIAG : Nat := 4
/-- The header flag `netlink.Request`. -/
def netlinkRequest : Nat := 1

/-- The network names `TCP` and `UDP`. They are constants of the package declared
outside the file embedded here, so they are parameters; being the constant cases of one
`switch`, they are distinct. -/
structure Networks where
  TCP : GoString
  UDP : GoString
  distinct : TCP ≠ UDP

/-! ## Wire structures -/

/-- Byte order of the host, which fixes the memory image of `uint32` fields. -/
inductive ByteOrder where
  | little
  | big
  deriving DecidableEq, Repr

/-- Memory image of a `uint32`. -/
def putU32 : ByteOrder → Nat → List Byte
  | .little, v => [byte v, byte (v >>> 8), byte (v >>> 16), byte (v >>> 24)]
  | .big, v => [byte (v >>> 24), byte (v >>> 16), byte (v >>> 8), byte v]

/-- The `uint32` whose memory image starts the given bytes. -/
def getU32 : ByteOrder → List Byte → Nat
  | .little, d =>
    (d.getD 0 0).val + 256 * (d.getD 1 0).val + 65536 * (d.getD 2 0).val
      + 16777216 * (d.getD 3 0).val
  | .big, d =>
    16777216 * (d.getD 0 0).val + 65536 * (d.getD 1 0).val + 256 * (d.getD 2 0).val
      + (d.getD 3 0).val

/-- The call `binary.BigEndian.PutUint16(b, v)`: the new contents of `b`. -/
def bigEndianPutUint16 (b : List Byte) (v : Nat) : List Byte :=
  (b.set 0 (byte (v >>> 8))).set 1 (byte v)

/-- Source `inetDiagRequest`. Arrays are lists of their declared length. -/
structure inetDiagRequest where
  Family : Byte
  Protocol : Byte
  Ext : Byte
  Pad : Byte
  States : Nat
  SrcPort : List Byte
  DstPort : List Byte
  Src : List Byte
  Dst : List Byte
  If : Nat
  Cookie : List Nat
  deriving DecidableEq

/-- Source `inetDiagResponse`. -/
structure inetDiagResponse where
  Family : Byte
  State : Byte
  Timer : Byte
  ReTrans : Byte
  SrcPort : List Byte
  DstPort : List Byte
  Src : List Byte
  Dst : List Byte
  If : Nat
  Cookie : List Nat
  Expires : Nat
  RQueue : Nat
  WQueue : Nat
  UID : Nat
  INode : Nat
  deriving DecidableEq

/-- Size and alignment of one struct field. -/
structure Field where
  size : Nat
  align : Nat

/-- The next multiple of `a` at or after `off`. -/
def alignUp (off a : Nat) : Nat := (off + a - 1) / a * a

/-- Offsets of the fields of a struct laid out from `off`, in declaration order. -/
def fieldOffsets : Nat → List Field → List Nat
  | _, [] => []
  | off, f :: fs => alignUp off f.align :: fieldOffsets (alignUp off f.align + f.size) fs

/-- End of the last field of a struct laid out from `off`. -/
def fieldsEnd : Nat → List Field → Nat
  | off, [] => off
  | off, f :: fs => fieldsEnd (alignUp off f.align + f.size) fs

/-- Value of `unsafe.Sizeof` for a struct with the given fields. -/
def structSize (fs : List Field) : Nat :=
  alignUp (fieldsEnd 0 fs) (fs.foldl (fun a f => max a f.align) 1)

def fByte : Field := ⟨1, 1⟩
def fBytes2 : Field := ⟨2, 1⟩
def fBytes16 : Field := ⟨16, 1⟩
def fUint32 : Field := ⟨4, 4⟩
def fUint32x2 : Field := ⟨8, 4⟩

/-- Fields of `inetDiagResponse`, in declaration order. -/
def responseFields : List Field :=
  [fByte, fByte, fByte, fByte, fBytes2, fBytes2, fBytes16, fBytes16, fUint32, fUint32x2,
   fUint32, fUint32, fUint32, fUint32, fUint32]

/-- Offset of the `i`-th field of `inetDiagResponse`. -/
def responseOffset (i : Nat) : Nat := (fieldOffsets 0 responseFields).getD i 0

/-- The constant `unsafe.Sizeof(inetDiagResponse{})`. -/
def sizeofResponse : Nat := structSize responseFields

/-- The cast `(*inetDiagResponse)(unsafe.Pointer(&data[0]))`: each field read from the
bytes at its offset. -/
def inetDiagResponse.overlay (o : ByteOrder) (data : List Byte) : inetDiagResponse where
  Family := data.getD (responseOffset 0) 0
  State := data.getD (responseOffset 1) 0
  Timer := data.getD (responseOffset 2) 0
  ReTrans := data.getD (responseOffset 3) 0
  SrcPort := (data.drop (responseOffset 4)).take 2
  DstPort := (data.drop (responseOffset 5)).take 2
  Src := (data.drop (responseOffset 6)).take 16
  Dst := (data.drop (responseOffset 7)).take 16
  If := getU32 o (data.drop (responseOffset 8))
  Cookie := [getU32 o (data.drop (responseOffset 9)), getU32 o (data.drop (responseOffset 9 + 4))]
  Expires := getU32 o (data.drop (responseOffset 10))
  RQueue := getU32 o (data.drop (responseOffset 11))
  WQueue := getU32 o (data.drop (responseOffset 12))
  UID := getU32 o (data.drop (responseOffset 13))
  INode := getU32 o (data.drop (responseOffset 14))

/-- The cast `(*[unsafe.Sizeof(*request)]byte)(unsafe.Pointer(request))[:]`: the memory
image of the request. No field needs padding before it. -/
def inetDiagRequest.raw (o : ByteOrder) (r : inetDiagRequest) : List Byte :=
  [r.Family, r.Protocol, r.Ext, r.Pad] ++ putU32 o r.States ++ r.SrcPort ++ r.DstPort
    ++ r.Src ++ r.Dst ++ putU32 o r.If ++ (r.Cookie.map (putU32 o)).flatten

/-- A `netlink.Header`; `Type_` is its field `Type`. -/
structure Header where
  Length : Nat
  Type_ : Nat
  Flags : Nat
  Sequence : Nat
  PID : Nat
  deriving DecidableEq

/-- A `netlink.Message`. -/
structure Message where
  Header : Header
  Data : List Byte
  deriving DecidableEq

/-! ## The world outside: kernel, `/proc`, buffer pool -/

/-- Modelled from the spec: the scratch buffer pool (package `common/pool`, not among the
embedded sources). A checked-out buffer has at least the requested size; what it holds
is whatever its previous user left in it. -/
structure Pool where
  get : Nat → List Byte
  size_le : ∀ n, n ≤ (get n).length

/-- What the functions observe of the kernel and of the pool. System calls answer with
a value or an errno. -/
structure World where
  /-- Byte order of the host. -/
  hostOrder : ByteOrder
  /-- Outcome of `netlink.Dial(family, nil)`. -/
  dial : Nat → Except Nat Unit
  /-- Outcome of `conn.Execute(message)`. -/
  execute : Message → Except Nat (List Message)
  /-- Outcome of `os.Open(path)`. -/
  osOpen : GoString → Except Nat Unit
  /-- Outcome of `Readdirnames(-1)` on the directory opened at `path`. -/
  readdirnames : GoString → Except Nat (List GoString)
  /-- Owner uid reported by `unix.Stat(path, stat)`. -/
  stat : GoString → Except Nat Nat
  /-- Target of the symbolic link at `path`. -/
  readlink : GoString → Except Nat GoString
  /-- The buffer pool. -/
  pool : Pool

/-- Calls that leave the process, in the order they are made. -/
inductive Event where
  | dial (family : Nat)
  | execute (message : Message)
  | connClose
  | osOpen (path : GoString)
  | readdirnames (path : GoString)
  | fileClose (path : GoString)
  | stat (path : GoString)
  | unixReadlink (path : GoString) (bufLen : Nat)
  | osReadlink (path : GoString)
  | poolGet (size : Nat)
  | poolPut (bufLen : Nat)
  deriving DecidableEq

/-- The call `unix.Readlink(path, buf)`: the count returned or the errno, and the new
contents of `buf` (the link target, cut to the length of `buf`). -/
def unixReadlink (w : World) (path : GoString) (buf : List Byte) : Except Nat Nat × List Byte :=
  match w.readlink path with
  | .error e => (.error e, buf)
  | .ok target => (.ok (min target.length buf.length), copy buf target)

/-- The call `os.Readlink(name)`: the whole target, or the empty string and a
`*PathError`. -/
def osReadlink (w : World) (name : GoString) : GoString × Option Error :=
  match w.readlink name with
  | .error e => ([], some (.pathError (lit "readlink") name e))
  | .ok target => (target, none)

/-! ## `resolveSocketByNetlink` -/

/-- Lines 62-94 of `resolveSocketByNetlink`: the request for `network`, `from`, `to`;
`none` is the `default` case of the switch, which returns `ErrInvalidNetwork`. -/
def buildRequest (c : Networks) (network : GoString) (from_ to_ : AddrPort) :
    Option inetDiagRequest :=
  let request : inetDiagRequest :=
    { Family := 0, Protocol := 0, Ext := 0, Pad := 0,
      States := 0xffffffff,
      SrcPort := List.replicate 2 0, DstPort := List.replicate 2 0,
      Src := List.replicate 16 0, Dst := List.replicate 16 0,
      If := 0,
      Cookie := [0xffffffff, 0xffffffff] }
  let request :=
    if from_.Addr.Is4 then { request with Family := AF_INET }
    else { request with Family := AF_INET6 }
  if network = c.TCP then
    let request := { request with Protocol := IPPROTO_TCP }
    let request := { request with Src := copy request.Src from_.Addr.AsSlice }
    let request := { request with Dst := copy request.Dst to_.Addr.AsSlice }
    let request := { request with SrcPort := bigEndianPutUint16 request.SrcPort from_.Port }
    let request := { request with DstPort := bigEndianPutUint16 request.DstPort to_.Port }
    some request
  else if network = c.UDP then
    let request := { request with Protocol := IPPROTO_UDP }
    let request := { request with Dst := copy request.Dst from_.Addr.AsSlice }
    let request := { request with Src := copy request.Src to_.Addr.AsSlice }
    let request := { request with DstPort := bigEndianPutUint16 request.DstPort from_.Port }
    let request := { request with SrcPort := bigEndianPutUint16 request.SrcPort to_.Port }
    some request
  else none

/-- The loop `for _, msg := range messages` of `resolveSocketByNetlink`: `some (inode,
uid)` when an iteration returns, `none` when the loop ends. -/
def scanMessages (o : ByteOrder) : List Message → Option (Nat × Nat)
  | [] => none
  | msg :: rest =>
    if msg.Data.length < sizeofResponse then scanMessages o rest
    else
      let response := inetDiagResponse.overlay o msg.Data
      some (response.INode, response.UID)

/-- The header of the message that `resolveSocketByNetlink` sends: type 20
(`SOCK_DIAG_BY_FAMILY`), flags `netlink.Request`, the other fields zero. -/
def requestHeader : Header :=
  { Length := 0, Type_ := 20, Flags := netlinkRequest, Sequence := 0, PID := 0 }

/-- Source `resolveSocketByNetlink`: `(inode, uid, err)` and the calls made. -/
def resolveSocketByNetlink (c : Networks) (w : World) (network : GoString)
    (from_ to_ : AddrPort) : (Nat × Nat × Option Error) × List Event :=
  match buildRequest c network from_ to_ with
  | none => ((0, 0, some .ErrInvalidNetwork), [])
  | some request =>
    match w.dial NETLINK_INET_DIAG with
    | .error e => ((0, 0, some (.netlink e)), [.dial NETLINK_INET_DIAG])
    | .ok _ =>
      let message : Message := { Header := requestHeader, Data := request.raw w.hostOrder }
      match w.execute message with
      | .error e =>
        ((0, 0, some (.netlink e)), [.dial NETLINK_INET_DIAG, .execute message, .connClose])
      | .ok messages =>
        match scanMessages w.hostOrder messages with
        | some (inode, uid) =>
          ((inode, uid, none), [.dial NETLINK_INET_DIAG, .execute message, .connClose])
        | none =>
          ((0, 0, some .ErrNotFound), [.dial NETLINK_INET_DIAG, .execute message, .connClose])

/-! ## `resolveProcessPathByProcSearch` -/

/-- Local state of the scan: the two scratch buffers and the calls made so far. -/
structure Scan where
  pathBuffer : List Byte
  readlinkBuffer : List Byte
  trace : List Event

/-- The inner loop `for _, fd := range fds`: `some` is the value the function returns
from inside the loop, `none` means the loop ran to its end. -/
def fdLoop (w : World) (expectedSocketName : GoString) (pid : GoString)
    (fdsPrefixLength : Nat) : List GoString → Scan → Option (GoString × Option Error) × Scan
  | [], s => (none, s)
  | fd :: fds, s =>
    let pathBuffer := s.pathBuffer.take fdsPrefixLength
    let pathBuffer := pathBuffer ++ fd
    let trace := s.trace ++ [.unixReadlink pathBuffer s.readlinkBuffer.length]
    match unixReadlink w pathBuffer s.readlinkBuffer with
    | (.error _, readlinkBuffer) =>
      fdLoop w expectedSocketName pid fdsPrefixLength fds ⟨pathBuffer, readlinkBuffer, trace⟩
    | (.ok n, readlinkBuffer) =>
      if readlinkBuffer.take n = expectedSocketName then
        (some (osReadlink w (lit "/proc/" ++ pid ++ lit "/exe")),
          ⟨pathBuffer, readlinkBuffer, trace ++ [.osReadlink (lit "/proc/" ++ pid ++ lit "/exe")]⟩)
      else
        fdLoop w expectedSocketName pid fdsPrefixLength fds ⟨pathBuffer, readlinkBuffer, trace⟩

/-- The outer loop `for _, pid := range pids`. -/
def pidLoop (w : World) (uid : Nat) (expectedSocketName : GoString) :
    List GoString → Scan → Option (GoString × Option Error) × Scan
  | [], s => (none, s)
  | pid :: pids, s =>
    if !isPid pid then pidLoop w uid expectedSocketName pids s
    else
      let pathBuffer := s.pathBuffer.take (lit "/proc/").length ++ pid
      let trace := s.trace ++ [.stat pathBuffer]
      match w.stat pathBuffer with
      | .error _ => pidLoop w uid expectedSocketName pids ⟨pathBuffer, s.readlinkBuffer, trace⟩
      | .ok statUid =>
        if statUid ≠ uid then
          pidLoop w uid expectedSocketName pids ⟨pathBuffer, s.readlinkBuffer, trace⟩
        else
          let pathBuffer := pathBuffer ++ lit "/fd/"
          let fdsPrefixLength := pathBuffer.length
          let trace := trace ++ [.osOpen pathBuffer]
          match w.osOpen pathBuffer with
          | .error _ =>
            pidLoop w uid expectedSocketName pids ⟨pathBuffer, s.readlinkBuffer, trace⟩
          | .ok _ =>
            let trace := trace ++ [.readdirnames pathBuffer, .fileClose pathBuffer]
            match w.readdirnames pathBuffer with
            | .error _ =>
              pidLoop w uid expectedSocketName pids ⟨pathBuffer, s.readlinkBuffer, trace⟩
            | .ok fds =>
              match fdLoop w expectedSocketName pid fdsPrefixLength fds
                  ⟨pathBuffer, s.readlinkBuffer, trace⟩ with
              | (some ret, s1) => (some ret, s1)
              | (none, s1) => pidLoop w uid expectedSocketName pids s1

/-- Source `resolveProcessPathByProcSearch`: `(path, err)` and the calls made. The
deferred calls run last, in reverse order of their `defer` statements. -/
def resolveProcessPathByProcSearch (w : World) (inode uid : Nat) :
    (GoString × Option Error) × List Event :=
  match w.osOpen (lit "/proc") with
  | .error e => (([], some (.pathError (lit "open") (lit "/proc") e)), [.osOpen (lit "/proc")])
  | .ok _ =>
    match w.readdirnames (lit "/proc") with
    | .error e =>
      (([], some (.pathError (lit "readdirent") (lit "/proc") e)),
        [.osOpen (lit "/proc"), .readdirnames (lit "/proc"), .fileClose (lit "/proc")])
    | .ok pids =>
      let expectedSocketName := lit "socket:[" ++ fmtUint inode ++ lit "]"
      let pathBuffer := w.pool.get 64
      let readlinkBuffer := w.pool.get 32
      let deferred : List Event :=
        [.poolPut readlinkBuffer.length, .poolPut pathBuffer.length, .fileClose (lit "/proc")]
      let s : Scan :=
        ⟨copy pathBuffer (lit "/proc/"), readlinkBuffer,
          [.osOpen (lit "/proc"), .readdirnames (lit "/proc"), .poolGet 64, .poolGet 32]⟩
      match pidLoop w uid expectedSocketName pids s with
      | (some ret, s1) => (ret, s1.trace ++ deferred)
      | (none, s1) =>
        (([], some (.errorf (lit "inode " ++ fmtUint inode ++ lit " of uid " ++ fmtUint uid
            ++ lit " not found"))), s1.trace ++ deferred)

/-! ## `findProcessPath` -/

/-- Source `findProcessPath`. -/
def findProcessPath (c : Networks) (w : World) (network : GoString) (from_ to_ : AddrPort) :
    (GoString × Option Error) × List Event :=
  match resolveSocketByNetlink c w network from_ to_ with
  | ((_, _, some err), trace) => (([], some err), trace)
  | ((inode, uid, none), trace) =>
    ((resolveProcessPathByProcSearch w inode uid).1,
      trace ++ (resolveProcessPathByProcSearch w inode uid).2)

/-! ## Vocabulary of the specification -/

/-- Every byte of the name is an ASCII decimal digit. -/
def allDigits (name : GoString) : Bool := name.all (fun b => 48 ≤ b.val && b.val ≤ 57)

/-- The text `socket:[<inode>]`, inode in decimal. -/
def socketName (inode : Nat) : GoString := lit "socket:[" ++ fmtUint inode ++ lit "]"

/-- Path of the directory of process `pid`. -/
def procPath (pid : GoString) : GoString := lit "/proc/" ++ pid

/-- Path of the descriptor directory of process `pid`. -/
def fdDirPath (pid : GoString) : GoString := lit "/proc/" ++ pid ++ lit "/fd/"

/-- Path of the executable link of process `pid`. -/
def exePath (pid : GoString) : GoString := lit "/proc/" ++ pid ++ lit "/exe"

/-- The link at `path` can be read and its target is exactly `name`. -/
def linksTo (w : World) (path name : GoString) : Bool :=
  match w.readlink path with
  | .ok target => target = name
  | .error _ => false

/-- The directory of `pid` can be inspected and its owner is `uid`. -/
def ownedBy (w : World) (uid : Nat) (pid : GoString) : Bool :=
  match w.stat (procPath pid) with
  | .ok owner => owner = uid
  | .error _ => false

/-- The descriptor directory of `pid` can be opened and listed, and one of its descriptors
links to `socket:[<inode>]`. -/
def hasSocketDescriptor (w : World) (inode : Nat) (pid : GoString) : Bool :=
  match w.osOpen (fdDirPath pid), w.readdirnames (fdDirPath pid) with
  | .ok _, .ok fds => fds.any (fun fd => linksTo w (fdDirPath pid ++ fd) (socketName inode))
  | _, _ => false

/-- An all-digit entry owned by `uid` that has a descriptor linking to
`socket:[<inode>]`. -/
def holdsSocket (w : World) (inode uid : Nat) (pid : GoString) : Bool :=
  allDigits pid && ownedBy w uid pid && hasSocketDescriptor w inode pid

/-- The number that a string of decimal digits denotes. -/
def decimalValue (s : GoString) : Nat := s.foldl (fun acc b => 10 * acc + (b.val - 48)) 0

/-- The error that ends a search without a match. -/
def notFoundError (inode uid : Nat) : Error :=
  .errorf (lit "inode " ++ fmtUint inode ++ lit " of uid " ++ fmtUint uid ++ lit " not found")

/-- The calls a scan over the listing `pids` may make, `bufLen` being the length of the
readlink buffer: a stat for an all-digit entry; open, list, close and descriptor reads
only for an all-digit entry owned by `uid`; the read of an executable link only for an
entry that holds the socket. -/
inductive ScanEvent (w : World) (inode uid bufLen : Nat) (pids : List GoString) : Event → Prop
  | stat (p : GoString) : p ∈ pids → allDigits p = true → ScanEvent w inode uid bufLen pids (.stat (procPath p))
  | osOpen (p : GoString) : p ∈ pids → allDigits p = true → ownedBy w uid p = true →
      ScanEvent w inode uid bufLen pids (.osOpen (fdDirPath p))
  | readdirnames (p : GoString) : p ∈ pids → allDigits p = true → ownedBy w uid p = true →
      ScanEvent w inode uid bufLen pids (.readdirnames (fdDirPath p))
  | fileClose (p : GoString) : p ∈ pids → allDigits p = true → ownedBy w uid p = true →
      ScanEvent w inode uid bufLen pids (.fileClose (fdDirPath p))
  | unixReadlink (p fd : GoString) : p ∈ pids → allDigits p = true → ownedBy w uid p = true →
      ScanEvent w inode uid bufLen pids (.unixReadlink (fdDirPath p ++ fd) bufLen)
  | osReadlink (p : GoString) : p ∈ pids → holdsSocket w inode uid p = true →
      ScanEvent w inode uid bufLen pids (.osReadlink (exePath p))

/-- The calls of a search outside its scan loop: listing `/proc`, the two checkouts, and
the deferred calls. -/
def frameEvents (w : World) : List Event :=
  [.osOpen (lit "/proc"), .readdirnames (lit "/proc"), .poolGet 64, .poolGet 32,
   .poolPut (w.pool.get 32).length, .poolPut (w.pool.get 64).length, .fileClose (lit "/proc")]

/-! ## Sample worlds -/

deriving instance DecidableEq for Except

/-- The networks as the package declares them. -/
def sampleNetworks : Networks := ⟨lit "tcp", lit "udp", by decide⟩

/-- A pool that hands out zeroed buffers of exactly the requested size. -/
def zeroPool : Pool := ⟨fun n => List.replicate n 0, fun n => by simp⟩

/-- A payload of 72 bytes with the given uid and inode, other fields zero. -/
def samplePayload (o : ByteOrder) (uid inode : Nat) : List Byte :=
  List.replicate 64 0 ++ putU32 o uid ++ putU32 o inode

/-- A host where process 4242, owned by `owner`, has descriptor 3 linking to
`socket:[88221]` and runs `/usr/bin/curl`; the kernel answers every request with a
message of 20 bytes, then inode 88221 of uid 1000, then inode 9 of uid 7. -/
def sampleWorld (owner : Nat) : World where
  hostOrder := .little
  dial := fun _ => .ok ()
  execute := fun _ => .ok [⟨requestHeader, List.replicate 20 0⟩,
    ⟨requestHeader, samplePayload .little 1000 88221⟩, ⟨requestHeader, samplePayload .little 7 9⟩]
  osOpen := fun _ => .ok ()
  readdirnames := fun p =>
    if p = lit "/proc" then .ok [lit "self", lit "1", lit "4242"]
    else if p = lit "/proc/4242/fd/" then .ok [lit "0", lit "3"]
    else .ok []
  stat := fun p => if p = lit "/proc/4242" then .ok owner else .ok 0
  readlink := fun p =>
    if p = lit "/proc/4242/fd/3" then .ok (lit "socket:[88221]")
    else if p = lit "/proc/4242/exe" then .ok (lit "/usr/bin/curl")
    else .ok (lit "/dev/null")
  pool := zeroPool

/-- A host where processes 1 and 2, both of uid 0, hold `socket:[7]`, and the executable
link of process 1 cannot be read (errno 13) while that of process 2 reads `/bin/b`. -/
def unreadableExeWorld : World where
  hostOrder := .little
  dial := fun _ => .ok ()
  execute := fun _ => .ok []
  osOpen := fun _ => .ok ()
  readdirnames := fun p => if p = lit "/proc" then .ok [lit "1", lit "2"] else .ok [lit "0"]
  stat := fun _ => .ok 0
  readlink := fun p =>
    if p = lit "/proc/1/exe" then .error 13
    else if p = lit "/proc/2/exe" then .ok (lit "/bin/b")
    else .ok (lit "socket:[7]")
  pool := zeroPool

/-- A host where nothing in `/proc` can be inspected: every stat fails (errno 2). -/
def vanishingWorld : World where
  hostOrder := .big
  dial := fun _ => .ok ()
  execute := fun _ => .ok []
  osOpen := fun _ => .ok ()
  readdirnames := fun p => if p = lit "/proc" then .ok [lit "1", lit "2"] else .error 13
  stat := fun _ => .error 2
  readlink := fun _ => .error 2
  pool := zeroPool

/-- The request for TCP from 127.0.0.1:51000 to 93.184.216.34:443. -/
def sampleTcpRequest : inetDiagRequest :=
  { Family := 2, Protocol := 6, Ext := 0, Pad := 0, States := 0xffffffff,
    SrcPort := [199, 56], DstPort := [1, 187],
    Src := [127, 0, 0, 1, 0, 0, 0, 0, 0, 0, 0, 0, 0, 0, 0, 0],
    Dst := [93, 184, 216, 34, 0, 0, 0, 0, 0, 0, 0, 0, 0, 0, 0, 0],
    If := 0, Cookie := [0xffffffff, 0xffffffff] }

/-- The request for UDP from [::1]:8080 to 93.184.216.34:443. -/
def sampleUdp6Request : inetDiagRequest :=
  { Family := 10, Protocol := 17, Ext := 0, Pad := 0, States := 0xffffffff,
    SrcPort := [1, 187], DstPort := [31, 144],
    Src := [93, 184, 216, 34, 0, 0, 0, 0, 0, 0, 0, 0, 0, 0, 0, 0],
    Dst := [0, 0, 0, 0, 0, 0, 0, 0, 0, 0, 0, 0, 0, 0, 0, 1],
    If := 0, Cookie := [0xffffffff, 0xffffffff] }

def localhost51000 : AddrPort := ⟨.v4 127 0 0 1, 51000⟩
def example443 : AddrPort := ⟨.v4 93 184 216 34, 443⟩
def loopback6 : AddrPort :=
  ⟨.v6 ⟨[0, 0, 0, 0, 0, 0, 0, 0, 0, 0, 0, 0, 0, 0, 0, 1], rfl⟩ [], 8080⟩

/-! ## More vocabulary and worlds -/

/-- Fields of `inetDiagRequest`, in declaration order. -/
def requestFields : List Field :=
  [fByte, fByte, fByte, fByte, fUint32, fBytes2, fBytes2, fBytes16, fBytes16, fUint32,
   fUint32x2]

/-- The event is a call on the netlink channel. -/
def Event.isNetlink : Event → Bool
  | .dial _ => true
  | .execute _ => true
  | .connClose => true
  | _ => false

/-- The end-to-end scenario of the specification: asked for the TCP connection from
127.0.0.1:51000 to 93.184.216.34:443 the kernel answers inode 88221 of uid 1000 (any
other request fails); process 4242 is owned by uid 1000, its descriptor 3 links to
`socket:[88221]` and its executable link reads `/usr/bin/curl`. -/
def curlWorld : World where
  hostOrder := .little
  dial := fun _ => .ok ()
  execute := fun m =>
    if m = ⟨requestHeader, sampleTcpRequest.raw .little⟩ then
      .ok [⟨requestHeader, samplePayload .little 1000 88221⟩]
    else .error 22
  osOpen := fun _ => .ok ()
  readdirnames := fun p =>
    if p = lit "/proc" then .ok [lit "cpuinfo", lit "1", lit "4242", lit "self"]
    else if p = lit "/proc/4242/fd/" then .ok [lit "0", lit "1", lit "2", lit "3"]
    else if p = lit "/proc/1/fd/" then .ok [lit "0"]
    else .error 2
  stat := fun p =>
    if p = lit "/proc/4242" then .ok 1000
    else if p = lit "/proc/1" then .ok 0
    else .error 2
  readlink := fun p =>
    if p = lit "/proc/4242/fd/3" then .ok (lit "socket:[88221]")
    else if p = lit "/proc/4242/exe" then .ok (lit "/usr/bin/curl")
    else if p = lit "/proc/1/exe" then .ok (lit "/sbin/init")
    else .ok (lit "/dev/null")
  pool := zeroPool

/-! ## The scan with every path built afresh

The same scan as `pidLoop` and `fdLoop`, written without the path buffer: each path is
made from the names of the candidate and of the descriptor alone, and the comparison
looks at the first `bufLen` bytes of the link target. -/

/-- Reading the descriptors `fds` of candidate `pid`: the value returned from inside the
loop, if any, and the calls made. -/
def descriptorScan (w : World) (expectedSocketName : GoString) (bufLen : Nat) (pid : GoString) :
    List GoString → Option (GoString × Option Error) × List Event
  | [] => (none, [])
  | fd :: fds =>
    match w.readlink (fdDirPath pid ++ fd) with
    | .error _ =>
      ((descriptorScan w expectedSocketName bufLen pid fds).1,
        .unixReadlink (fdDirPath pid ++ fd) bufLen
          :: (descriptorScan w expectedSocketName bufLen pid fds).2)
    | .ok target =>
      if target.take bufLen = expectedSocketName then
        (some (osReadlink w (exePath pid)),
          [.unixReadlink (fdDirPath pid ++ fd) bufLen, .osReadlink (exePath pid)])
      else
        ((descriptorScan w expectedSocketName bufLen pid fds).1,
          .unixReadlink (fdDirPath pid ++ fd) bufLen
            :: (descriptorScan w expectedSocketName bufLen pid fds).2)

/-- What one entry `pid` of the listing of `/proc` contributes: the value returned while
it is examined, if any, and the calls made for it. -/
def candidateScan (w : World) (uid : Nat) (expectedSocketName : GoString) (bufLen : Nat)
    (pid : GoString) : Option (GoString × Option Error) × List Event :=
  if !isPid pid then (none, [])
  else
    match w.stat (procPath pid) with
    | .error _ => (none, [.stat (procPath pid)])
    | .ok owner =>
      if owner ≠ uid then (none, [.stat (procPath pid)])
      else
        match w.osOpen (fdDirPath pid) with
        | .error _ => (none, [.stat (procPath pid), .osOpen (fdDirPath pid)])
        | .ok _ =>
          match w.readdirnames (fdDirPath pid) with
          | .error _ =>
            (none, [.stat (procPath pid), .osOpen (fdDirPath pid),
              .readdirnames (fdDirPath pid), .fileClose (fdDirPath pid)])
          | .ok fds =>
            ((descriptorScan w expectedSocketName bufLen pid fds).1,
              [.stat (procPath pid), .osOpen (fdDirPath pid), .readdirnames (fdDirPath pid),
                .fileClose (fdDirPath pid)]
                ++ (descriptorScan w expectedSocketName bufLen pid fds).2)

/-- The scan of a listing: the entries in order, up to the first one that returns. -/
def listScan (w : World) (uid : Nat) (expectedSocketName : GoString) (bufLen : Nat) :
    List GoString → Option (GoString × Option Error) × List Event
  | [] => (none, [])
  | pid :: pids =>
    match candidateScan w uid expectedSocketName bufLen pid with
    | (some ret, t) => (some ret, t)
    | (none, t) =>
      ((listScan w uid expectedSocketName bufLen pids).1,
        t ++ (listScan w uid expectedSocketName bufLen pids).2)

/-- The event is a checkout from the pool or a return to it. -/
def Event.isPool : Event → Bool
  | .poolGet _ => true
  | .poolPut _ => true
  | _ => false

/-! ## Worlds for the scan -/

/-- The host of `sampleWorld owner` with the entry `self` missing from the listing of
`/proc`. -/
def sampleWorldNoSelf (owner : Nat) : World :=
  { sampleWorld owner with
    readdirnames := fun p =>
      if p = lit "/proc" then .ok [lit "1", lit "4242"]
      else (sampleWorld owner).readdirnames p }

/-- A host whose `/proc` lists a name of 70 digits, owned by uid 5 with one descriptor,
before process 7, also of uid 5, whose descriptor 0 links to `socket:[9]` and whose
executable is `/bin/sh`. -/
def longNameWorld : World where
  hostOrder := .little
  dial := fun _ => .ok ()
  execute := fun _ => .ok []
  osOpen := fun _ => .ok ()
  readdirnames := fun p =>
    if p = lit "/proc" then .ok [List.replicate 70 (byte 49), lit "7"] else .ok [lit "0"]
  stat := fun _ => .ok 5
  readlink := fun p =>
    if p = lit "/proc/7/fd/0" then .ok (lit "socket:[9]")
    else if p = lit "/proc/7/exe" then .ok (lit "/bin/sh")
    else .ok (lit "/dev/null")
  pool := zeroPool

/-! ## Package `protobytes` (`vendor/github.com/Dreamacro/protobytes/bytes.go`)

Integers of Go are natural numbers here; a count `n int` is taken non-negative. A panic
is the result `none`. -/

/-- The constant `smallBufferSize`. -/
def smallBufferSize : Nat := 64

/-- The constant `maxInt`, `math.MaxInt` of a 64-bit platform. -/
def maxInt : Int := 2 ^ 63 - 1

/-- The value an `int` holds after an arithmetic result `x` wraps around. -/
def wrapInt (x : Int) : Int := (x + 2 ^ 63) % 2 ^ 64 - 2 ^ 63

/-- The errors `io.EOF`, `io.ErrUnexpectedEOF` and the overflow error of
`encoding/binary`. -/
inductive ReadError where
  | EOF
  | ErrUnexpectedEOF
  | errOverflow
  deriving DecidableEq, Repr

/-! ### `encoding/binary` -/

/-- The function `binary.BigEndian.Uint16`. -/
def bigEndianUint16 (b : List Byte) : Nat :=
  (b.getD 1 0).val ||| ((b.getD 0 0).val <<< 8)

/-- The function `binary.BigEndian.Uint32`. -/
def bigEndianUint32 (b : List Byte) : Nat :=
  (b.getD 3 0).val ||| ((b.getD 2 0).val <<< 8) ||| ((b.getD 1 0).val <<< 16)
    ||| ((b.getD 0 0).val <<< 24)

/-- The function `binary.BigEndian.Uint64`. -/
def bigEndianUint64 (b : List Byte) : Nat :=
  (b.getD 7 0).val ||| ((b.getD 6 0).val <<< 8) ||| ((b.getD 5 0).val <<< 16)
    ||| ((b.getD 4 0).val <<< 24) ||| ((b.getD 3 0).val <<< 32) ||| ((b.getD 2 0).val <<< 40)
    ||| ((b.getD 1 0).val <<< 48) ||| ((b.getD 0 0).val <<< 56)

/-- The function `binary.LittleEndian.Uint16`. -/
def littleEndianUint16 (b : List Byte) : Nat :=
  (b.getD 0 0).val ||| ((b.getD 1 0).val <<< 8)

/-- The function `binary.LittleEndian.Uint32`. -/
def littleEndianUint32 (b : List Byte) : Nat :=
  (b.getD 0 0).val ||| ((b.getD 1 0).val <<< 8) ||| ((b.getD 2 0).val <<< 16)
    ||| ((b.getD 3 0).val <<< 24)

/-- The function `binary.LittleEndian.Uint64`. -/
def littleEndianUint64 (b : List Byte) : Nat :=
  (b.getD 0 0).val ||| ((b.getD 1 0).val <<< 8) ||| ((b.getD 2 0).val <<< 16)
    ||| ((b.getD 3 0).val <<< 24) ||| ((b.getD 4 0).val <<< 32) ||| ((b.getD 5 0).val <<< 40)
    ||| ((b.getD 6 0).val <<< 48) ||| ((b.getD 7 0).val <<< 56)

/-- The function `binary.BigEndian.PutUint32`: the new contents of `b`. -/
def bigEndianPutUint32 (b : List Byte) (v : Nat) : List Byte :=
  (((b.set 0 (byte (v >>> 24))).set 1 (byte (v >>> 16))).set 2 (byte (v >>> 8))).set 3 (byte v)

/-- The function `binary.BigEndian.PutUint64`: the new contents of `b`. -/
def bigEndianPutUint64 (b : List Byte) (v : Nat) : List Byte :=
  (((((((b.set 0 (byte (v >>> 56))).set 1 (byte (v >>> 48))).set 2 (byte (v >>> 40))).set 3
    (byte (v >>> 32))).set 4 (byte (v >>> 24))).set 5 (byte (v >>> 16))).set 6
    (byte (v >>> 8))).set 7 (byte v)

/-- The function `binary.LittleEndian.PutUint16`: the new contents of `b`. -/
def littleEndianPutUint16 (b : List Byte) (v : Nat) : List Byte :=
  (b.set 0 (byte v)).set 1 (byte (v >>> 8))

/-- The function `binary.LittleEndian.PutUint32`: the new contents of `b`. -/
def littleEndianPutUint32 (b : List Byte) (v : Nat) : List Byte :=
  (((b.set 0 (byte v)).set 1 (byte (v >>> 8))).set 2 (byte (v >>> 16))).set 3 (byte (v >>> 24))

/-- The function `binary.LittleEndian.PutUint64`: the new contents of `b`. -/
def littleEndianPutUint64 (b : List Byte) (v : Nat) : List Byte :=
  (((((((b.set 0 (byte v)).set 1 (byte (v >>> 8))).set 2 (byte (v >>> 16))).set 3
    (byte (v >>> 24))).set 4 (byte (v >>> 32))).set 5 (byte (v >>> 40))).set 6
    (byte (v >>> 48))).set 7 (byte (v >>> 56))

/-- The constant `binary.MaxVarintLen64`. -/
def MaxVarintLen64 : Nat := 10

/-- The loop of `binary.PutUvarint(buf, x)` from index `i`, at most `fuel` bytes: the new
contents of `buf` and the count returned; `none` when an index is out of range or the
fuel runs out. -/
def putUvarintLoop : Nat → List Byte → Nat → Nat → Option (List Byte × Nat)
  | 0, _, _, _ => none
  | fuel + 1, buf, i, x =>
    if buf.length ≤ i then none
    else if x ≥ 0x80 then putUvarintLoop fuel (buf.set i (byte (x % 256 ||| 0x80))) (i + 1) (x >>> 7)
    else some (buf.set i (byte x), i + 1)

/-- The function `binary.PutUvarint(buf, x)` for a `uint64` `x`, which takes at most
`MaxVarintLen64` bytes. -/
def putUvarint (buf : List Byte) (x : Nat) : Option (List Byte × Nat) :=
  putUvarintLoop MaxVarintLen64 buf 0 x

/-- The function `binary.PutVarint(buf, x)` for an `int64` `x`: `ux := uint64(x) << 1`,
complemented when `x` is negative. -/
def putVarint (buf : List Byte) (x : Int) : Option (List Byte × Nat) :=
  let ux := ((x % 2 ^ 64).toNat <<< 1) % 2 ^ 64
  let ux := if x < 0 then 2 ^ 64 - 1 - ux else ux
  putUvarint buf ux

/-! ### `BytesReader` -/

/-- A `BytesReader`: the bytes not read yet. -/
abbrev BytesReader := List Byte

/-- Source `BytesReader.Len`. -/
def BytesReader.Len (b : BytesReader) : Nat := b.length

/-- Source `BytesReader.IsEmpty`. -/
def BytesReader.IsEmpty (b : BytesReader) : Bool := b.Len == 0

/-- Source `BytesReader.ReadUint8`: the value and the reader after it; it panics on an
empty reader. -/
def BytesReader.ReadUint8 (b : BytesReader) : Option (Nat × BytesReader) :=
  match b with
  | [] => none
  | r :: rest => some (r.val, rest)

/-- Source `BytesReader.ReadUint16be`; with fewer than 2 bytes one of its two slice
expressions panics. -/
def BytesReader.ReadUint16be (b : BytesReader) : Option (Nat × BytesReader) :=
  if b.Len < 2 then none else some (bigEndianUint16 (b.take 2), b.drop 2)

/-- Source `BytesReader.ReadUint32be`. -/
def BytesReader.ReadUint32be (b : BytesReader) : Option (Nat × BytesReader) :=
  if b.Len < 4 then none else some (bigEndianUint32 (b.take 4), b.drop 4)

/-- Source `BytesReader.ReadUint64be`. -/
def BytesReader.ReadUint64be (b : BytesReader) : Option (Nat × BytesReader) :=
  if b.Len < 8 then none else some (bigEndianUint64 (b.take 8), b.drop 8)

/-- Source `BytesReader.ReadUint16le`. -/
def BytesReader.ReadUint16le (b : BytesReader) : Option (Nat × BytesReader) :=
  if b.Len < 2 then none else some (littleEndianUint16 (b.take 2), b.drop 2)

/-- Source `BytesReader.ReadUint32le`. -/
def BytesReader.ReadUint32le (b : BytesReader) : Option (Nat × BytesReader) :=
  if b.Len < 4 then none else some (littleEndianUint32 (b.take 4), b.drop 4)

/-- Source `BytesReader.ReadUint64le`. -/
def BytesReader.ReadUint64le (b : BytesReader) : Option (Nat × BytesReader) :=
  if b.Len < 8 then none else some (littleEndianUint64 (b.take 8), b.drop 8)

/-- Source `BytesReader.Read`: `(n, err)`, the reader afterwards, and the new contents
of `p`. -/
def BytesReader.Read (b : BytesReader) (p : List Byte) :
    (Nat × Option ReadError) × BytesReader × List Byte :=
  if b.IsEmpty then
    if p.length = 0 then ((0, none), b, p)
    else ((0, some .EOF), b, p)
  else
    let n := min p.length b.length
    ((n, none), b.drop n, copy p b)

/-- Source `BytesReader.ReadByte`. -/
def BytesReader.ReadByte (b : BytesReader) : (Nat × Option ReadError) × BytesReader :=
  if b.Len = 0 then ((0, some .EOF), b)
  else
    match b.ReadUint8 with
    | some (r, rest) => ((r, none), rest)
    | none => ((0, some .EOF), b)

/-- The loop of `binary.ReadUvarint(r)` with `k` iterations left, at iteration `i` with
accumulator `x` and shift `s`. -/
def readUvarintLoop : Nat → Nat → Nat → Nat → BytesReader → (Nat × Option ReadError) × BytesReader
  | 0, _, x, _, r => ((x, some .errOverflow), r)
  | k + 1, i, x, s, r =>
    match r.ReadByte with
    | ((_, some err), r1) =>
      ((x, some (if i > 0 ∧ err = .EOF then .ErrUnexpectedEOF else err)), r1)
    | ((b, none), r1) =>
      if b < 0x80 then
        if i = MaxVarintLen64 - 1 ∧ b > 1 then ((x, some .errOverflow), r1)
        else ((x ||| ((b <<< s) % 2 ^ 64), none), r1)
      else readUvarintLoop k (i + 1) (x ||| (((b &&& 0x7f) <<< s) % 2 ^ 64)) (s + 7) r1

/-- The function `binary.ReadUvarint(r)`. -/
def readUvarint (r : BytesReader) : (Nat × Option ReadError) × BytesReader :=
  readUvarintLoop MaxVarintLen64 0 0 0 r

/-- The function `binary.ReadVarint(r)`: `x := int64(ux >> 1)`, complemented when `ux`
is odd. -/
def readVarint (r : BytesReader) : (Int × Option ReadError) × BytesReader :=
  let ((ux, err), r1) := readUvarint r
  let x : Int := ((ux >>> 1 : Nat) : Int)
  let x := if ux &&& 1 ≠ 0 then -x - 1 else x
  ((x, err), r1)

/-- Source `BytesReader.ReadUvarint`. -/
def BytesReader.ReadUvarint (b : BytesReader) : (Nat × Option ReadError) × BytesReader :=
  readUvarint b

/-- Source `BytesReader.ReadVarint`. -/
def BytesReader.ReadVarint (b : BytesReader) : (Int × Option ReadError) × BytesReader :=
  readVarint b

/-! ### `BytesWriter` -/

/-- A `BytesWriter`: the nil slice, or a slice with its elements `data` and the rest
`spare` of its backing array up to the capacity. -/
inductive BytesWriter where
  | nil
  | slice (data spare : List Byte)
  deriving DecidableEq

/-- The elements of the slice, `(*b)[:]`. -/
def BytesWriter.Bytes : BytesWriter → List Byte
  | .nil => []
  | .slice data _ => data

/-- Source `BytesWriter.Len`. -/
def BytesWriter.Len (b : BytesWriter) : Nat := b.Bytes.length

/-- Source `BytesWriter.Cap`. -/
def BytesWriter.Cap : BytesWriter → Nat
  | .nil => 0
  | .slice data spare => data.length + spare.length

/-- The slice expression `(*b)[:k]` for `k` up to the capacity. -/
def BytesWriter.resliceTo : BytesWriter → Nat → BytesWriter
  | .nil, _ => .nil
  | .slice data spare, k => .slice ((data ++ spare).take k) ((data ++ spare).drop k)

/-- The slice expression `(*b)[:k]`, which panics when `k` exceeds the capacity. -/
def BytesWriter.sliceTo (b : BytesWriter) (k : Nat) : Option BytesWriter :=
  if k ≤ b.Cap then some (b.resliceTo k) else none

/-- The writer with its elements from index `m` on replaced by `f` of them: a write
through the slice `(*b)[m:]`. -/
def BytesWriter.writeFrom (b : BytesWriter) (m : Nat) (f : List Byte → List Byte) :
    BytesWriter :=
  match b with
  | .nil => .nil
  | .slice data spare => .slice (data.take m ++ f (data.drop m)) spare

/-- What the runtime gives for a new backing array: the capacity of an array asked for
`c` bytes, at least `c`, or `none` when the allocation fails. -/
structure Allocator where
  capFor : Nat → Option Nat
  cap_ge : ∀ c k, capFor c = some k → c ≤ k

/-- Source `BytesWriter.tryGrowByReslice`: `(index, ok)` and the writer afterwards. -/
def BytesWriter.tryGrowByReslice (b : BytesWriter) (n : Nat) : (Nat × Bool) × BytesWriter :=
  if n ≤ b.Cap - b.Len then ((b.Len, true), b.resliceTo (b.Len + n))
  else ((0, false), b)

/-- Source `growSlice`: `none` is the panic with `ErrTooLarge`. The new array has `c`
zero bytes and the capacity the runtime gives. -/
def growSlice (a : Allocator) (b : BytesWriter) (n : Nat) : Option BytesWriter :=
  let c := wrapInt ((b.Len : Int) + n)
  let c := if c < wrapInt (2 * (b.Cap : Int)) then wrapInt (2 * (b.Cap : Int)) else c
  if c < 0 then none
  else
    match a.capFor c.toNat with
    | none => none
    | some k =>
      let b2 := copy (List.replicate c.toNat 0) b.Bytes
      (BytesWriter.slice b2 (List.replicate (k - c.toNat) 0)).sliceTo b.Len

/-- Source `BytesWriter.grow`: the index returned and the writer afterwards; `none` is a
panic. -/
def BytesWriter.grow (a : Allocator) (b : BytesWriter) (n : Nat) : Option (Nat × BytesWriter) :=
  let m := b.Len
  match b.tryGrowByReslice n with
  | ((i, true), b1) => some (i, b1)
  | ((_, false), b1) =>
    if b1 = .nil ∧ n ≤ smallBufferSize then
      some (0, .slice (List.replicate n 0) (List.replicate (smallBufferSize - n) 0))
    else
      let c := b1.Cap
      if (c : Int) > maxInt - c - n then none
      else
        match (if (n : Int) > (c : Int) / 2 - m then growSlice a b1 n else some b1) with
        | none => none
        | some b2 =>
          match b2.sliceTo (m + n) with
          | none => none
          | some b3 => some (m, b3)

/-- Source `BytesWriter.Grow`. -/
def BytesWriter.Grow (a : Allocator) (b : BytesWriter) (n : Nat) : Option (Nat × BytesWriter) :=
  match b.tryGrowByReslice n with
  | ((m, true), b1) => some (m, b1)
  | ((_, false), b1) => b1.grow a n

/-- Source `BytesWriter.PutUint8`. -/
def BytesWriter.PutUint8 (a : Allocator) (b : BytesWriter) (v : Nat) : Option BytesWriter :=
  match b.Grow a 1 with
  | none => none
  | some (m, b1) => some (b1.writeFrom m (fun s => s.set 0 (byte v)))

/-- Source `BytesWriter.next`: the writer grown by `n` and the index `m` at which the
slice returned, `(*b)[m:m+n]`, starts. -/
def BytesWriter.next (a : Allocator) (b : BytesWriter) (n : Nat) : Option (Nat × BytesWriter) :=
  b.Grow a n

/-- A `Put` method of fixed width `n`: `put(b.next(n), v)`, a write of `n` bytes through
the slice that `next` returns. -/
def BytesWriter.putFixed (a : Allocator) (b : BytesWriter) (n : Nat)
    (put : List Byte → Nat → List Byte) (v : Nat) : Option BytesWriter :=
  match b.next a n with
  | none => none
  | some (m, b1) => some (b1.writeFrom m (fun s => put (s.take n) v ++ s.drop n))

/-- Source `BytesWriter.PutUint16be`. -/
def BytesWriter.PutUint16be (a : Allocator) (b : BytesWriter) (v : Nat) : Option BytesWriter :=
  b.putFixed a 2 bigEndianPutUint16 v

/-- Source `BytesWriter.PutUint32be`. -/
def BytesWriter.PutUint32be (a : Allocator) (b : BytesWriter) (v : Nat) : Option BytesWriter :=
  b.putFixed a 4 bigEndianPutUint32 v

/-- Source `BytesWriter.PutUint64be`. -/
def BytesWriter.PutUint64be (a : Allocator) (b : BytesWriter) (v : Nat) : Option BytesWriter :=
  b.putFixed a 8 bigEndianPutUint64 v

/-- Source `BytesWriter.PutUint16le`. -/
def BytesWriter.PutUint16le (a : Allocator) (b : BytesWriter) (v : Nat) : Option BytesWriter :=
  b.putFixed a 2 littleEndianPutUint16 v

/-- Source `BytesWriter.PutUint32le`. -/
def BytesWriter.PutUint32le (a : Allocator) (b : BytesWriter) (v : Nat) : Option BytesWriter :=
  b.putFixed a 4 littleEndianPutUint32 v

/-- Source `BytesWriter.PutUint64le`. -/
def BytesWriter.PutUint64le (a : Allocator) (b : BytesWriter) (v : Nat) : Option BytesWriter :=
  b.putFixed a 8 littleEndianPutUint64 v

/-- The body shared by `PutUvarint` and `PutVarint`: grow by `MaxVarintLen64`, encode into
`(*b)[m:]`, then cut the writer to the bytes written. -/
def BytesWriter.putVar (a : Allocator) (b : BytesWriter)
    (put : List Byte → Option (List Byte × Nat)) : Option BytesWriter :=
  match b.Grow a MaxVarintLen64 with
  | none => none
  | some (m, b1) =>
    match put (b1.Bytes.drop m) with
    | none => none
    | some (buf, n) => (b1.writeFrom m (fun _ => buf)).sliceTo (m + n)

/-- Source `BytesWriter.PutUvarint`. -/
def BytesWriter.PutUvarint (a : Allocator) (b : BytesWriter) (v : Nat) : Option BytesWriter :=
  b.putVar a (fun buf => putUvarint buf v)

/-- Source `BytesWriter.PutVarint`. -/
def BytesWriter.PutVarint (a : Allocator) (b : BytesWriter) (v : Int) : Option BytesWriter :=
  b.putVar a (fun buf => putVarint buf v)

/-- An allocator that gives the next multiple of 16 bytes. -/
def roundingAllocator : Allocator :=
  ⟨fun c => some ((c + 15) / 16 * 16), fun c k h => by
    injection h with h
    omega⟩

/-! ### Vocabulary for `protobytes` -/

/-- The conditions under which `Grow` panics: the spare capacity is too small, the
writer is not a nil one asking for a small buffer, and either the new size overflows or
the runtime gives no array. -/
def growFails (a : Allocator) (b : BytesWriter) (n : Nat) : Prop :=
  ¬ n ≤ b.Cap - b.Len ∧ ¬ (b = .nil ∧ n ≤ smallBufferSize)
    ∧ ((b.Cap : Int) > maxInt - b.Cap - n ∨ a.capFor (max (b.Len + n) (2 * b.Cap)) = none)

/-- The bytes that `binary.PutUvarint` writes for `x`, at most `fuel` of them. -/
def uvarintBytes : Nat → Nat → List Byte
  | 0, _ => []
  | fuel + 1, x =>
    if x ≥ 0x80 then byte (x % 256 ||| 0x80) :: uvarintBytes fuel (x >>> 7)
    else [byte x]

/-- The `uint64` that `binary.PutVarint` encodes for the `int64` `x`. -/
def zigzag (x : Int) : Nat :=
  if x < 0 then 2 ^ 64 - 1 - ((x % 2 ^ 64).toNat <<< 1) % 2 ^ 64
  else ((x % 2 ^ 64).toNat <<< 1) % 2 ^ 64

/-- A host where processes 1 and 2 are both of uid 5; descriptor 0 of process 1 links to
`socket:[88221]` followed by 30 more bytes (44 bytes, more than the readlink buffer
holds), descriptor 0 of process 2 links to `socket:[88221]` itself; their executables
are `/bin/a` and `/bin/b`. -/
def longTargetWorld : World where
  hostOrder := .little
  dial := fun _ => .ok ()
  execute := fun _ => .ok []
  osOpen := fun _ => .ok ()
  readdirnames := fun p => if p = lit "/proc" then .ok [lit "1", lit "2"] else .ok [lit "0"]
  stat := fun _ => .ok 5
  readlink := fun p =>
    if p = lit "/proc/1/fd/0" then .ok (lit "socket:[88221]" ++ List.replicate 30 (byte 120))
    else if p = lit "/proc/2/fd/0" then .ok (lit "socket:[88221]")
    else if p = lit "/proc/1/exe" then .ok (lit "/bin/a")
    else if p = lit "/proc/2/exe" then .ok (lit "/bin/b")
    else .error 2
  pool := zeroPool

/-! ## Auxiliary facts -/

theorem decodeRune_ascii (b : Byte) (rest : GoString) (h : b.val < 128) :
    decodeRune (b :: rest) = (b.val, 1) := by
  simp [decodeRune, h]

theorem decodeRune_high (b : Byte) (rest : GoString) (h : 128 ≤ b.val) :
    128 ≤ (decodeRune (b :: rest)).1 := by
  unfold decodeRune
  have h1 : ¬ b.val < 128 := by omega
  simp only [h1, if_false]
  split_ifs <;> (try split) <;> (try split_ifs) <;> simp only [RuneError] <;> omega

theorem isPidLoop_rangeRunes (fuel : Nat) : ∀ s : GoString, s.length ≤ fuel →
    isPidLoop (rangeRunes fuel s) = allDigits s := by
  induction fuel with
  | zero =>
    intro s hs
    have : s = [] := List.length_eq_zero.mp (Nat.le_zero.mp hs)
    subst this; rfl
  | succ fuel ih =>
    intro s hs
    cases s with
    | nil => rfl
    | cons b rest =>
      have hrest : rest.length ≤ fuel := by simpa using hs
      by_cases hb : b.val < 128
      · simp only [rangeRunes, decodeRune_ascii b rest hb, isPidLoop, List.drop_succ_cons,
          List.drop_zero, allDigits, List.all_cons]
        rw [ih rest hrest]
        by_cases hd : b.val < 48 ∨ b.val > 57
        · simp only [hd, if_true]
          rcases hd with hd | hd <;> simp <;> intros <;> omega
        · simp only [hd, if_false, allDigits]
          have h1 : 48 ≤ b.val := by omega
          have h2 : b.val ≤ 57 := by omega
          simp [h1, h2]
      · have hhi := decodeRune_high b rest (by omega)
        have hd : (decodeRune (b :: rest)).1 < 48 ∨ (decodeRune (b :: rest)).1 > 57 := by omega
        simp only [rangeRunes, isPidLoop, hd, if_true, allDigits, List.all_cons]
        simp; intros; omega

theorem isPid_eq_allDigits (name : GoString) : isPid name = allDigits name :=
  isPidLoop_rangeRunes name.length name (Nat.le_refl _)

theorem fmtUintAux_length (k : Nat) : ∀ fuel n acc, n < 10 ^ (k + 1) →
    (fmtUintAux fuel n acc).length ≤ acc.length + (k + 1) := by
  induction k with
  | zero =>
    intro fuel n acc h
    cases fuel with
    | zero => simp [fmtUintAux]
    | succ fuel =>
      have : n / 10 = 0 := by omega
      simp [fmtUintAux, this]
  | succ k ih =>
    intro fuel n acc h
    cases fuel with
    | zero => simp [fmtUintAux]
    | succ fuel =>
      unfold fmtUintAux
      split_ifs with h0
      · simp
      · have hlt : n / 10 < 10 ^ (k + 1) := by
          rw [Nat.div_lt_iff_lt_mul (by decide)]
          calc n < 10 ^ (k + 1 + 1) := h
            _ = 10 ^ (k + 1) * 10 := by ring
        have := ih fuel (n / 10) (byte (48 + n % 10) :: acc) hlt
        simp at this
        omega

theorem fmtUint_length (n : Nat) (h : n < 2 ^ 32) : (fmtUint n).length ≤ 10 := by
  have := fmtUintAux_length 9 (n + 1) n [] (by omega)
  simpa [fmtUint] using this

theorem socketName_length (inode : Nat) (h : inode < 2 ^ 32) : (socketName inode).length ≤ 19 := by
  have := fmtUint_length inode h
  have h1 : (lit "socket:[").length = 8 := by decide
  have h2 : (lit "]").length = 1 := by decide
  simp only [socketName, List.length_append, h1, h2]
  omega

theorem copy_length (dst src : List Byte) : (copy dst src).length = dst.length := by
  simp [copy]; omega

theorem copy_take (buf target : List Byte) :
    (copy buf target).take (min target.length buf.length) = target.take buf.length := by
  unfold copy
  rw [List.take_append_eq_append_take]
  simp

theorem take_eq_iff_of_short (t e : List Byte) (L : Nat) (h : e.length < L) :
    t.take L = e ↔ t = e := by
  constructor
  · intro ht
    have hl : (t.take L).length = e.length := by rw [ht]
    rw [List.length_take] at hl
    have : t.length ≤ L := by omega
    rw [List.take_of_length_le this] at ht
    exact ht
  · intro ht
    subst ht
    exact List.take_of_length_le (by omega)

theorem linksTo_ok (w : World) (path name target : GoString) (h : w.readlink path = .ok target) :
    linksTo w path name = decide (target = name) := by
  simp [linksTo, h]

theorem linksTo_error (w : World) (path name : GoString) (e : Nat) (h : w.readlink path = .error e) :
    linksTo w path name = false := by
  simp [linksTo, h]

theorem fdLoop_spec (w : World) (name pid pre : GoString) (L : Nat) (hL : name.length < L) :
    ∀ (fds : List GoString) (s : Scan), pre <+: s.pathBuffer → s.readlinkBuffer.length = L →
      (fdLoop w name pid pre.length fds s).1 =
          (if fds.any (fun fd => linksTo w (pre ++ fd) name) then some (osReadlink w (exePath pid))
           else none)
      ∧ pre <+: (fdLoop w name pid pre.length fds s).2.pathBuffer
      ∧ (fdLoop w name pid pre.length fds s).2.readlinkBuffer.length = L
      ∧ ∀ e ∈ (fdLoop w name pid pre.length fds s).2.trace,
          e ∈ s.trace ∨ (∃ fd ∈ fds, e = .unixReadlink (pre ++ fd) L)
            ∨ (e = .osReadlink (exePath pid)
                ∧ fds.any (fun fd => linksTo w (pre ++ fd) name) = true) := by
  intro fds
  induction fds with
  | nil =>
    intro s hp hl
    simp [fdLoop, hp, hl]
  | cons fd fds ih =>
    intro s hp hl
    obtain ⟨t, ht⟩ := hp
    have hpb : s.pathBuffer.take pre.length ++ fd = pre ++ fd := by
      rw [← ht]; simp
    have hpre : pre <+: pre ++ fd := ⟨fd, rfl⟩
    unfold fdLoop
    simp only [hpb, unixReadlink, hl]
    cases hr : w.readlink (pre ++ fd) with
    | error e =>
      simp only [List.any_cons, linksTo_error w _ name e hr, Bool.false_or]
      obtain ⟨h1, h2, h3, h4⟩ :=
        ih ⟨pre ++ fd, s.readlinkBuffer, s.trace ++ [.unixReadlink (pre ++ fd) L]⟩ hpre hl
      refine ⟨h1, h2, h3, ?_⟩
      intro e he
      rcases h4 e he with h | ⟨fd1, hfd1, h⟩ | h
      · simp only [List.mem_append, List.mem_singleton] at h
        rcases h with h | h
        · exact Or.inl h
        · exact Or.inr (Or.inl ⟨fd, List.mem_cons_self _ _, h⟩)
      · exact Or.inr (Or.inl ⟨fd1, List.mem_cons_of_mem _ hfd1, h⟩)
      · exact Or.inr (Or.inr h)
    | ok target =>
      have hcond : ((copy s.readlinkBuffer target).take (min target.length L) = name)
          ↔ target = name := by
        rw [← hl, copy_take, hl]
        exact take_eq_iff_of_short target name L hL
      simp only [List.any_cons, linksTo_ok w _ name target hr]
      by_cases hm : target = name
      · rw [if_pos (hcond.mpr hm)]
        simp only [hm, decide_True, Bool.true_or, if_true]
        refine ⟨rfl, hpre, ?_, ?_⟩
        · rw [copy_length, hl]
        · intro e he
          simp only [List.mem_append, List.mem_singleton] at he
          rcases he with (h | h) | h
          · exact Or.inl h
          · exact Or.inr (Or.inl ⟨fd, List.mem_cons_self _ _, h⟩)
          · exact Or.inr (Or.inr ⟨h, trivial⟩)
      · rw [if_neg (fun h => hm (hcond.mp h))]
        simp only [hm, decide_False, Bool.false_or]
        obtain ⟨h1, h2, h3, h4⟩ :=
          ih ⟨pre ++ fd, copy s.readlinkBuffer target, s.trace ++ [.unixReadlink (pre ++ fd) L]⟩
            hpre (by rw [copy_length, hl])
        refine ⟨h1, h2, h3, ?_⟩
        intro e he
        rcases h4 e he with h | ⟨fd1, hfd1, h⟩ | h
        · simp only [List.mem_append, List.mem_singleton] at h
          rcases h with h | h
          · exact Or.inl h
          · exact Or.inr (Or.inl ⟨fd, List.mem_cons_self _ _, h⟩)
        · exact Or.inr (Or.inl ⟨fd1, List.mem_cons_of_mem _ hfd1, h⟩)
        · exact Or.inr (Or.inr h)

theorem ScanEvent.cons {w : World} {inode uid L : Nat} {pids : List GoString} {e : Event}
    (pid : GoString) (h : ScanEvent w inode uid L pids e) :
    ScanEvent w inode uid L (pid :: pids) e := by
  cases h with
  | stat p hp hd => exact .stat p (List.mem_cons_of_mem _ hp) hd
  | osOpen p hp hd ho => exact .osOpen p (List.mem_cons_of_mem _ hp) hd ho
  | readdirnames p hp hd ho => exact .readdirnames p (List.mem_cons_of_mem _ hp) hd ho
  | fileClose p hp hd ho => exact .fileClose p (List.mem_cons_of_mem _ hp) hd ho
  | unixReadlink p fd hp hd ho => exact .unixReadlink p fd (List.mem_cons_of_mem _ hp) hd ho
  | osReadlink p hp hh => exact .osReadlink p (List.mem_cons_of_mem _ hp) hh

theorem lit_proc_length : (lit "/proc/").length = 6 := by decide

theorem procPath_starts (pid : GoString) : lit "/proc/" <+: procPath pid := ⟨pid, rfl⟩

theorem starts_proc_of_fdDir (pid buf : GoString) (h : fdDirPath pid <+: buf) :
    lit "/proc/" <+: buf := by
  obtain ⟨t, rfl⟩ := h
  exact ⟨pid ++ lit "/fd/" ++ t, by simp [fdDirPath]⟩

theorem pidLoop_spec (w : World) (inode uid L : Nat) (hL : (socketName inode).length < L) :
    ∀ (pids : List GoString) (s : Scan), lit "/proc/" <+: s.pathBuffer →
      s.readlinkBuffer.length = L →
      (pidLoop w uid (socketName inode) pids s).1 =
          (pids.find? (holdsSocket w inode uid)).map (fun p => osReadlink w (exePath p))
      ∧ ∀ e ∈ (pidLoop w uid (socketName inode) pids s).2.trace,
          e ∈ s.trace ∨ ScanEvent w inode uid L pids e := by
  intro pids
  induction pids with
  | nil =>
    intro s _ _
    exact ⟨by simp [pidLoop], fun e he => Or.inl (by simpa [pidLoop] using he)⟩
  | cons pid pids ih =>
    intro s hp hl
    have lift : ∀ (s1 : Scan) (X : Option (GoString × Option Error) × Scan),
        (∀ e ∈ s1.trace, e ∈ s.trace ∨ ScanEvent w inode uid L (pid :: pids) e) →
        (∀ e ∈ X.2.trace, e ∈ s1.trace ∨ ScanEvent w inode uid L pids e) →
        ∀ e ∈ X.2.trace, e ∈ s.trace ∨ ScanEvent w inode uid L (pid :: pids) e := by
      intro s1 X h1 h2 e he
      rcases h2 e he with h | h
      · exact h1 e h
      · exact Or.inr (h.cons pid)
    obtain ⟨t, ht⟩ := hp
    have hpb : s.pathBuffer.take (lit "/proc/").length ++ pid = procPath pid := by
      rw [← ht]; simp [procPath]
    unfold pidLoop
    by_cases hpid : isPid pid = true
    · have hd : allDigits pid = true := by rw [← isPid_eq_allDigits]; exact hpid
      simp only [hpid, Bool.not_true, Bool.false_eq_true, if_false, hpb]
      have hstat : ScanEvent w inode uid L (pid :: pids) (.stat (procPath pid)) :=
        .stat pid (List.mem_cons_self _ _) hd
      cases hs : w.stat (procPath pid) with
      | error e =>
        have hh : holdsSocket w inode uid pid = false := by
          simp [holdsSocket, ownedBy, hs]
        simp only [List.find?_cons, hh]
        obtain ⟨h1, h2⟩ := ih ⟨procPath pid, s.readlinkBuffer, s.trace ++ [.stat (procPath pid)]⟩
          (procPath_starts pid) hl
        refine ⟨h1, lift _ _ ?_ h2⟩
        intro e he
        simp only [List.mem_append, List.mem_singleton] at he
        rcases he with h | h
        · exact Or.inl h
        · exact Or.inr (h ▸ hstat)
      | ok u =>
        by_cases hu : u = uid
        · subst hu
          have hown : ownedBy w u pid = true := by simp [ownedBy, hs]
          have hfdp : procPath pid ++ lit "/fd/" = fdDirPath pid := rfl
          have hopen : ScanEvent w inode u L (pid :: pids) (.osOpen (fdDirPath pid)) :=
            .osOpen pid (List.mem_cons_self _ _) hd hown
          have hbase : ∀ e ∈ s.trace ++ [Event.stat (procPath pid)] ++ [Event.osOpen (fdDirPath pid)],
              e ∈ s.trace ∨ ScanEvent w inode u L (pid :: pids) e := by
            intro e he
            simp only [List.mem_append, List.mem_singleton] at he
            rcases he with (h | h) | h
            · exact Or.inl h
            · exact Or.inr (h ▸ hstat)
            · exact Or.inr (h ▸ hopen)
          simp only [ne_eq, not_true_eq_false, if_false, hfdp]
          cases ho : w.osOpen (fdDirPath pid) with
          | error e =>
            have hh : holdsSocket w inode u pid = false := by
              simp [holdsSocket, hasSocketDescriptor, ho]
            simp only [List.find?_cons, hh]
            obtain ⟨h1, h2⟩ := ih ⟨fdDirPath pid, s.readlinkBuffer,
              s.trace ++ [.stat (procPath pid)] ++ [.osOpen (fdDirPath pid)]⟩
              (starts_proc_of_fdDir pid _ ⟨[], by simp⟩) hl
            exact ⟨h1, lift _ _ hbase h2⟩
          | ok v =>
            have hbase2 : ∀ e ∈ s.trace ++ [Event.stat (procPath pid)]
                ++ [Event.osOpen (fdDirPath pid)]
                ++ [Event.readdirnames (fdDirPath pid), Event.fileClose (fdDirPath pid)],
                e ∈ s.trace ∨ ScanEvent w inode u L (pid :: pids) e := by
              intro e he
              rw [List.mem_append] at he
              rcases he with h | h
              · exact hbase e h
              · simp only [List.mem_cons, List.mem_singleton, List.not_mem_nil, or_false] at h
                rcases h with h | h
                · exact Or.inr (h ▸ .readdirnames pid (List.mem_cons_self _ _) hd hown)
                · exact Or.inr (h ▸ .fileClose pid (List.mem_cons_self _ _) hd hown)
            cases hr : w.readdirnames (fdDirPath pid) with
            | error e =>
              have hh : holdsSocket w inode u pid = false := by
                simp [holdsSocket, hasSocketDescriptor, ho, hr]
              simp only [List.find?_cons, hh]
              obtain ⟨h1, h2⟩ := ih ⟨fdDirPath pid, s.readlinkBuffer,
                s.trace ++ [.stat (procPath pid)] ++ [.osOpen (fdDirPath pid)]
                  ++ [.readdirnames (fdDirPath pid), .fileClose (fdDirPath pid)]⟩
                (starts_proc_of_fdDir pid _ ⟨[], by simp⟩) hl
              exact ⟨h1, lift _ _ hbase2 h2⟩
            | ok fds =>
              have hh : holdsSocket w inode u pid
                  = fds.any (fun fd => linksTo w (fdDirPath pid ++ fd) (socketName inode)) := by
                simp [holdsSocket, hasSocketDescriptor, ho, hr, hd, hown]
              obtain ⟨f1, f2, f3, f4⟩ := fdLoop_spec w (socketName inode) pid (fdDirPath pid) L hL
                fds ⟨fdDirPath pid, s.readlinkBuffer,
                  s.trace ++ [.stat (procPath pid)] ++ [.osOpen (fdDirPath pid)]
                    ++ [.readdirnames (fdDirPath pid), .fileClose (fdDirPath pid)]⟩
                ⟨[], by simp⟩ hl
              rw [← hh] at f1 f4
              have f5 : ∀ e ∈ (fdLoop w (socketName inode) pid (fdDirPath pid).length fds
                  ⟨fdDirPath pid, s.readlinkBuffer,
                  s.trace ++ [.stat (procPath pid)] ++ [.osOpen (fdDirPath pid)]
                    ++ [.readdirnames (fdDirPath pid), .fileClose (fdDirPath pid)]⟩).2.trace,
                  e ∈ s.trace ∨ ScanEvent w inode u L (pid :: pids) e := by
                intro e he
                rcases f4 e he with h | ⟨fd, _, h⟩ | ⟨h, hhold⟩
                · exact hbase2 e h
                · exact Or.inr (h ▸ .unixReadlink pid fd (List.mem_cons_self _ _) hd hown)
                · exact Or.inr (h ▸ .osReadlink pid (List.mem_cons_self _ _) hhold)
              rcases hres : fdLoop w (socketName inode) pid (fdDirPath pid).length fds
                  ⟨fdDirPath pid, s.readlinkBuffer,
                  s.trace ++ [.stat (procPath pid)] ++ [.osOpen (fdDirPath pid)]
                    ++ [.readdirnames (fdDirPath pid), .fileClose (fdDirPath pid)]⟩
                with ⟨_ | ret, s1⟩
              · rw [hres] at f1 f2 f3 f5
                have hh2 : holdsSocket w inode u pid = false := by
                  by_contra hc
                  simp only [Bool.not_eq_false] at hc
                  simp [hc] at f1
                simp only [List.find?_cons, hh2, hres]
                obtain ⟨h1, h2⟩ := ih s1 (starts_proc_of_fdDir pid _ f2) f3
                exact ⟨h1, lift s1 _ f5 h2⟩
              · rw [hres] at f1 f5
                have hh2 : holdsSocket w inode u pid = true := by
                  by_contra hc
                  simp only [Bool.not_eq_true] at hc
                  simp [hc] at f1
                simp only [hh2, if_true, Option.some.injEq] at f1
                simp only [List.find?_cons, hh2, Option.map_some', f1, hres]
                exact ⟨trivial, f5⟩
        · have hh : holdsSocket w inode uid pid = false := by
            simp [holdsSocket, ownedBy, hs, hu]
          simp only [List.find?_cons, hh, ne_eq, hu, not_false_eq_true, if_true]
          obtain ⟨h1, h2⟩ := ih ⟨procPath pid, s.readlinkBuffer, s.trace ++ [.stat (procPath pid)]⟩
            (procPath_starts pid) hl
          refine ⟨h1, lift _ _ ?_ h2⟩
          intro e he
          simp only [List.mem_append, List.mem_singleton] at he
          rcases he with h | h
          · exact Or.inl h
          · exact Or.inr (h ▸ hstat)
    · have hd : allDigits pid = false := by
        rw [← isPid_eq_allDigits]; simpa using hpid
      have hh : holdsSocket w inode uid pid = false := by simp [holdsSocket, hd]
      have hpid1 : isPid pid = false := by simpa using hpid
      simp only [hpid1, Bool.not_false, if_true, List.find?_cons, hh]
      obtain ⟨h1, h2⟩ := ih s ⟨t, ht⟩ hl
      exact ⟨h1, lift s _ (fun e he => Or.inl he) h2⟩

theorem copy_starts_proc (buf : List Byte) (h : 6 ≤ buf.length) :
    lit "/proc/" <+: copy buf (lit "/proc/") := by
  refine ⟨buf.drop (lit "/proc/").length, ?_⟩
  unfold copy
  rw [List.take_of_length_le (by rw [lit_proc_length]; exact h)]

theorem search_spec (w : World) (inode uid : Nat) (pids : List GoString)
    (hopen : w.osOpen (lit "/proc") = .ok ())
    (hlist : w.readdirnames (lit "/proc") = .ok pids) (hinode : inode < 2 ^ 32) :
    (resolveProcessPathByProcSearch w inode uid).1 =
        (match pids.find? (holdsSocket w inode uid) with
         | some p => osReadlink w (exePath p)
         | none => ([], some (notFoundError inode uid)))
    ∧ ∀ e ∈ (resolveProcessPathByProcSearch w inode uid).2,
        e ∈ frameEvents w ∨ ScanEvent w inode uid (w.pool.get 32).length pids e := by
  have h64 := w.pool.size_le 64
  have h32 := w.pool.size_le 32
  have hname := socketName_length inode hinode
  obtain ⟨h1, h2⟩ := pidLoop_spec w inode uid (w.pool.get 32).length (by omega) pids
    ⟨copy (w.pool.get 64) (lit "/proc/"), w.pool.get 32,
      [.osOpen (lit "/proc"), .readdirnames (lit "/proc"), .poolGet 64, .poolGet 32]⟩
    (copy_starts_proc _ (by omega)) rfl
  have hsn : lit "socket:[" ++ fmtUint inode ++ lit "]" = socketName inode := rfl
  unfold resolveProcessPathByProcSearch
  simp only [hopen, hlist, hsn]
  rcases hres : pidLoop w uid (socketName inode) pids
    ⟨copy (w.pool.get 64) (lit "/proc/"), w.pool.get 32,
      [.osOpen (lit "/proc"), .readdirnames (lit "/proc"), .poolGet 64, .poolGet 32]⟩
    with ⟨_ | ret, s1⟩
  all_goals
    rw [hres] at h1 h2
    simp only at h1 h2
    refine ⟨?_, ?_⟩
  · cases hf : pids.find? (holdsSocket w inode uid) with
    | none => rfl
    | some p => rw [hf] at h1; simp at h1
  · intro e he
    simp only [List.mem_append] at he
    rcases he with h | h
    · rcases h2 e h with h | h
      · left; simp only [frameEvents]; simp only [List.mem_cons] at h ⊢; tauto
      · exact Or.inr h
    · left; simp only [frameEvents]; simp only [List.mem_cons] at h ⊢; tauto
  · cases hf : pids.find? (holdsSocket w inode uid) with
    | none => rw [hf] at h1; simp at h1
    | some p => rw [hf] at h1; simp only [Option.map_some', Option.some.injEq] at h1; exact h1
  · intro e he
    simp only [List.mem_append] at he
    rcases he with h | h
    · rcases h2 e h with h | h
      · left; simp only [frameEvents]; simp only [List.mem_cons] at h ⊢; tauto
      · exact Or.inr h
    · left; simp only [frameEvents]; simp only [List.mem_cons] at h ⊢; tauto

theorem sizeofResponse_eq : sizeofResponse = 72 := by decide

theorem scanMessages_skip (o : ByteOrder) (pre : List Message) (rest : List Message)
    (hpre : ∀ x ∈ pre, x.Data.length < 72) :
    scanMessages o (pre ++ rest) = scanMessages o rest := by
  induction pre with
  | nil => rfl
  | cons x pre ih =>
    have hx : x.Data.length < sizeofResponse := by
      rw [sizeofResponse_eq]; exact hpre x (List.mem_cons_self _ _)
    simp only [List.cons_append, scanMessages, hx, if_true]
    exact ih (fun y hy => hpre y (List.mem_cons_of_mem _ hy))

theorem getU32_take (o : ByteOrder) (d : List Byte) : getU32 o (d.take 4) = getU32 o d := by
  cases o <;> simp [getU32, List.getD_eq_getElem?_getD, List.getElem?_take]

theorem scanMessages_full (o : ByteOrder) (m : Message) (rest : List Message)
    (hm : 72 ≤ m.Data.length) :
    scanMessages o (m :: rest)
      = some (getU32 o ((m.Data.drop 68).take 4), getU32 o ((m.Data.drop 64).take 4)) := by
  have hx : ¬ m.Data.length < sizeofResponse := by rw [sizeofResponse_eq]; omega
  have h13 : responseOffset 13 = 64 := by decide
  have h14 : responseOffset 14 = 68 := by decide
  simp only [scanMessages, hx, if_false, inetDiagResponse.overlay, h13, h14, getU32_take]

theorem resolveSocketByNetlink_exchange (c : Networks) (w : World) (network : GoString)
    (from_ to_ : AddrPort) (req : inetDiagRequest) (msgs : List Message)
    (hreq : buildRequest c network from_ to_ = some req)
    (hdial : w.dial NETLINK_INET_DIAG = .ok ())
    (hexec : w.execute ⟨requestHeader, req.raw w.hostOrder⟩ = .ok msgs) :
    (resolveSocketByNetlink c w network from_ to_).1 =
      (match scanMessages w.hostOrder msgs with
       | some (inode, uid) => (inode, uid, none)
       | none => (0, 0, some .ErrNotFound)) := by
  unfold resolveSocketByNetlink
  simp only [hreq, hdial]
  simp only [hexec]
  cases scanMessages w.hostOrder msgs with
  | none => rfl
  | some r => rfl

theorem asSlice_length (a : Addr) :
    a.AsSlice.length = if a.Is4 then 4 else if a.Is6 then 16 else 0 := by
  cases a with
  | zero => rfl
  | v4 a b c d => rfl
  | v6 bytes zone => simp [Addr.AsSlice, Addr.Is4, Addr.Is6, bytes.property]

theorem asSlice_length_le (a : Addr) : a.AsSlice.length ≤ 16 := by
  rw [asSlice_length]; split_ifs <;> omega

theorem copy_zero16 (a : List Byte) (h : a.length ≤ 16) :
    copy (List.replicate 16 0) a = a ++ List.replicate (16 - a.length) 0 := by
  unfold copy
  rw [List.take_of_length_le (by simpa using h), List.drop_replicate]

theorem putUint16_zero2 (v : Nat) :
    bigEndianPutUint16 (List.replicate 2 0) v = [byte (v >>> 8), byte v] := rfl

theorem byte_pair_value (v : Nat) (h : v < 65536) :
    256 * (byte (v >>> 8)).val + (byte v).val = v := by
  simp only [byte, Nat.shiftRight_eq_div_pow]
  omega

theorem buildRequest_tcp (c : Networks) (from_ to_ : AddrPort) :
    buildRequest c c.TCP from_ to_ = some
      { Family := if from_.Addr.Is4 then AF_INET else AF_INET6,
        Protocol := IPPROTO_TCP, Ext := 0, Pad := 0, States := 0xffffffff,
        SrcPort := [byte (from_.Port >>> 8), byte from_.Port],
        DstPort := [byte (to_.Port >>> 8), byte to_.Port],
        Src := from_.Addr.AsSlice ++ List.replicate (16 - from_.Addr.AsSlice.length) 0,
        Dst := to_.Addr.AsSlice ++ List.replicate (16 - to_.Addr.AsSlice.length) 0,
        If := 0, Cookie := [0xffffffff, 0xffffffff] } := by
  have h1 := copy_zero16 _ (asSlice_length_le from_.Addr)
  have h2 := copy_zero16 _ (asSlice_length_le to_.Addr)
  by_cases h4 : from_.Addr.Is4 = true <;>
    simp only [buildRequest, h4, Bool.false_eq_true, if_true, if_false, putUint16_zero2, h1, h2]

theorem buildRequest_udp (c : Networks) (from_ to_ : AddrPort) :
    buildRequest c c.UDP from_ to_ = some
      { Family := if from_.Addr.Is4 then AF_INET else AF_INET6,
        Protocol := IPPROTO_UDP, Ext := 0, Pad := 0, States := 0xffffffff,
        SrcPort := [byte (to_.Port >>> 8), byte to_.Port],
        DstPort := [byte (from_.Port >>> 8), byte from_.Port],
        Src := to_.Addr.AsSlice ++ List.replicate (16 - to_.Addr.AsSlice.length) 0,
        Dst := from_.Addr.AsSlice ++ List.replicate (16 - from_.Addr.AsSlice.length) 0,
        If := 0, Cookie := [0xffffffff, 0xffffffff] } := by
  have h : ¬ c.UDP = c.TCP := fun h => c.distinct h.symm
  have h1 := copy_zero16 _ (asSlice_length_le from_.Addr)
  have h2 := copy_zero16 _ (asSlice_length_le to_.Addr)
  by_cases h4 : from_.Addr.Is4 = true <;>
    simp only [buildRequest, h, h4, Bool.false_eq_true, if_true, if_false, putUint16_zero2, h1, h2]

theorem buildRequest_other (c : Networks) (network : GoString) (from_ to_ : AddrPort)
    (hT : network ≠ c.TCP) (hU : network ≠ c.UDP) :
    buildRequest c network from_ to_ = none := by
  unfold buildRequest
  simp only [hT, hU, if_false]

theorem buildRequest_some (c : Networks) (network : GoString) (from_ to_ : AddrPort)
    (req : inetDiagRequest) (h : buildRequest c network from_ to_ = some req) :
    network = c.TCP ∨ network = c.UDP := by
  by_contra hc
  push_neg at hc
  rw [buildRequest_other c network from_ to_ hc.1 hc.2] at h
  exact Option.noConfusion h

theorem fmtUintAux_append (fuel : Nat) : ∀ (n : Nat) (acc : List Byte),
    fmtUintAux fuel n acc = fmtUintAux fuel n [] ++ acc := by
  induction fuel with
  | zero => intro n acc; rfl
  | succ fuel ih =>
    intro n acc
    unfold fmtUintAux
    split_ifs
    · rfl
    · rw [ih (n / 10) (byte (48 + n % 10) :: acc), ih (n / 10) [byte (48 + n % 10)]]
      simp

theorem decimalValue_append_digit (s : GoString) (b : Byte) :
    decimalValue (s ++ [b]) = 10 * decimalValue s + (b.val - 48) := by
  simp [decimalValue, List.foldl_append]

theorem digit_byte (n : Nat) : (byte (48 + n % 10)).val - 48 = n % 10 := by
  simp only [byte]; omega

theorem fmtUintAux_value (fuel : Nat) : ∀ n : Nat, n < fuel →
    decimalValue (fmtUintAux fuel n []) = n ∧ allDigits (fmtUintAux fuel n []) = true := by
  induction fuel with
  | zero => intro n h; omega
  | succ fuel ih =>
    intro n h
    have hd : (48 ≤ (byte (48 + n % 10)).val ∧ (byte (48 + n % 10)).val ≤ 57) := by
      simp only [byte]; omega
    unfold fmtUintAux
    split_ifs with h0
    · have := decimalValue_append_digit [] (byte (48 + n % 10))
      simp only [List.nil_append] at this
      rw [this, digit_byte]
      refine ⟨?_, by simp [allDigits, hd.1, hd.2]⟩
      simp [decimalValue]; omega
    · obtain ⟨v, a⟩ := ih (n / 10) (by omega)
      rw [fmtUintAux_append, decimalValue_append_digit, digit_byte, v]
      refine ⟨by omega, ?_⟩
      simp only [allDigits, List.all_append, List.all_cons, List.all_nil] at a ⊢
      simp [a, hd.1, hd.2]

theorem fmtUint_decimal (n : Nat) :
    decimalValue (fmtUint n) = n ∧ allDigits (fmtUint n) = true :=
  fmtUintAux_value (n + 1) n (Nat.lt_succ_self n)

theorem holdsSocket_false_of_failure (w : World) (inode uid : Nat) (q : GoString)
    (h : (∃ e, w.stat (procPath q) = .error e) ∨ (∃ e, w.osOpen (fdDirPath q) = .error e)
      ∨ (∃ e, w.readdirnames (fdDirPath q) = .error e)) :
    holdsSocket w inode uid q = false := by
  rcases h with ⟨e, h⟩ | ⟨e, h⟩ | ⟨e, h⟩
  · simp [holdsSocket, ownedBy, h]
  · simp [holdsSocket, hasSocketDescriptor, h]
  · simp only [holdsSocket, hasSocketDescriptor, h]
    cases w.osOpen (fdDirPath q) <;> simp

theorem fdDirPath_injective (p q : GoString) (h : fdDirPath p = fdDirPath q) : p = q := by
  simpa [fdDirPath] using h

theorem exePath_injective (p q : GoString) (h : exePath p = exePath q) : p = q := by
  simpa [exePath] using h

theorem proc_ne_fdDirPath (p : GoString) : lit "/proc" ≠ fdDirPath p := by
  intro h
  have := congrArg List.length h
  have h1 : (lit "/proc").length = 5 := by decide
  have h2 : (lit "/fd/").length = 4 := by decide
  simp only [fdDirPath, List.length_append, h1, h2, lit_proc_length] at this
  omega

theorem not_owned_not_scanned (w : World) (inode uid L : Nat) (pids : List GoString)
    (pid : GoString) (hown : ownedBy w uid pid = false) (e : Event)
    (he : e = .osOpen (fdDirPath pid) ∨ e = .readdirnames (fdDirPath pid)
      ∨ e = .osReadlink (exePath pid)) :
    ¬ ScanEvent w inode uid L pids e := by
  intro h
  cases h with
  | stat p hp hd => rcases he with he | he | he <;> cases he
  | osOpen p hp hd ho =>
    rcases he with he | he | he
    · injection he with he
      rw [fdDirPath_injective _ _ he, hown] at ho
      exact Bool.noConfusion ho
    · cases he
    · cases he
  | readdirnames p hp hd ho =>
    rcases he with he | he | he
    · cases he
    · injection he with he
      rw [fdDirPath_injective _ _ he, hown] at ho
      exact Bool.noConfusion ho
    · cases he
  | fileClose p hp hd ho => rcases he with he | he | he <;> cases he
  | unixReadlink p fd hp hd ho => rcases he with he | he | he <;> cases he
  | osReadlink p hp hh =>
    rcases he with he | he | he
    · cases he
    · cases he
    · injection he with he
      rw [exePath_injective _ _ he] at hh
      simp [holdsSocket, hown] at hh

theorem not_frame_event (w : World) (pid : GoString) (e : Event)
    (he : e = .osOpen (fdDirPath pid) ∨ e = .readdirnames (fdDirPath pid)
      ∨ e = .osReadlink (exePath pid)) : e ∉ frameEvents w := by
  have hne := proc_ne_fdDirPath pid
  rcases he with he | he | he <;> subst he <;> simp [frameEvents, hne.symm]

theorem scanMessages_cases (o : ByteOrder) (msgs : List Message) :
    (scanMessages o msgs = none ∧ ∀ m ∈ msgs, m.Data.length < 72)
      ∨ ∃ m ∈ msgs, 72 ≤ m.Data.length ∧ scanMessages o msgs
          = some (getU32 o ((m.Data.drop 68).take 4), getU32 o ((m.Data.drop 64).take 4)) := by
  induction msgs with
  | nil => left; exact ⟨rfl, fun m hm => absurd hm (List.not_mem_nil m)⟩
  | cons x rest ih =>
    by_cases hx : x.Data.length < 72
    · have hskip := scanMessages_skip o [x] rest (by simpa using hx)
      simp only [List.singleton_append] at hskip
      rcases ih with ⟨h1, h2⟩ | ⟨m, hm, hlen, h⟩
      · left
        refine ⟨by rw [hskip, h1], ?_⟩
        intro m hm
        rcases List.mem_cons.mp hm with h | h
        · rw [h]; exact hx
        · exact h2 m h
      · right
        exact ⟨m, List.mem_cons_of_mem _ hm, hlen, by rw [hskip, h]⟩
    · right
      exact ⟨x, List.mem_cons_self _ _, by omega, scanMessages_full o x rest (by omega)⟩

theorem buildRequest_shape (c : Networks) (network : GoString) (from_ to_ : AddrPort)
    (req : inetDiagRequest) (hreq : buildRequest c network from_ to_ = some req) :
    req.Ext = 0 ∧ req.Pad = 0 ∧ req.States = 0xffffffff ∧ req.If = 0
      ∧ req.Cookie = [0xffffffff, 0xffffffff]
      ∧ req.SrcPort.length = 2 ∧ req.DstPort.length = 2
      ∧ req.Src.length = 16 ∧ req.Dst.length = 16 := by
  have hf := asSlice_length_le from_.Addr
  have ht := asSlice_length_le to_.Addr
  rcases buildRequest_some c network from_ to_ req hreq with h | h
  · rw [h, buildRequest_tcp] at hreq
    injection hreq with hreq
    subst hreq
    refine ⟨rfl, rfl, rfl, rfl, rfl, rfl, rfl, ?_, ?_⟩ <;>
      simp only [List.length_append, List.length_replicate] <;> omega
  · rw [h, buildRequest_udp] at hreq
    injection hreq with hreq
    subst hreq
    refine ⟨rfl, rfl, rfl, rfl, rfl, rfl, rfl, ?_, ?_⟩ <;>
      simp only [List.length_append, List.length_replicate] <;> omega

theorem slice_mid (P M Q : List Byte) (n k : Nat) (hP : P.length = n) (hM : M.length = k) :
    ((P ++ M ++ Q).drop n).take k = M := by
  subst hP; subst hM
  simp

theorem putU32_ones (o : ByteOrder) : putU32 o 0xffffffff = [255, 255, 255, 255] := by
  cases o <;> decide

theorem putU32_zero (o : ByteOrder) : putU32 o 0 = [0, 0, 0, 0] := by
  cases o <;> decide

theorem raw_eq (c : Networks) (network : GoString) (from_ to_ : AddrPort)
    (req : inetDiagRequest) (hreq : buildRequest c network from_ to_ = some req)
    (o : ByteOrder) :
    req.raw o = [req.Family, req.Protocol, 0, 0] ++ [255, 255, 255, 255] ++ req.SrcPort
      ++ req.DstPort ++ req.Src ++ req.Dst ++ [0, 0, 0, 0] ++ List.replicate 8 255 := by
  obtain ⟨h1, h2, h3, h4, h5, -⟩ := buildRequest_shape c network from_ to_ req hreq
  simp only [inetDiagRequest.raw, h1, h2, h3, h4, h5, putU32_ones, putU32_zero, List.map,
    List.flatten]
  rfl

theorem resolveSocketByNetlink_trace (c : Networks) (w : World) (network : GoString)
    (from_ to_ : AddrPort) (req : inetDiagRequest)
    (hreq : buildRequest c network from_ to_ = some req)
    (hdial : w.dial NETLINK_INET_DIAG = .ok ()) :
    (resolveSocketByNetlink c w network from_ to_).2
      = [.dial NETLINK_INET_DIAG, .execute ⟨requestHeader, req.raw w.hostOrder⟩, .connClose] := by
  unfold resolveSocketByNetlink
  simp only [hreq, hdial]
  cases he : w.execute ⟨requestHeader, req.raw w.hostOrder⟩ with
  | error e => rfl
  | ok msgs =>
    simp only
    cases hs : scanMessages w.hostOrder msgs with
    | none => rfl
    | some r => rfl

theorem resolveSocketByNetlink_netlink_only (c : Networks) (w : World) (network : GoString)
    (from_ to_ : AddrPort) :
    ∀ e ∈ (resolveSocketByNetlink c w network from_ to_).2, e.isNetlink = true := by
  cases hreq : buildRequest c network from_ to_ with
  | none =>
    unfold resolveSocketByNetlink
    simp [hreq]
  | some req =>
    cases hdial : w.dial NETLINK_INET_DIAG with
    | error e =>
      unfold resolveSocketByNetlink
      simp [hreq, hdial, Event.isNetlink]
    | ok u =>
      rw [resolveSocketByNetlink_trace c w network from_ to_ req hreq hdial]
      simp [Event.isNetlink]

theorem fdLoop_eq_descriptorScan (w : World) (name pid : GoString) :
    ∀ (fds : List GoString) (s : Scan), fdDirPath pid <+: s.pathBuffer →
      (fdLoop w name pid (fdDirPath pid).length fds s).1
          = (descriptorScan w name s.readlinkBuffer.length pid fds).1
      ∧ (fdLoop w name pid (fdDirPath pid).length fds s).2.trace
          = s.trace ++ (descriptorScan w name s.readlinkBuffer.length pid fds).2
      ∧ fdDirPath pid <+: (fdLoop w name pid (fdDirPath pid).length fds s).2.pathBuffer
      ∧ (fdLoop w name pid (fdDirPath pid).length fds s).2.readlinkBuffer.length
          = s.readlinkBuffer.length := by
  intro fds
  induction fds with
  | nil =>
    intro s hp
    simp [fdLoop, descriptorScan, hp]
  | cons fd fds ih =>
    intro s hp
    obtain ⟨t, ht⟩ := hp
    have hpb : s.pathBuffer.take (fdDirPath pid).length ++ fd = fdDirPath pid ++ fd := by
      rw [← ht]; simp
    have hpre : fdDirPath pid <+: fdDirPath pid ++ fd := ⟨fd, rfl⟩
    unfold fdLoop descriptorScan
    simp only [hpb, unixReadlink]
    cases hr : w.readlink (fdDirPath pid ++ fd) with
    | error e =>
      obtain ⟨h1, h2, h3, h4⟩ := ih ⟨fdDirPath pid ++ fd, s.readlinkBuffer,
        s.trace ++ [.unixReadlink (fdDirPath pid ++ fd) s.readlinkBuffer.length]⟩ hpre
      simp only at h1 h2 h3 h4 ⊢
      refine ⟨h1, ?_, h3, h4⟩
      rw [h2]; simp
    | ok target =>
      simp only [copy_take]
      by_cases hm : target.take s.readlinkBuffer.length = name
      · simp only [hm, if_true]
        refine ⟨rfl, ?_, hpre, copy_length _ _⟩
        simp [exePath]
      · simp only [hm, if_false]
        obtain ⟨h1, h2, h3, h4⟩ := ih ⟨fdDirPath pid ++ fd, copy s.readlinkBuffer target,
          s.trace ++ [.unixReadlink (fdDirPath pid ++ fd) s.readlinkBuffer.length]⟩ hpre
        simp only [copy_length] at h1 h2 h3 h4 ⊢
        refine ⟨h1, ?_, h3, h4⟩
        rw [h2]; simp


theorem pidLoop_eq_listScan (w : World) (uid : Nat) (name : GoString) :
    ∀ (pids : List GoString) (s : Scan), lit "/proc/" <+: s.pathBuffer →
      (pidLoop w uid name pids s).1 = (listScan w uid name s.readlinkBuffer.length pids).1
      ∧ (pidLoop w uid name pids s).2.trace
          = s.trace ++ (listScan w uid name s.readlinkBuffer.length pids).2 := by
  intro pids
  induction pids with
  | nil =>
    intro s _
    simp [pidLoop, listScan]
  | cons pid pids ih =>
    intro s hp
    obtain ⟨t, ht⟩ := hp
    have hpb : s.pathBuffer.take (lit "/proc/").length ++ pid = procPath pid := by
      rw [← ht]; simp [procPath]
    have hfdp : procPath pid ++ lit "/fd/" = fdDirPath pid := rfl
    unfold pidLoop listScan candidateScan
    by_cases hpid : isPid pid = true
    · simp only [hpid, Bool.not_true, Bool.false_eq_true, if_false, hpb]
      cases hs : w.stat (procPath pid) with
      | error e =>
        obtain ⟨h1, h2⟩ := ih ⟨procPath pid, s.readlinkBuffer, s.trace ++ [.stat (procPath pid)]⟩
          (procPath_starts pid)
        simp only at h1 h2 ⊢
        exact ⟨h1, by rw [h2]; simp⟩
      | ok u =>
        by_cases hu : u = uid
        · subst hu
          simp only [ne_eq, not_true_eq_false, if_false, hfdp]
          cases ho : w.osOpen (fdDirPath pid) with
          | error e =>
            obtain ⟨h1, h2⟩ := ih ⟨fdDirPath pid, s.readlinkBuffer,
              s.trace ++ [.stat (procPath pid)] ++ [.osOpen (fdDirPath pid)]⟩
              (starts_proc_of_fdDir pid _ ⟨[], by simp⟩)
            simp only at h1 h2 ⊢
            exact ⟨h1, by rw [h2]; simp⟩
          | ok v =>
            cases hr : w.readdirnames (fdDirPath pid) with
            | error e =>
              obtain ⟨h1, h2⟩ := ih ⟨fdDirPath pid, s.readlinkBuffer,
                s.trace ++ [.stat (procPath pid)] ++ [.osOpen (fdDirPath pid)]
                  ++ [.readdirnames (fdDirPath pid), .fileClose (fdDirPath pid)]⟩
                (starts_proc_of_fdDir pid _ ⟨[], by simp⟩)
              simp only at h1 h2 ⊢
              exact ⟨h1, by rw [h2]; simp⟩
            | ok fds =>
              obtain ⟨f1, f2, f3, f4⟩ := fdLoop_eq_descriptorScan w name pid fds
                ⟨fdDirPath pid, s.readlinkBuffer,
                  s.trace ++ [.stat (procPath pid)] ++ [.osOpen (fdDirPath pid)]
                    ++ [.readdirnames (fdDirPath pid), .fileClose (fdDirPath pid)]⟩
                ⟨[], by simp⟩
              simp only at f1 f2 f3 f4 ⊢
              rcases hres : fdLoop w name pid (fdDirPath pid).length fds
                  ⟨fdDirPath pid, s.readlinkBuffer,
                  s.trace ++ [.stat (procPath pid)] ++ [.osOpen (fdDirPath pid)]
                    ++ [.readdirnames (fdDirPath pid), .fileClose (fdDirPath pid)]⟩
                with ⟨_ | ret, s1⟩
              · rw [hres] at f1 f2 f3 f4
                simp only at f1 f2 f3 f4
                obtain ⟨h1, h2⟩ := ih s1 (starts_proc_of_fdDir pid _ f3)
                rw [f4] at h1 h2
                simp only [hres, ← f1]
                exact ⟨h1, by rw [h2, f2]; simp⟩
              · rw [hres] at f1 f2
                simp only at f1 f2
                simp only [hres, ← f1]
                exact ⟨trivial, by rw [f2]; simp⟩
        · simp only [ne_eq, hu, not_false_eq_true, if_true]
          obtain ⟨h1, h2⟩ := ih ⟨procPath pid, s.readlinkBuffer,
            s.trace ++ [.stat (procPath pid)]⟩ (procPath_starts pid)
          simp only at h1 h2 ⊢
          exact ⟨h1, by rw [h2]; simp⟩
    · have hpid1 : isPid pid = false := by simpa using hpid
      simp only [hpid1, Bool.not_false, if_true]
      obtain ⟨h1, h2⟩ := ih s ⟨t, ht⟩
      exact ⟨h1, by rw [h2]; simp⟩


theorem search_eq_listScan (w : World) (inode uid : Nat) (pids : List GoString)
    (hopen : w.osOpen (lit "/proc") = .ok ())
    (hlist : w.readdirnames (lit "/proc") = .ok pids) :
    resolveProcessPathByProcSearch w inode uid =
      ((match (listScan w uid (socketName inode) (w.pool.get 32).length pids).1 with
        | some ret => ret
        | none => ([], some (notFoundError inode uid))),
       [.osOpen (lit "/proc"), .readdirnames (lit "/proc"), .poolGet 64, .poolGet 32]
        ++ (listScan w uid (socketName inode) (w.pool.get 32).length pids).2
        ++ [.poolPut (w.pool.get 32).length, .poolPut (w.pool.get 64).length,
            .fileClose (lit "/proc")]) := by
  have h64 := w.pool.size_le 64
  obtain ⟨h1, h2⟩ := pidLoop_eq_listScan w uid (socketName inode) pids
    ⟨copy (w.pool.get 64) (lit "/proc/"), w.pool.get 32,
      [.osOpen (lit "/proc"), .readdirnames (lit "/proc"), .poolGet 64, .poolGet 32]⟩
    (copy_starts_proc _ (by omega))
  have hsn : lit "socket:[" ++ fmtUint inode ++ lit "]" = socketName inode := rfl
  unfold resolveProcessPathByProcSearch
  simp only [hopen, hlist, hsn]
  simp only at h1 h2
  rcases hres : pidLoop w uid (socketName inode) pids
    ⟨copy (w.pool.get 64) (lit "/proc/"), w.pool.get 32,
      [.osOpen (lit "/proc"), .readdirnames (lit "/proc"), .poolGet 64, .poolGet 32]⟩
    with ⟨_ | ret, s1⟩
  · rw [hres] at h1 h2
    simp only at h1 h2
    simp only [← h1, h2]
    rfl
  · rw [hres] at h1 h2
    simp only at h1 h2
    simp only [← h1, h2]

theorem descriptorScan_events (w : World) (name pid : GoString) (L : Nat) :
    ∀ fds : List GoString, ∀ e ∈ (descriptorScan w name L pid fds).2,
      (∃ fd ∈ fds, e = .unixReadlink (fdDirPath pid ++ fd) L) ∨ e = .osReadlink (exePath pid) := by
  intro fds
  induction fds with
  | nil => intro e he; simp [descriptorScan] at he
  | cons fd fds ih =>
    intro e he
    unfold descriptorScan at he
    have hrec : e = .unixReadlink (fdDirPath pid ++ fd) L ∨ e ∈ (descriptorScan w name L pid fds).2 →
        (∃ fd1 ∈ fd :: fds, e = .unixReadlink (fdDirPath pid ++ fd1) L)
          ∨ e = .osReadlink (exePath pid) := by
      rintro (h | h)
      · exact Or.inl ⟨fd, List.mem_cons_self _ _, h⟩
      · rcases ih e h with ⟨fd1, h1, h2⟩ | h2
        · exact Or.inl ⟨fd1, List.mem_cons_of_mem _ h1, h2⟩
        · exact Or.inr h2
    cases hr : w.readlink (fdDirPath pid ++ fd) with
    | error x =>
      simp only [hr, List.mem_cons] at he
      exact hrec he
    | ok target =>
      simp only [hr] at he
      split_ifs at he
      · simp only [List.mem_cons, List.mem_singleton, List.not_mem_nil, or_false] at he
        rcases he with h | h
        · exact Or.inl ⟨fd, List.mem_cons_self _ _, h⟩
        · exact Or.inr h
      · simp only [List.mem_cons] at he
        exact hrec he

theorem candidateScan_events (w : World) (uid : Nat) (name pid : GoString) (L : Nat) :
    ∀ e ∈ (candidateScan w uid name L pid).2,
      isPid pid = true ∧
      (e = .stat (procPath pid) ∨ e = .osOpen (fdDirPath pid) ∨ e = .readdirnames (fdDirPath pid)
        ∨ e = .fileClose (fdDirPath pid)
        ∨ (∃ fds fd, w.readdirnames (fdDirPath pid) = .ok fds ∧ fd ∈ fds
            ∧ e = .unixReadlink (fdDirPath pid ++ fd) L)
        ∨ e = .osReadlink (exePath pid)) := by
  intro e he
  unfold candidateScan at he
  by_cases hpid : isPid pid = true
  · refine ⟨hpid, ?_⟩
    simp only [hpid, Bool.not_true, Bool.false_eq_true, if_false] at he
    cases hs : w.stat (procPath pid) with
    | error x => simp only [hs, List.mem_singleton] at he; exact Or.inl he
    | ok u =>
      simp only [hs] at he
      split_ifs at he
      · simp only [List.mem_singleton] at he; exact Or.inl he
      · cases ho : w.osOpen (fdDirPath pid) with
        | error x =>
          simp only [ho, List.mem_cons, List.mem_singleton, List.not_mem_nil, or_false] at he
          tauto
        | ok v =>
          simp only [ho] at he
          cases hr : w.readdirnames (fdDirPath pid) with
          | error x =>
            simp only [hr, List.mem_cons, List.mem_singleton, List.not_mem_nil, or_false] at he
            tauto
          | ok fds =>
            simp only [hr, List.mem_append, List.mem_cons, List.mem_singleton,
              List.not_mem_nil, or_false] at he
            rcases he with h | h
            · tauto
            · rcases descriptorScan_events w name pid L fds e h with ⟨fd, h1, h2⟩ | h2
              · exact Or.inr (Or.inr (Or.inr (Or.inr (Or.inl ⟨fds, fd, rfl, h1, h2⟩))))
              · exact Or.inr (Or.inr (Or.inr (Or.inr (Or.inr h2))))
  · have hpid1 : isPid pid = false := by simpa using hpid
    simp [hpid1] at he

theorem listScan_flatten (w : World) (uid : Nat) (name : GoString) (L : Nat) :
    ∀ pids : List GoString, ∃ k, k ≤ pids.length ∧ (listScan w uid name L pids).2
      = ((pids.take k).map (fun pid => (candidateScan w uid name L pid).2)).flatten := by
  intro pids
  induction pids with
  | nil => exact ⟨0, Nat.le_refl _, rfl⟩
  | cons pid pids ih =>
    obtain ⟨k, hk, h⟩ := ih
    unfold listScan
    rcases hc : candidateScan w uid name L pid with ⟨_ | ret, t⟩
    · refine ⟨k + 1, by simpa using hk, ?_⟩
      simp [h, hc]
    · refine ⟨1, by simp, ?_⟩
      simp [hc]

theorem listScan_no_pool (w : World) (uid : Nat) (name : GoString) (L : Nat)
    (pids : List GoString) : ∀ e ∈ (listScan w uid name L pids).2, e.isPool = false := by
  obtain ⟨k, -, h⟩ := listScan_flatten w uid name L pids
  rw [h]
  intro e he
  simp only [List.mem_flatten, List.mem_map] at he
  obtain ⟨t, ⟨pid, -, rfl⟩, het⟩ := he
  rcases (candidateScan_events w uid name pid L e het).2 with h | h | h | h | ⟨_, _, _, _, h⟩ | h
    <;> rw [h] <;> rfl

theorem listScan_skip (w : World) (uid : Nat) (name : GoString) (L : Nat)
    (entry : GoString) (hentry : isPid entry = false) (post : List GoString) :
    ∀ pre : List GoString, listScan w uid name L (pre ++ entry :: post)
      = listScan w uid name L (pre ++ post) := by
  intro pre
  induction pre with
  | nil =>
    simp only [List.nil_append]
    conv_lhs => unfold listScan
    simp [candidateScan, hentry]
  | cons p pre ih =>
    simp only [List.cons_append]
    unfold listScan
    rw [ih]

theorem descriptorScan_congr (w1 w2 : World) (hl : w1.readlink = w2.readlink)
    (name pid : GoString) (L : Nat) (fds : List GoString) :
    descriptorScan w1 name L pid fds = descriptorScan w2 name L pid fds := by
  induction fds with
  | nil => rfl
  | cons fd fds ih =>
    unfold descriptorScan
    simp only [hl, ih, osReadlink]

theorem listScan_congr (w1 w2 : World) (hs : w1.stat = w2.stat) (ho : w1.osOpen = w2.osOpen)
    (hl : w1.readlink = w2.readlink)
    (hd : ∀ p, p ≠ lit "/proc" → w1.readdirnames p = w2.readdirnames p)
    (uid : Nat) (name : GoString) (L : Nat) (pids : List GoString) :
    listScan w1 uid name L pids = listScan w2 uid name L pids := by
  have hc : ∀ pid, candidateScan w1 uid name L pid = candidateScan w2 uid name L pid := by
    intro pid
    unfold candidateScan
    simp only [hs, ho, hd (fdDirPath pid) (fun h => proc_ne_fdDirPath pid h.symm),
      descriptorScan_congr w1 w2 hl]
  induction pids with
  | nil => rfl
  | cons pid pids ih =>
    unfold listScan
    simp only [hc, ih]

theorem allDigits_iff (name : GoString) :
    allDigits name = true ↔ ∀ b ∈ name, 48 ≤ b.val ∧ b.val ≤ 57 := by
  simp [allDigits]

theorem wrapInt_id (x : Int) (h0 : 0 ≤ x) (h1 : x ≤ maxInt) : wrapInt x = x := by
  unfold wrapInt
  unfold maxInt at h1
  omega

theorem copy_zeros (c : Nat) (d : List Byte) (h : d.length ≤ c) :
    copy (List.replicate c 0) d = d ++ List.replicate (c - d.length) 0 := by
  unfold copy
  rw [List.take_of_length_le (by simpa using h), List.drop_replicate]

theorem len_le_cap (b : BytesWriter) : b.Len ≤ b.Cap := by
  cases b with
  | nil => simp [BytesWriter.Len, BytesWriter.Cap, BytesWriter.Bytes]
  | slice data spare => simp [BytesWriter.Len, BytesWriter.Cap, BytesWriter.Bytes]

theorem resliceTo_spec (b : BytesWriter) (k : Nat) (h1 : b.Len ≤ k) (h2 : k ≤ b.Cap) :
    (b.resliceTo k).Len = k ∧ (b.resliceTo k).Bytes.take b.Len = b.Bytes := by
  cases b with
  | nil =>
    simp only [BytesWriter.Cap] at h2
    have : k = 0 := by omega
    subst this
    simp [BytesWriter.resliceTo, BytesWriter.Len, BytesWriter.Bytes]
  | slice data spare =>
    simp only [BytesWriter.Cap, BytesWriter.Len, BytesWriter.Bytes] at h1 h2
    simp only [BytesWriter.resliceTo, BytesWriter.Len, BytesWriter.Bytes, List.length_take,
      List.length_append, List.take_take]
    refine ⟨by omega, ?_⟩
    rw [Nat.min_eq_left h1, List.take_append_of_le_length (Nat.le_refl _), List.take_length]

theorem growSlice_spec (a : Allocator) (b : BytesWriter) (n : Nat)
    (hg : ¬ (b.Cap : Int) > maxInt - b.Cap - n) :
    (a.capFor (max (b.Len + n) (2 * b.Cap)) = none → growSlice a b n = none)
      ∧ (∀ k, a.capFor (max (b.Len + n) (2 * b.Cap)) = some k →
          ∃ b2, growSlice a b n = some b2 ∧ b2.Bytes = b.Bytes ∧ b.Len + n ≤ b2.Cap) := by
  have hlc := len_le_cap b
  have hm : maxInt = 2 ^ 63 - 1 := rfl
  have hc1 : wrapInt ((b.Len : Int) + n) = ((b.Len + n : Nat) : Int) := by
    rw [wrapInt_id _ (by omega) (by omega)]; push_cast; rfl
  have hc2 : wrapInt (2 * (b.Cap : Int)) = ((2 * b.Cap : Nat) : Int) := by
    rw [wrapInt_id _ (by omega) (by omega)]; push_cast; rfl
  have hc : (if wrapInt ((b.Len : Int) + n) < wrapInt (2 * (b.Cap : Int))
      then wrapInt (2 * (b.Cap : Int)) else wrapInt ((b.Len : Int) + n))
      = ((max (b.Len + n) (2 * b.Cap) : Nat) : Int) := by
    rw [hc1, hc2]
    split_ifs with h <;> omega
  unfold growSlice
  simp only [hc, Int.toNat_ofNat]
  have hnn : ¬ ((max (b.Len + n) (2 * b.Cap) : Nat) : Int) < 0 := by omega
  simp only [hnn, if_false]
  constructor
  · intro h; simp only [h]
  · intro k h
    have hk := a.cap_ge _ _ h
    simp only [h]
    have hlen : b.Bytes.length ≤ max (b.Len + n) (2 * b.Cap) := by
      have : b.Bytes.length = b.Len := rfl
      omega
    rw [copy_zeros _ _ hlen]
    have hcap : b.Len ≤ (BytesWriter.slice (b.Bytes ++ List.replicate
        (max (b.Len + n) (2 * b.Cap) - b.Bytes.length) 0)
        (List.replicate (k - max (b.Len + n) (2 * b.Cap)) 0)).Cap := by
      simp only [BytesWriter.Cap, List.length_append, List.length_replicate]
      have : b.Bytes.length = b.Len := rfl
      omega
    simp only [BytesWriter.sliceTo, hcap, if_true]
    refine ⟨_, rfl, ?_, ?_⟩
    · simp only [BytesWriter.resliceTo, BytesWriter.Bytes, BytesWriter.Len]
      rw [List.append_assoc, List.take_append_of_le_length (Nat.le_refl _), List.take_length]
    · simp only [BytesWriter.resliceTo, BytesWriter.Cap, List.length_take, List.length_drop,
        List.length_append, List.length_replicate]
      have : b.Bytes.length = b.Len := rfl
      omega

theorem Grow_cases (a : Allocator) (b : BytesWriter) (n : Nat) :
    (growFails a b n → b.Grow a n = none)
      ∧ (¬ growFails a b n → ∃ b1, b.Grow a n = some (b.Len, b1) ∧ b1.Len = b.Len + n
          ∧ b1.Bytes.take b.Len = b.Bytes) := by
  have hlc := len_le_cap b
  by_cases hfit : n ≤ b.Cap - b.Len
  · refine ⟨fun h => absurd hfit h.1, fun _ => ?_⟩
    obtain ⟨r1, r2⟩ := resliceTo_spec b (b.Len + n) (by omega) (by omega)
    exact ⟨b.resliceTo (b.Len + n), by simp [BytesWriter.Grow, BytesWriter.tryGrowByReslice, hfit],
      r1, r2⟩
  · have hG : b.Grow a n = b.grow a n := by
      simp [BytesWriter.Grow, BytesWriter.tryGrowByReslice, hfit]
    rw [hG]
    unfold BytesWriter.grow
    simp only [BytesWriter.tryGrowByReslice, hfit, if_false]
    by_cases hnil : b = .nil ∧ n ≤ smallBufferSize
    · refine ⟨fun h => absurd hnil h.2.1, fun _ => ?_⟩
      simp only [hnil, and_self, if_true]
      obtain ⟨rfl, -⟩ := hnil
      exact ⟨_, rfl, by simp [BytesWriter.Len, BytesWriter.Bytes],
        by simp [BytesWriter.Len, BytesWriter.Bytes]⟩
    · simp only [hnil, if_false]
      by_cases hg : (b.Cap : Int) > maxInt - b.Cap - n
      · refine ⟨fun _ => by simp only [hg, if_true], fun h => ?_⟩
        exact absurd ⟨hfit, hnil, Or.inl hg⟩ h
      · simp only [hg, if_false]
        have hbig : (n : Int) > (b.Cap : Int) / 2 - b.Len := by omega
        simp only [hbig, if_true]
        obtain ⟨g1, g2⟩ := growSlice_spec a b n hg
        cases hcap : a.capFor (max (b.Len + n) (2 * b.Cap)) with
        | none =>
          refine ⟨fun _ => by simp only [g1 hcap], fun h => ?_⟩
          exact absurd ⟨hfit, hnil, Or.inr hcap⟩ h
        | some k =>
          obtain ⟨b2, e1, e2, e3⟩ := g2 k hcap
          refine ⟨fun h => ?_, fun _ => ?_⟩
          · rcases h.2.2 with h | h
            · exact absurd h hg
            · rw [hcap] at h; exact Option.noConfusion h
          · have hl2 : b2.Len = b.Len := by simp only [BytesWriter.Len, e2]
            obtain ⟨r1, r2⟩ := resliceTo_spec b2 (b.Len + n) (by omega) e3
            simp only [e1, BytesWriter.sliceTo, e3, if_true]
            refine ⟨_, rfl, r1, ?_⟩
            rw [hl2] at r2
            rw [r2, e2]

theorem lor_shl (x y k : Nat) (h : x < 2 ^ k) : x ||| (y <<< k) = x + y * 2 ^ k := by
  rw [Nat.shiftLeft_eq, Nat.lor_comm, Nat.mul_comm y, ← Nat.mul_add_lt_is_or h, Nat.add_comm]

theorem byte_val (n : Nat) : (byte n).val = n % 256 := rfl

theorem set2 (s : List Byte) (h : s.length = 2) (a b : Byte) :
    (s.set 0 a).set 1 b = [a, b] := by
  rcases s with _ | ⟨x0, _ | ⟨x1, _ | ⟨x2, t⟩⟩⟩ <;> simp at h
  rfl

theorem set4 (s : List Byte) (h : s.length = 4) (a b c d : Byte) :
    (((s.set 0 a).set 1 b).set 2 c).set 3 d = [a, b, c, d] := by
  rcases s with _ | ⟨x0, _ | ⟨x1, _ | ⟨x2, _ | ⟨x3, _ | ⟨x4, t⟩⟩⟩⟩⟩ <;> simp at h
  rfl

theorem set8 (s : List Byte) (h : s.length = 8) (a b c d e f g i : Byte) :
    (((((((s.set 0 a).set 1 b).set 2 c).set 3 d).set 4 e).set 5 f).set 6 g).set 7 i
      = [a, b, c, d, e, f, g, i] := by
  rcases s with _ | ⟨x0, _ | ⟨x1, _ | ⟨x2, _ | ⟨x3, _ | ⟨x4, _ | ⟨x5, _ | ⟨x6, _ | ⟨x7,
    _ | ⟨x8, t⟩⟩⟩⟩⟩⟩⟩⟩⟩ <;> simp at h
  rfl

theorem uint16be_roundtrip (v : Nat) (h : v < 2 ^ 16) (rest : List Byte) :
    BytesReader.ReadUint16be ([byte (v >>> 8), byte v] ++ rest) = some (v, rest) := by
  have hd : bigEndianUint16 [byte (v >>> 8), byte v] = v := by
    simp only [bigEndianUint16, List.getD_cons_zero, List.getD_cons_succ, byte_val,
      Nat.shiftRight_eq_div_pow]
    rw [lor_shl _ _ 8 (by omega)]
    omega
  simp [BytesReader.ReadUint16be, BytesReader.Len, hd]

theorem uint16le_roundtrip (v : Nat) (h : v < 2 ^ 16) (rest : List Byte) :
    BytesReader.ReadUint16le ([byte v, byte (v >>> 8)] ++ rest) = some (v, rest) := by
  have hd : littleEndianUint16 [byte v, byte (v >>> 8)] = v := by
    simp only [littleEndianUint16, List.getD_cons_zero, List.getD_cons_succ, byte_val,
      Nat.shiftRight_eq_div_pow]
    rw [lor_shl _ _ 8 (by omega)]
    omega
  simp [BytesReader.ReadUint16le, BytesReader.Len, hd]

theorem uint32be_roundtrip (v : Nat) (h : v < 2 ^ 32) (rest : List Byte) :
    BytesReader.ReadUint32be ([byte (v >>> 24), byte (v >>> 16), byte (v >>> 8), byte v] ++ rest)
      = some (v, rest) := by
  have hd : bigEndianUint32 [byte (v >>> 24), byte (v >>> 16), byte (v >>> 8), byte v] = v := by
    simp only [bigEndianUint32, List.getD_cons_zero, List.getD_cons_succ, byte_val,
      Nat.shiftRight_eq_div_pow]
    rw [lor_shl _ _ 8 (by omega), lor_shl _ _ 16 (by omega), lor_shl _ _ 24 (by omega)]
    omega
  simp [BytesReader.ReadUint32be, BytesReader.Len, hd]

theorem uint32le_roundtrip (v : Nat) (h : v < 2 ^ 32) (rest : List Byte) :
    BytesReader.ReadUint32le ([byte v, byte (v >>> 8), byte (v >>> 16), byte (v >>> 24)] ++ rest)
      = some (v, rest) := by
  have hd : littleEndianUint32 [byte v, byte (v >>> 8), byte (v >>> 16), byte (v >>> 24)] = v := by
    simp only [littleEndianUint32, List.getD_cons_zero, List.getD_cons_succ, byte_val,
      Nat.shiftRight_eq_div_pow]
    rw [lor_shl _ _ 8 (by omega), lor_shl _ _ 16 (by omega), lor_shl _ _ 24 (by omega)]
    omega
  simp [BytesReader.ReadUint32le, BytesReader.Len, hd]

theorem uint64be_roundtrip (v : Nat) (h : v < 2 ^ 64) (rest : List Byte) :
    BytesReader.ReadUint64be ([byte (v >>> 56), byte (v >>> 48), byte (v >>> 40),
      byte (v >>> 32), byte (v >>> 24), byte (v >>> 16), byte (v >>> 8), byte v] ++ rest)
      = some (v, rest) := by
  have hd : bigEndianUint64 [byte (v >>> 56), byte (v >>> 48), byte (v >>> 40),
      byte (v >>> 32), byte (v >>> 24), byte (v >>> 16), byte (v >>> 8), byte v] = v := by
    simp only [bigEndianUint64, List.getD_cons_zero, List.getD_cons_succ, byte_val,
      Nat.shiftRight_eq_div_pow]
    rw [lor_shl _ _ 8 (by omega), lor_shl _ _ 16 (by omega), lor_shl _ _ 24 (by omega),
      lor_shl _ _ 32 (by omega), lor_shl _ _ 40 (by omega), lor_shl _ _ 48 (by omega),
      lor_shl _ _ 56 (by omega)]
    omega
  simp [BytesReader.ReadUint64be, BytesReader.Len, hd]

theorem uint64le_roundtrip (v : Nat) (h : v < 2 ^ 64) (rest : List Byte) :
    BytesReader.ReadUint64le ([byte v, byte (v >>> 8), byte (v >>> 16), byte (v >>> 24),
      byte (v >>> 32), byte (v >>> 40), byte (v >>> 48), byte (v >>> 56)] ++ rest)
      = some (v, rest) := by
  have hd : littleEndianUint64 [byte v, byte (v >>> 8), byte (v >>> 16), byte (v >>> 24),
      byte (v >>> 32), byte (v >>> 40), byte (v >>> 48), byte (v >>> 56)] = v := by
    simp only [littleEndianUint64, List.getD_cons_zero, List.getD_cons_succ, byte_val,
      Nat.shiftRight_eq_div_pow]
    rw [lor_shl _ _ 8 (by omega), lor_shl _ _ 16 (by omega), lor_shl _ _ 24 (by omega),
      lor_shl _ _ 32 (by omega), lor_shl _ _ 40 (by omega), lor_shl _ _ 48 (by omega),
      lor_shl _ _ 56 (by omega)]
    omega
  simp [BytesReader.ReadUint64le, BytesReader.Len, hd]


theorem Grow_ok (a : Allocator) (b : BytesWriter) (n : Nat) (h : b.Grow a n ≠ none) :
    ∃ b1, b.Grow a n = some (b.Len, b1) ∧ b1.Len = b.Len + n
      ∧ b1.Bytes.take b.Len = b.Bytes := by
  obtain ⟨h1, h2⟩ := Grow_cases a b n
  by_cases hf : growFails a b n
  · exact absurd (h1 hf) h
  · exact h2 hf

theorem writeFrom_bytes (b b1 : BytesWriter) (n : Nat) (hn : 0 < n)
    (hl : b1.Len = b.Len + n) (ht : b1.Bytes.take b.Len = b.Bytes)
    (f : List Byte → List Byte) :
    (b1.writeFrom b.Len f).Bytes = b.Bytes ++ f (b1.Bytes.drop b.Len)
      ∧ (b1.Bytes.drop b.Len).length = n := by
  cases b1 with
  | nil =>
    have : (BytesWriter.nil).Len = 0 := rfl
    omega
  | slice d s =>
    simp only [BytesWriter.Bytes, BytesWriter.Len] at hl ht ⊢
    simp only [BytesWriter.writeFrom, BytesWriter.Bytes, ht, List.length_drop, hl]
    exact ⟨trivial, by omega⟩

theorem putFixed_bytes (a : Allocator) (b : BytesWriter) (n : Nat) (hn : 0 < n)
    (put : List Byte → Nat → List Byte) (v : Nat) (enc : List Byte)
    (hput : ∀ s : List Byte, s.length = n → put s v = enc)
    (h : b.Grow a n ≠ none) :
    ∃ b2, b.putFixed a n put v = some b2 ∧ b2.Bytes = b.Bytes ++ enc := by
  obtain ⟨b1, e1, e2, e3⟩ := Grow_ok a b n h
  obtain ⟨w1, w2⟩ := writeFrom_bytes b b1 n hn e2 e3
    (fun s => put (s.take n) v ++ s.drop n)
  refine ⟨b1.writeFrom b.Len (fun s => put (s.take n) v ++ s.drop n),
    by simp only [BytesWriter.putFixed, BytesWriter.next, e1], ?_⟩
  rw [w1]
  rw [hput _ (by rw [List.length_take, w2]; omega), List.drop_of_length_le (by omega)]
  simp

theorem PutUint8_bytes (a : Allocator) (b : BytesWriter) (v : Nat) (h : b.Grow a 1 ≠ none) :
    ∃ b2, b.PutUint8 a v = some b2 ∧ b2.Bytes = b.Bytes ++ [byte v] := by
  obtain ⟨b1, e1, e2, e3⟩ := Grow_ok a b 1 h
  obtain ⟨w1, w2⟩ := writeFrom_bytes b b1 1 (by omega) e2 e3 (fun s => s.set 0 (byte v))
  refine ⟨b1.writeFrom b.Len (fun s => s.set 0 (byte v)),
    by simp only [BytesWriter.PutUint8, e1], ?_⟩
  rw [w1]
  rcases hd : b1.Bytes.drop b.Len with _ | ⟨x, _ | ⟨y, t⟩⟩
  · rw [hd] at w2; simp at w2
  · rfl
  · rw [hd] at w2; simp at w2

theorem uvarintBytes_length (fuel : Nat) : ∀ x, (uvarintBytes fuel x).length ≤ fuel := by
  induction fuel with
  | zero => intro x; simp [uvarintBytes]
  | succ fuel ih =>
    intro x
    unfold uvarintBytes
    split_ifs
    · simpa using ih (x >>> 7)
    · simp

theorem uvarintBytes_ne_nil (fuel : Nat) (x : Nat) : 1 ≤ (uvarintBytes (fuel + 1) x).length := by
  unfold uvarintBytes
  split_ifs <;> simp

theorem putUvarintLoop_spec (fuel : Nat) : ∀ (x : Nat) (pre s : List Byte),
    x < 2 ^ (7 * (fuel + 1)) → fuel + 1 ≤ s.length →
    putUvarintLoop (fuel + 1) (pre ++ s) pre.length x
      = some (pre ++ uvarintBytes (fuel + 1) x ++ s.drop (uvarintBytes (fuel + 1) x).length,
          pre.length + (uvarintBytes (fuel + 1) x).length) := by
  induction fuel with
  | zero =>
    intro x pre s hx hs
    have hx1 : ¬ x ≥ 128 := by norm_num at hx; omega
    rcases s with _ | ⟨h0, t⟩
    · simp at hs
    · simp [putUvarintLoop, uvarintBytes, hx1]
  | succ fuel ih =>
    intro x pre s hx hs
    rcases s with _ | ⟨h0, t⟩
    · simp at hs
    · by_cases hx1 : x ≥ 128
      · have hx2 : x >>> 7 < 2 ^ (7 * (fuel + 1)) := by
          rw [Nat.shiftRight_eq_div_pow, Nat.div_lt_iff_lt_mul (by norm_num)]
          calc x < 2 ^ (7 * (fuel + 1 + 1)) := hx
            _ = 2 ^ (7 * (fuel + 1)) * 2 ^ 7 := by rw [← Nat.pow_add]; ring_nf
        have := ih (x >>> 7) (pre ++ [byte (x % 256 ||| 0x80)]) t hx2 (by simpa using hs)
        simp only [List.length_append, List.length_singleton, List.append_assoc,
          List.singleton_append] at this
        unfold putUvarintLoop uvarintBytes
        simp only [hx1, if_true, List.length_append, List.length_cons, List.set_append_right,
          Nat.le_refl, Nat.sub_self, List.set_cons_zero]
        have hlen : ¬ (pre.length + (t.length + 1) ≤ pre.length) := by omega
        simp only [hlen, if_false]
        rw [this]
        simp [Nat.add_assoc, Nat.add_comm 1]
      · rcases t with _ | ⟨h1, t⟩
        · simp at hs
        · simp [putUvarintLoop, uvarintBytes, hx1]


set_option maxRecDepth 100000 in
theorem or128 : ∀ y, y < 256 → y ||| 128 = y % 128 + 128 := by decide

set_option maxRecDepth 100000 in
theorem and127 : ∀ y, y < 256 → y &&& 127 = y % 128 := by decide

theorem ReadByte_cons (c : Byte) (rest : List Byte) :
    BytesReader.ReadByte (c :: rest) = ((c.val, none), rest) := by
  simp [BytesReader.ReadByte, BytesReader.Len, BytesReader.ReadUint8]

theorem pow7_le (i : Nat) (P : Nat) (hP : P = 2 ^ (7 * i)) (h : 128 * P < 2 ^ 64) : i ≤ 8 := by
  by_contra hc
  have h9 : 7 * 9 ≤ 7 * i := by omega
  have : 2 ^ (7 * 9) ≤ 2 ^ (7 * i) := Nat.pow_le_pow_right (by norm_num) h9
  rw [← hP] at this
  norm_num at this h
  omega

theorem readUvarintLoop_spec (f : Nat) : ∀ (x i acc s k : Nat) (rest : List Byte),
    s = 7 * i → i + k = 10 → 1 ≤ k → x < 2 ^ (7 * (f + 1)) → acc < 2 ^ s →
    acc + x * 2 ^ s < 2 ^ 64 →
    readUvarintLoop k i acc s (uvarintBytes (f + 1) x ++ rest) = ((acc + x * 2 ^ s, none), rest) := by
  induction f with
  | zero =>
    intro x i acc s k rest hs hik hk hx hacc hsum
    have hx1 : ¬ x ≥ 128 := by norm_num at hx; omega
    obtain ⟨k, rfl⟩ : ∃ k1, k = k1 + 1 := ⟨k - 1, by omega⟩
    have hbx : (byte x).val = x := by rw [byte_val]; omega
    have hov : ¬ (i = MaxVarintLen64 - 1 ∧ x > 1) := by
      rintro ⟨hi, hgt⟩
      have hi9 : i = 9 := hi
      subst hi9; subst hs
      norm_num at hsum
      omega
    have hlt : x < 128 := by omega
    have hmod : (x <<< s) % 2 ^ 64 = x * 2 ^ s := by
      rw [Nat.shiftLeft_eq]
      exact Nat.mod_eq_of_lt (by omega)
    have hor : acc ||| x * 2 ^ s = acc + x * 2 ^ s := by
      rw [← lor_shl _ _ _ hacc, Nat.shiftLeft_eq]
    simp only [uvarintBytes, hx1, if_false, List.singleton_append, readUvarintLoop,
      ReadByte_cons, hbx, hlt, if_true, hov, hmod, hor]
  | succ f ih =>
    intro x i acc s k rest hs hik hk hx hacc hsum
    obtain ⟨k, rfl⟩ : ∃ k1, k = k1 + 1 := ⟨k - 1, by omega⟩
    by_cases hx1 : x ≥ 128
    · have hP : 0 < 2 ^ s := Nat.two_pow_pos s
      have hmul : 128 * 2 ^ s ≤ x * 2 ^ s := Nat.mul_le_mul_right _ hx1
      have hi8 : i ≤ 8 := pow7_le i (2 ^ s) (by rw [hs]) (by omega)
      have hc : (byte (x % 256 ||| 0x80)).val = x % 128 + 128 := by
        rw [byte_val, or128 _ (Nat.mod_lt _ (by norm_num))]
        omega
      have hnlt : ¬ (x % 128 + 128 < 128) := by omega
      have hand : (x % 128 + 128) &&& 127 = x % 128 := by
        rw [and127 _ (by omega)]; omega
      have hlow : x % 128 * 2 ^ s ≤ 127 * 2 ^ s := Nat.mul_le_mul_right _ (by omega)
      have hmod : ((x % 128) <<< s) % 2 ^ 64 = x % 128 * 2 ^ s := by
        rw [Nat.shiftLeft_eq]
        exact Nat.mod_eq_of_lt (by omega)
      have hor : acc ||| x % 128 * 2 ^ s = acc + x % 128 * 2 ^ s := by
        rw [← lor_shl _ _ _ hacc, Nat.shiftLeft_eq]
      have hpow : 2 ^ (s + 7) = 128 * 2 ^ s := by rw [Nat.pow_add]; norm_num; ring
      have hx2 : x >>> 7 < 2 ^ (7 * (f + 1)) := by
        rw [Nat.shiftRight_eq_div_pow, Nat.div_lt_iff_lt_mul (by norm_num)]
        calc x < 2 ^ (7 * (f + 1 + 1)) := hx
          _ = 2 ^ (7 * (f + 1)) * 2 ^ 7 := by rw [← Nat.pow_add]; ring_nf
      have hdecomp : x * 2 ^ s = x % 128 * 2 ^ s + x >>> 7 * 2 ^ (s + 7) := by
        rw [hpow, Nat.shiftRight_eq_div_pow]
        have hx3 : x = x % 128 + 128 * (x / 2 ^ 7) := by norm_num; omega
        conv_lhs => rw [hx3]
        ring
      have := ih (x >>> 7) (i + 1) (acc + x % 128 * 2 ^ s) (s + 7) k rest (by omega) (by omega)
        (by omega) hx2 (by omega) (by omega)
      have hub : uvarintBytes (f + 1 + 1) x
          = byte (x % 256 ||| 0x80) :: uvarintBytes (f + 1) (x >>> 7) := by
        rw [uvarintBytes]; simp only [hx1, if_true]
      rw [hub]
      simp only [List.cons_append, readUvarintLoop, ReadByte_cons,
        hc, hnlt, if_false, hand, hmod, hor]
      rw [this]
      congr 2
      omega
    · have hbx : (byte x).val = x := by rw [byte_val]; omega
      have hov : ¬ (i = MaxVarintLen64 - 1 ∧ x > 1) := by
        rintro ⟨hi, hgt⟩
        have hi9 : i = 9 := hi
        subst hi9; subst hs
        norm_num at hsum
        omega
      have hlt : x < 128 := by omega
      have hmod : (x <<< s) % 2 ^ 64 = x * 2 ^ s := by
        rw [Nat.shiftLeft_eq]
        exact Nat.mod_eq_of_lt (by omega)
      have hor : acc ||| x * 2 ^ s = acc + x * 2 ^ s := by
        rw [← lor_shl _ _ _ hacc, Nat.shiftLeft_eq]
      simp only [uvarintBytes, hx1, if_false, List.singleton_append, readUvarintLoop,
        ReadByte_cons, hbx, hlt, if_true, hov, hmod, hor]

theorem uvarint_roundtrip (x : Nat) (hx : x < 2 ^ 64) (rest : List Byte) :
    BytesReader.ReadUvarint (uvarintBytes MaxVarintLen64 x ++ rest) = ((x, none), rest) := by
  have := readUvarintLoop_spec 9 x 0 0 0 10 rest (by norm_num) (by norm_num) (by norm_num)
    (by norm_num; omega) (by norm_num) (by norm_num; omega)
  simp only [BytesReader.ReadUvarint, readUvarint]
  rw [show MaxVarintLen64 = 9 + 1 from rfl, this]
  simp


theorem zigzag_lt (v : Int) : zigzag v < 2 ^ 64 := by
  unfold zigzag
  split_ifs <;> omega

theorem putVarint_eq (buf : List Byte) (v : Int) : putVarint buf v = putUvarint buf (zigzag v) := by
  unfold putVarint zigzag
  split_ifs <;> rfl

theorem zigzag_decode (v : Int) (h0 : -2 ^ 63 ≤ v) (h1 : v < 2 ^ 63) :
    (if zigzag v &&& 1 ≠ 0 then -((zigzag v >>> 1 : Nat) : Int) - 1
      else ((zigzag v >>> 1 : Nat) : Int)) = v := by
  rw [Nat.and_one_is_mod, Nat.shiftRight_eq_div_pow]
  unfold zigzag
  simp only [Nat.shiftLeft_eq]
  split_ifs <;> omega

theorem varint_roundtrip (v : Int) (h0 : -2 ^ 63 ≤ v) (h1 : v < 2 ^ 63) (rest : List Byte) :
    BytesReader.ReadVarint (uvarintBytes MaxVarintLen64 (zigzag v) ++ rest) = ((v, none), rest) := by
  have h := uvarint_roundtrip (zigzag v) (zigzag_lt v) rest
  simp only [BytesReader.ReadUvarint] at h
  simp only [BytesReader.ReadVarint, readVarint, h]
  rw [zigzag_decode v h0 h1]

theorem Bytes_slice (d s : List Byte) : (BytesWriter.slice d s).Bytes = d := rfl

theorem Cap_slice (d s : List Byte) : (BytesWriter.slice d s).Cap = d.length + s.length := rfl

theorem putVar_bytes (a : Allocator) (b : BytesWriter) (x : Nat) (hx : x < 2 ^ 64)
    (h : b.Grow a MaxVarintLen64 ≠ none) :
    ∃ b2, b.putVar a (fun buf => putUvarint buf x) = some b2
      ∧ b2.Bytes = b.Bytes ++ uvarintBytes MaxVarintLen64 x := by
  obtain ⟨b1, e1, e2, e3⟩ := Grow_ok a b MaxVarintLen64 h
  have hlen : (uvarintBytes MaxVarintLen64 x).length ≤ 10 := uvarintBytes_length _ x
  cases b1 with
  | nil =>
    have h0 : (BytesWriter.nil).Len = 0 := rfl
    have h10 : MaxVarintLen64 = 10 := rfl
    omega
  | slice d s =>
    have e2 : d.length = b.Len + 10 := e2
    have e3 : d.take b.Len = b.Bytes := e3
    have hbl : b.Bytes.length = b.Len := rfl
    have hdl : (d.drop b.Len).length = 10 := by
      rw [List.length_drop, e2]; omega
    have hput := putUvarintLoop_spec 9 x [] (d.drop b.Len) (by norm_num; omega) (by omega)
    simp only [List.nil_append, List.length_nil, Nat.zero_add] at hput
    have hput2 : putUvarint (d.drop b.Len) x
        = some (uvarintBytes MaxVarintLen64 x
            ++ (d.drop b.Len).drop (uvarintBytes MaxVarintLen64 x).length,
          (uvarintBytes MaxVarintLen64 x).length) := hput
    have hcap : b.Len + (uvarintBytes MaxVarintLen64 x).length
        ≤ (BytesWriter.slice (d.take b.Len ++ (uvarintBytes MaxVarintLen64 x
            ++ (d.drop b.Len).drop (uvarintBytes MaxVarintLen64 x).length)) s).Cap := by
      simp only [Cap_slice, List.length_append, List.length_take, List.length_drop, e2]
      omega
    refine ⟨(BytesWriter.slice (d.take b.Len ++ (uvarintBytes MaxVarintLen64 x
        ++ (d.drop b.Len).drop (uvarintBytes MaxVarintLen64 x).length)) s).resliceTo
        (b.Len + (uvarintBytes MaxVarintLen64 x).length),
      by simp only [BytesWriter.putVar, e1, Bytes_slice, hput2,
        BytesWriter.writeFrom, BytesWriter.sliceTo, hcap, if_true], ?_⟩
    simp only [BytesWriter.resliceTo, Bytes_slice, e3]
    rw [List.append_assoc, List.take_append_eq_append_take, List.take_of_length_le (by omega),
      hbl, Nat.add_sub_cancel_left, List.append_assoc, List.take_append_eq_append_take,
      List.take_length, Nat.sub_self, List.take_zero, List.append_nil]

theorem descriptorScan_fst_indep (w : World) (name pid : GoString) (L1 L2 : Nat)
    (h1 : name.length < L1) (h2 : name.length < L2) (fds : List GoString) :
    (descriptorScan w name L1 pid fds).1 = (descriptorScan w name L2 pid fds).1 := by
  induction fds with
  | nil => rfl
  | cons fd fds ih =>
    unfold descriptorScan
    cases hr : w.readlink (fdDirPath pid ++ fd) with
    | error e => exact ih
    | ok target =>
      have e1 := take_eq_iff_of_short target name L1 h1
      have e2 := take_eq_iff_of_short target name L2 h2
      by_cases hm : target = name
      · simp only [e1.mpr hm, e2.mpr hm, if_true]
      · have n1 : ¬ target.take L1 = name := fun h => hm (e1.mp h)
        have n2 : ¬ target.take L2 = name := fun h => hm (e2.mp h)
        simp only [n1, n2, if_false]
        exact ih

theorem candidateScan_fst_indep (w : World) (uid : Nat) (name : GoString) (L1 L2 : Nat)
    (h1 : name.length < L1) (h2 : name.length < L2) (pid : GoString) :
    (candidateScan w uid name L1 pid).1 = (candidateScan w uid name L2 pid).1 := by
  unfold candidateScan
  split_ifs
  · rfl
  · cases w.stat (procPath pid) with
    | error e => rfl
    | ok owner =>
      simp only
      split_ifs
      · rfl
      · cases w.osOpen (fdDirPath pid) with
        | error e => rfl
        | ok v =>
          cases w.readdirnames (fdDirPath pid) with
          | error e => rfl
          | ok fds => exact descriptorScan_fst_indep w name pid L1 L2 h1 h2 fds

theorem listScan_fst_cons (w : World) (uid : Nat) (name : GoString) (L : Nat)
    (pid : GoString) (pids : List GoString) :
    (listScan w uid name L (pid :: pids)).1
      = (match (candidateScan w uid name L pid).1 with
         | some ret => some ret
         | none => (listScan w uid name L pids).1) := by
  conv_lhs => unfold listScan
  rcases hc : candidateScan w uid name L pid with ⟨_ | ret, t⟩ <;> rfl

theorem listScan_fst_indep (w : World) (uid : Nat) (name : GoString) (L1 L2 : Nat)
    (h1 : name.length < L1) (h2 : name.length < L2) (pids : List GoString) :
    (listScan w uid name L1 pids).1 = (listScan w uid name L2 pids).1 := by
  induction pids with
  | nil => rfl
  | cons pid pids ih =>
    rw [listScan_fst_cons, listScan_fst_cons,
      candidateScan_fst_indep w uid name L1 L2 h1 h2 pid, ih]

/-! ## The claims -/

/-- C1: when `/proc` is listed and exactly one listed all-digit entry is owned by `uid`
and has a descriptor whose link is byte-for-byte `socket:[<inode>]`, the search returns
the target of that entry's `exe` link with no error, for every listing order and
whatever the other entries hold. -/
theorem resolveProcessPathByProcSearch_unique_holder (w : World) (inode uid : Nat)
    (pids : List GoString) (p target : GoString) (hinode : inode < 2 ^ 32)
    (hopen : w.osOpen (lit "/proc") = .ok ())
    (hlist : w.readdirnames (lit "/proc") = .ok pids)
    (hp : p ∈ pids) (hholds : holdsSocket w inode uid p = true)
    (huniq : ∀ q ∈ pids, holdsSocket w inode uid q = true → q = p)
    (hexe : w.readlink (exePath p) = .ok target) :
    (resolveProcessPathByProcSearch w inode uid).1 = (target, none) := by
  rw [(search_spec w inode uid pids hopen hlist hinode).1]
  cases hf : pids.find? (holdsSocket w inode uid) with
  | none =>
    have := List.find?_eq_none.mp hf p hp
    exact absurd hholds this
  | some q =>
    have hq := huniq q (List.mem_of_find?_eq_some hf) (List.find?_some hf)
    subst hq
    simp [osReadlink, hexe]

theorem resolveProcessPathByProcSearch_unique_holder_witness :
    (resolveProcessPathByProcSearch (sampleWorld 1000) 88221 1000).1
      = (lit "/usr/bin/curl", none) :=
  resolveProcessPathByProcSearch_unique_holder (sampleWorld 1000) 88221 1000
    [lit "self", lit "1", lit "4242"] (lit "4242") (lit "/usr/bin/curl")
    (by decide) (by decide) (by decide) (by decide) (by decide) (by decide) (by decide)

/-- C2: after a successful exchange, `resolveSocketByNetlink` returns the inode and uid
of the first message whose payload has at least 72 bytes: shorter messages before it
are skipped, messages after it are ignored, uid is the 4-byte field at offset 64 and
inode the 4-byte field at offset 68 of that payload, in host byte order. -/
theorem resolveSocketByNetlink_first_full_message (c : Networks) (w : World)
    (network : GoString) (from_ to_ : AddrPort) (req : inetDiagRequest)
    (pre post : List Message) (m : Message)
    (hreq : buildRequest c network from_ to_ = some req)
    (hdial : w.dial NETLINK_INET_DIAG = .ok ())
    (hexec : w.execute ⟨requestHeader, req.raw w.hostOrder⟩ = .ok (pre ++ m :: post))
    (hpre : ∀ x ∈ pre, x.Data.length < 72) (hm : 72 ≤ m.Data.length) :
    (resolveSocketByNetlink c w network from_ to_).1
      = (getU32 w.hostOrder ((m.Data.drop 68).take 4),
         getU32 w.hostOrder ((m.Data.drop 64).take 4), none) := by
  rw [resolveSocketByNetlink_exchange c w network from_ to_ req _ hreq hdial hexec,
    scanMessages_skip _ _ _ hpre, scanMessages_full _ _ _ hm]

theorem resolveSocketByNetlink_first_full_message_witness :
    (resolveSocketByNetlink sampleNetworks (sampleWorld 1000) (lit "tcp") localhost51000
        example443).1 = (88221, 1000, none) :=
  resolveSocketByNetlink_first_full_message sampleNetworks (sampleWorld 1000) (lit "tcp")
    localhost51000 example443 sampleTcpRequest [⟨requestHeader, List.replicate 20 0⟩]
    [⟨requestHeader, samplePayload .little 7 9⟩] ⟨requestHeader, samplePayload .little 1000 88221⟩
    (by decide) (by decide) (by decide) (by decide) (by decide)

/-- C3: in the request built for TCP, the source address field is `from`'s address bytes
and the destination address field is `to`'s, each followed by zeros up to 16 bytes
(4 address bytes for IPv4, 16 for IPv6); the source port field is `from`'s port and the
destination port field `to`'s port, high byte first; the protocol byte is 6. -/
theorem buildRequest_tcp_fields (c : Networks) (from_ to_ : AddrPort) :
    ∃ req, buildRequest c c.TCP from_ to_ = some req
      ∧ req.Protocol = 6
      ∧ req.Src = from_.Addr.AsSlice ++ List.replicate (16 - from_.Addr.AsSlice.length) 0
      ∧ req.Dst = to_.Addr.AsSlice ++ List.replicate (16 - to_.Addr.AsSlice.length) 0
      ∧ req.Src.length = 16 ∧ req.Dst.length = 16
      ∧ from_.Addr.AsSlice.length = (if from_.Addr.Is4 then 4 else if from_.Addr.Is6 then 16 else 0)
      ∧ to_.Addr.AsSlice.length = (if to_.Addr.Is4 then 4 else if to_.Addr.Is6 then 16 else 0)
      ∧ (∃ hi lo, req.SrcPort = [hi, lo] ∧ 256 * hi.val + lo.val = from_.Port)
      ∧ (∃ hi lo, req.DstPort = [hi, lo] ∧ 256 * hi.val + lo.val = to_.Port) := by
  refine ⟨_, buildRequest_tcp c from_ to_, rfl, rfl, rfl, ?_, ?_, asSlice_length _,
    asSlice_length _, ⟨_, _, rfl, byte_pair_value _ from_.port.isLt⟩,
    ⟨_, _, rfl, byte_pair_value _ to_.port.isLt⟩⟩
  · have := asSlice_length_le from_.Addr
    simp only [List.length_append, List.length_replicate]; omega
  · have := asSlice_length_le to_.Addr
    simp only [List.length_append, List.length_replicate]; omega

/-- C4: the request built for UDP with (from = A, to = B) has the same source address,
source port, destination address and destination port fields as the request built for
TCP with (from = B, to = A): for UDP the source fields are the remote endpoint `to` and
the destination fields the local endpoint `from`. -/
theorem buildRequest_udp_tcp_symmetry (c : Networks) (a b : AddrPort) :
    ∃ u t, buildRequest c c.UDP a b = some u ∧ buildRequest c c.TCP b a = some t
      ∧ u.Src = t.Src ∧ u.SrcPort = t.SrcPort ∧ u.Dst = t.Dst ∧ u.DstPort = t.DstPort
      ∧ u.Src = b.Addr.AsSlice ++ List.replicate (16 - b.Addr.AsSlice.length) 0
      ∧ u.Dst = a.Addr.AsSlice ++ List.replicate (16 - a.Addr.AsSlice.length) 0
      ∧ u.SrcPort = [byte (b.Port >>> 8), byte b.Port]
      ∧ u.DstPort = [byte (a.Port >>> 8), byte a.Port] :=
  ⟨_, _, buildRequest_udp c a b, buildRequest_tcp c b a, rfl, rfl, rfl, rfl, rfl, rfl, rfl, rfl⟩

/-- C5: for a network that is neither `TCP` nor `UDP`, `resolveSocketByNetlink` returns
`(0, 0, ErrInvalidNetwork)` and `findProcessPath` returns the empty path with
`ErrInvalidNetwork`, and neither makes any call: the trace is empty, so nothing is
dialled, sent, or looked up in the filesystem. -/
theorem invalid_network_no_calls (c : Networks) (w : World) (network : GoString)
    (from_ to_ : AddrPort) (hT : network ≠ c.TCP) (hU : network ≠ c.UDP) :
    resolveSocketByNetlink c w network from_ to_ = ((0, 0, some .ErrInvalidNetwork), [])
      ∧ findProcessPath c w network from_ to_ = (([], some .ErrInvalidNetwork), []) := by
  have h : resolveSocketByNetlink c w network from_ to_
      = ((0, 0, some .ErrInvalidNetwork), []) := by
    unfold resolveSocketByNetlink
    rw [buildRequest_other c network from_ to_ hT hU]
  refine ⟨h, ?_⟩
  unfold findProcessPath
  rw [h]

theorem invalid_network_no_calls_witness :
    resolveSocketByNetlink sampleNetworks (sampleWorld 1000) (lit "icmp") localhost51000
        example443 = ((0, 0, some .ErrInvalidNetwork), [])
      ∧ findProcessPath sampleNetworks (sampleWorld 1000) (lit "icmp") localhost51000
        example443 = (([], some .ErrInvalidNetwork), []) :=
  invalid_network_no_calls sampleNetworks (sampleWorld 1000) (lit "icmp") localhost51000
    example443 (by decide) (by decide)

/-- C6 as stated fails: `/proc` is listed, process 2 holds the socket and its `exe` link
reads `/bin/b`, yet the failed read of the `exe` link of process 1 ends the scan and is
the error returned, which is not the not-found error. -/
theorem exe_failure_not_absorbed :
    unreadableExeWorld.readdirnames (lit "/proc") = .ok [lit "1", lit "2"]
      ∧ holdsSocket unreadableExeWorld 7 0 (lit "2") = true
      ∧ unreadableExeWorld.readlink (exePath (lit "2")) = .ok (lit "/bin/b")
      ∧ (resolveProcessPathByProcSearch unreadableExeWorld 7 0).1
          = ([], some (.pathError (lit "readlink") (lit "/proc/1/exe") 13))
      ∧ (resolveProcessPathByProcSearch unreadableExeWorld 7 0).1.2
          ≠ some (notFoundError 7 0) := by
  decide

/-- C6, as the code has it: once `/proc` is listed, the result is decided by the first
listed entry that holds the socket. An entry whose stat fails, whose descriptor
directory cannot be opened or listed, or whose descriptor links cannot be read is no
holder and contributes nothing, and the scan goes on. The `exe` link of the first
holder is returned as it is read: when that read fails, its error is returned with the
empty path. So the error is absent, the not-found error, or that read error. -/
theorem scan_failures_absorbed (w : World) (inode uid : Nat) (pids : List GoString)
    (hinode : inode < 2 ^ 32) (hopen : w.osOpen (lit "/proc") = .ok ())
    (hlist : w.readdirnames (lit "/proc") = .ok pids) :
    (resolveProcessPathByProcSearch w inode uid).1 =
        (match pids.find? (holdsSocket w inode uid) with
         | some p => osReadlink w (exePath p)
         | none => ([], some (notFoundError inode uid)))
      ∧ (∀ q, ((∃ e, w.stat (procPath q) = .error e) ∨ (∃ e, w.osOpen (fdDirPath q) = .error e)
            ∨ (∃ e, w.readdirnames (fdDirPath q) = .error e)) →
          holdsSocket w inode uid q = false)
      ∧ (∀ path e, w.readlink path = .error e → linksTo w path (socketName inode) = false)
      ∧ ((resolveProcessPathByProcSearch w inode uid).1.2 = none
          ∨ (resolveProcessPathByProcSearch w inode uid).1
              = ([], some (notFoundError inode uid))
          ∨ ∃ p errno, p ∈ pids ∧ holdsSocket w inode uid p = true
              ∧ w.readlink (exePath p) = .error errno
              ∧ (resolveProcessPathByProcSearch w inode uid).1
                  = ([], some (.pathError (lit "readlink") (exePath p) errno))) := by
  have hs := (search_spec w inode uid pids hopen hlist hinode).1
  refine ⟨hs, holdsSocket_false_of_failure w inode uid,
    fun path e h => linksTo_error w path _ e h, ?_⟩
  rw [hs]
  cases hf : pids.find? (holdsSocket w inode uid) with
  | none => exact Or.inr (Or.inl rfl)
  | some p =>
    cases hr : w.readlink (exePath p) with
    | ok target => left; simp [osReadlink, hr]
    | error errno =>
      right; right
      exact ⟨p, errno, List.mem_of_find?_eq_some hf, List.find?_some hf, hr,
        by simp [osReadlink, hr]⟩

theorem scan_failures_absorbed_witness :
    (resolveProcessPathByProcSearch vanishingWorld 5 0).1 = ([], some (notFoundError 5 0)) :=
  (scan_failures_absorbed vanishingWorld 5 0 [lit "1", lit "2"] (by decide) (by decide)
    (by decide)).1

/-- C7: in every search that lists `/proc`, an entry whose directory owner differs from
`uid` never has its descriptor directory opened or listed and its `exe` link is never
read, whatever its descriptors link to; and when every listed entry that has a
descriptor linking to `socket:[<inode>]` is not owned by `uid`, the search ends with the
not-found error. -/
theorem owner_checked_before_descriptors (w : World) (inode uid : Nat) (pids : List GoString)
    (hinode : inode < 2 ^ 32) (hopen : w.osOpen (lit "/proc") = .ok ())
    (hlist : w.readdirnames (lit "/proc") = .ok pids) :
    (∀ pid owner, w.stat (procPath pid) = .ok owner → owner ≠ uid →
        Event.osOpen (fdDirPath pid) ∉ (resolveProcessPathByProcSearch w inode uid).2
          ∧ Event.readdirnames (fdDirPath pid) ∉ (resolveProcessPathByProcSearch w inode uid).2
          ∧ Event.osReadlink (exePath pid) ∉ (resolveProcessPathByProcSearch w inode uid).2)
      ∧ ((∀ q ∈ pids, hasSocketDescriptor w inode q = true → ownedBy w uid q = false) →
          (resolveProcessPathByProcSearch w inode uid).1
            = ([], some (notFoundError inode uid))) := by
  obtain ⟨hres, htrace⟩ := search_spec w inode uid pids hopen hlist hinode
  constructor
  · intro pid owner hstat hne
    have hown : ownedBy w uid pid = false := by simp [ownedBy, hstat, hne]
    have key : ∀ e, (e = .osOpen (fdDirPath pid) ∨ e = .readdirnames (fdDirPath pid)
        ∨ e = .osReadlink (exePath pid)) → e ∉ (resolveProcessPathByProcSearch w inode uid).2 := by
      intro e he hmem
      rcases htrace e hmem with h | h
      · exact not_frame_event w pid e he h
      · exact not_owned_not_scanned w inode uid _ pids pid hown e he h
    exact ⟨key _ (Or.inl rfl), key _ (Or.inr (Or.inl rfl)), key _ (Or.inr (Or.inr rfl))⟩
  · intro hall
    rw [hres]
    have hf : pids.find? (holdsSocket w inode uid) = none := by
      rw [List.find?_eq_none]
      intro p hp hh
      simp only [holdsSocket, Bool.and_eq_true] at hh
      have := hall p hp hh.2
      rw [hh.1.2] at this
      exact Bool.noConfusion this
    rw [hf]

theorem owner_checked_before_descriptors_witness :
    hasSocketDescriptor (sampleWorld 0) 88221 (lit "4242") = true
      ∧ Event.osOpen (lit "/proc/4242/fd/") ∉ (resolveProcessPathByProcSearch (sampleWorld 0) 88221 1000).2
      ∧ Event.readdirnames (lit "/proc/4242/fd/")
          ∉ (resolveProcessPathByProcSearch (sampleWorld 0) 88221 1000).2
      ∧ Event.osReadlink (lit "/proc/4242/exe")
          ∉ (resolveProcessPathByProcSearch (sampleWorld 0) 88221 1000).2
      ∧ (resolveProcessPathByProcSearch (sampleWorld 0) 88221 1000).1
          = ([], some (notFoundError 88221 1000)) :=
  ⟨by decide,
    ((owner_checked_before_descriptors (sampleWorld 0) 88221 1000
      [lit "self", lit "1", lit "4242"] (by decide) (by decide) (by decide)).1
        (lit "4242") 0 (by decide) (by decide)).1,
    ((owner_checked_before_descriptors (sampleWorld 0) 88221 1000
      [lit "self", lit "1", lit "4242"] (by decide) (by decide) (by decide)).1
        (lit "4242") 0 (by decide) (by decide)).2.1,
    ((owner_checked_before_descriptors (sampleWorld 0) 88221 1000
      [lit "self", lit "1", lit "4242"] (by decide) (by decide) (by decide)).1
        (lit "4242") 0 (by decide) (by decide)).2.2,
    (owner_checked_before_descriptors (sampleWorld 0) 88221 1000
      [lit "self", lit "1", lit "4242"] (by decide) (by decide) (by decide)).2 (by decide)⟩

/-- C8: after a successful exchange, `resolveSocketByNetlink` fails with `ErrNotFound`
exactly when no returned message has a payload of at least 72 bytes (the empty list
included); and the values returned are either the zeros that go with `ErrNotFound` or
the fields at offsets 68 and 64 of a payload of at least 72 bytes, so nothing is decoded
from a shorter payload. -/
theorem resolveSocketByNetlink_not_found_iff (c : Networks) (w : World) (network : GoString)
    (from_ to_ : AddrPort) (req : inetDiagRequest) (msgs : List Message)
    (hreq : buildRequest c network from_ to_ = some req)
    (hdial : w.dial NETLINK_INET_DIAG = .ok ())
    (hexec : w.execute ⟨requestHeader, req.raw w.hostOrder⟩ = .ok msgs) :
    ((resolveSocketByNetlink c w network from_ to_).1.2.2 = some .ErrNotFound
        ↔ ∀ m ∈ msgs, m.Data.length < 72)
      ∧ ((resolveSocketByNetlink c w network from_ to_).1 = (0, 0, some .ErrNotFound)
          ∨ ∃ m ∈ msgs, 72 ≤ m.Data.length
              ∧ (resolveSocketByNetlink c w network from_ to_).1
                = (getU32 w.hostOrder ((m.Data.drop 68).take 4),
                   getU32 w.hostOrder ((m.Data.drop 64).take 4), none)) := by
  rw [resolveSocketByNetlink_exchange c w network from_ to_ req msgs hreq hdial hexec]
  rcases scanMessages_cases w.hostOrder msgs with ⟨h1, h2⟩ | ⟨m, hm, hlen, h⟩
  · rw [h1]
    exact ⟨⟨fun _ => h2, fun _ => rfl⟩, Or.inl rfl⟩
  · rw [h]
    refine ⟨⟨fun hc => ?_, fun hall => ?_⟩, Or.inr ⟨m, hm, hlen, rfl⟩⟩
    · exact absurd hc (by simp)
    · have := hall m hm
      omega

theorem resolveSocketByNetlink_not_found_iff_witness :
    (resolveSocketByNetlink sampleNetworks vanishingWorld (lit "tcp") localhost51000
        example443).1 = (0, 0, some .ErrNotFound) := by
    have h := (resolveSocketByNetlink_not_found_iff sampleNetworks vanishingWorld (lit "tcp")
      localhost51000 example443 sampleTcpRequest [] (by decide) (by decide) (by decide)).2
    rcases h with h | ⟨m, hm, _⟩
    · exact h
    · exact absurd hm (List.not_mem_nil m)

/-- C9: when `/proc` is listed and no listed all-digit entry owned by `uid` has a
descriptor linking to `socket:[<inode>]`, the search returns the empty path and the
not-found error, a formatted error whose message `inode <inode> of uid <uid> not found`
holds both numbers in decimal. -/
theorem resolveProcessPathByProcSearch_not_found (w : World) (inode uid : Nat)
    (pids : List GoString) (hinode : inode < 2 ^ 32)
    (hopen : w.osOpen (lit "/proc") = .ok ())
    (hlist : w.readdirnames (lit "/proc") = .ok pids)
    (hnone : ∀ p ∈ pids, holdsSocket w inode uid p = false) :
    (resolveProcessPathByProcSearch w inode uid).1
        = ([], some (.errorf (lit "inode " ++ fmtUint inode ++ lit " of uid " ++ fmtUint uid
            ++ lit " not found")))
      ∧ decimalValue (fmtUint inode) = inode ∧ allDigits (fmtUint inode) = true
      ∧ decimalValue (fmtUint uid) = uid ∧ allDigits (fmtUint uid) = true := by
  refine ⟨?_, (fmtUint_decimal inode).1, (fmtUint_decimal inode).2, (fmtUint_decimal uid).1,
    (fmtUint_decimal uid).2⟩
  rw [(search_spec w inode uid pids hopen hlist hinode).1]
  have hf : pids.find? (holdsSocket w inode uid) = none := by
    rw [List.find?_eq_none]
    intro p hp
    simp [hnone p hp]
  rw [hf]
  rfl

theorem resolveProcessPathByProcSearch_not_found_witness :
    (resolveProcessPathByProcSearch vanishingWorld 88221 1000).1
      = ([], some (.errorf (lit "inode 88221 of uid 1000 not found"))) :=
  (resolveProcessPathByProcSearch_not_found vanishingWorld 88221 1000 [lit "1", lit "2"]
    (by decide) (by decide) (by decide) (by decide)).1

/-- C10: in every request that is built (TCP or UDP), the family byte is 2 (`AF_INET`)
when `from`'s address is IPv4 and 10 (`AF_INET6`) when it is IPv6, and it is the same
for every remote endpoint `to`. -/
theorem buildRequest_family (c : Networks) (network : GoString) (from_ to_ : AddrPort)
    (req : inetDiagRequest) (hreq : buildRequest c network from_ to_ = some req) :
    (from_.Addr.Is4 = true → req.Family = 2)
      ∧ (from_.Addr.Is6 = true → req.Family = 10)
      ∧ ∀ to2 : AddrPort,
          (buildRequest c network from_ to2).map (fun r => r.Family) = some req.Family := by
  have key : ∀ t : AddrPort, (buildRequest c network from_ t).map (fun r => r.Family)
      = some (if from_.Addr.Is4 then AF_INET else AF_INET6) := by
    intro t
    rcases buildRequest_some c network from_ to_ req hreq with h | h
    · rw [h, buildRequest_tcp]; rfl
    · rw [h, buildRequest_udp]; rfl
  have hfam : req.Family = if from_.Addr.Is4 then AF_INET else AF_INET6 := by
    have := key to_
    rw [hreq] at this
    simpa using this
  refine ⟨?_, ?_, ?_⟩
  · intro h4; rw [hfam, if_pos h4]; rfl
  · intro h6
    have h4 : ¬ from_.Addr.Is4 = true := by
      cases hf : from_.Addr <;> simp_all [Addr.Is4, Addr.Is6]
    rw [hfam, if_neg h4]; rfl
  · intro to2; rw [key to2, hfam]

theorem buildRequest_family_witness :
    ((loopback6.Addr.Is4 = true → sampleUdp6Request.Family = 2)
      ∧ (loopback6.Addr.Is6 = true → sampleUdp6Request.Family = 10)
      ∧ ∀ to2 : AddrPort, (buildRequest sampleNetworks (lit "udp") loopback6 to2).map
          (fun r => r.Family) = some sampleUdp6Request.Family) :=
  buildRequest_family sampleNetworks (lit "udp") loopback6 example443 sampleUdp6Request
    (by decide)

/-- C11: for every request that is built (TCP or UDP), the payload handed to the netlink
channel is the memory image of the request, which has exactly 56 bytes, in this order:
family at offset 0, protocol at 1, extension flags 0 at 2, padding 0 at 3, state bitmask
at 4..7, source port at 8..9, destination port at 10..11, source address at 12..27,
destination address at 28..43, interface index 0 at 44..47, cookie at 48..55. These are
the offsets the struct declaration gives, and the bytes are the same under either host
byte order. -/
theorem request_payload_layout (c : Networks) (w : World) (network : GoString)
    (from_ to_ : AddrPort) (req : inetDiagRequest)
    (hreq : buildRequest c network from_ to_ = some req)
    (hdial : w.dial NETLINK_INET_DIAG = .ok ()) :
    Event.execute ⟨requestHeader, req.raw w.hostOrder⟩
        ∈ (resolveSocketByNetlink c w network from_ to_).2
      ∧ (∀ o : ByteOrder,
          (req.raw o).length = 56
          ∧ (req.raw o).take 4 = [req.Family, req.Protocol, 0, 0]
          ∧ ((req.raw o).drop 4).take 4 = [255, 255, 255, 255]
          ∧ ((req.raw o).drop 8).take 2 = req.SrcPort
          ∧ ((req.raw o).drop 10).take 2 = req.DstPort
          ∧ ((req.raw o).drop 12).take 16 = req.Src
          ∧ ((req.raw o).drop 28).take 16 = req.Dst
          ∧ ((req.raw o).drop 44).take 4 = [0, 0, 0, 0]
          ∧ (req.raw o).drop 48 = [255, 255, 255, 255, 255, 255, 255, 255])
      ∧ req.raw .little = req.raw .big
      ∧ fieldOffsets 0 requestFields = [0, 1, 2, 3, 4, 8, 10, 12, 28, 44, 48]
      ∧ structSize requestFields = 56 := by
  obtain ⟨-, -, -, -, -, p1, p2, a1, a2⟩ := buildRequest_shape c network from_ to_ req hreq
  refine ⟨?_, ?_, ?_, by decide, by decide⟩
  · rw [resolveSocketByNetlink_trace c w network from_ to_ req hreq hdial]
    simp
  · intro o
    rw [raw_eq c network from_ to_ req hreq o]
    refine ⟨?_, ?_, ?_, ?_, ?_, ?_, ?_, ?_, ?_⟩
    · simp only [List.length_append, p1, p2, a1, a2, List.length_replicate, List.length_cons,
        List.length_nil]
    · simp
    · simp
    · have := slice_mid ([req.Family, req.Protocol, 0, 0] ++ [255, 255, 255, 255]) req.SrcPort
        (req.DstPort ++ req.Src ++ req.Dst ++ [0, 0, 0, 0] ++ List.replicate 8 255) 8 2 (by simp) p1
      simpa [List.append_assoc] using this
    · have := slice_mid ([req.Family, req.Protocol, 0, 0] ++ [255, 255, 255, 255] ++ req.SrcPort)
        req.DstPort (req.Src ++ req.Dst ++ [0, 0, 0, 0] ++ List.replicate 8 255) 10 2
        (by simp [p1]) p2
      simpa [List.append_assoc] using this
    · have := slice_mid ([req.Family, req.Protocol, 0, 0] ++ [255, 255, 255, 255] ++ req.SrcPort
        ++ req.DstPort) req.Src (req.Dst ++ [0, 0, 0, 0] ++ List.replicate 8 255) 12 16
        (by simp [p1, p2]) a1
      simpa [List.append_assoc] using this
    · have := slice_mid ([req.Family, req.Protocol, 0, 0] ++ [255, 255, 255, 255] ++ req.SrcPort
        ++ req.DstPort ++ req.Src) req.Dst ([0, 0, 0, 0] ++ List.replicate 8 255) 28 16
        (by simp [p1, p2, a1]) a2
      simpa [List.append_assoc] using this
    · have := slice_mid ([req.Family, req.Protocol, 0, 0] ++ [255, 255, 255, 255] ++ req.SrcPort
        ++ req.DstPort ++ req.Src ++ req.Dst) [0, 0, 0, 0] (List.replicate 8 255) 44 4
        (by simp [p1, p2, a1, a2]) (by simp)
      simpa [List.append_assoc] using this
    · have hl : ([req.Family, req.Protocol, 0, 0] ++ [255, 255, 255, 255] ++ req.SrcPort
        ++ req.DstPort ++ req.Src ++ req.Dst ++ [0, 0, 0, 0]).length = 48 := by
        simp [p1, p2, a1, a2]
      rw [List.drop_append_of_le_length (by omega), ← hl, List.drop_length]
      rfl
  · rw [raw_eq c network from_ to_ req hreq, raw_eq c network from_ to_ req hreq]

theorem request_payload_layout_witness :
    Event.execute ⟨requestHeader, [2, 6, 0, 0, 255, 255, 255, 255, 199, 56, 1, 187,
        127, 0, 0, 1, 0, 0, 0, 0, 0, 0, 0, 0, 0, 0, 0, 0,
        93, 184, 216, 34, 0, 0, 0, 0, 0, 0, 0, 0, 0, 0, 0, 0,
        0, 0, 0, 0, 255, 255, 255, 255, 255, 255, 255, 255]⟩
      ∈ (resolveSocketByNetlink sampleNetworks curlWorld (lit "tcp") localhost51000
          example443).2 :=
  (request_payload_layout sampleNetworks curlWorld (lit "tcp") localhost51000 example443
    sampleTcpRequest (by decide) (by decide)).1

/-- C12: every request that is built, for TCP or for UDP and for every endpoint pair, has
its state bitmask equal to 0xffffffff and both cookie words equal to 0xffffffff, that
is, all 32 bits set in each. -/
theorem request_wildcards (c : Networks) (network : GoString) (from_ to_ : AddrPort)
    (req : inetDiagRequest) (hreq : buildRequest c network from_ to_ = some req) :
    req.States = 0xffffffff ∧ req.Cookie = [0xffffffff, 0xffffffff]
      ∧ (0xffffffff : Nat) = 2 ^ 32 - 1 := by
  obtain ⟨-, -, h3, -, h5, -⟩ := buildRequest_shape c network from_ to_ req hreq
  exact ⟨h3, h5, by norm_num⟩

theorem request_wildcards_witness :
    sampleUdp6Request.States = 0xffffffff
      ∧ sampleUdp6Request.Cookie = [0xffffffff, 0xffffffff]
      ∧ (0xffffffff : Nat) = 2 ^ 32 - 1 :=
  request_wildcards sampleNetworks (lit "udp") loopback6 example443 sampleUdp6Request
    (by decide)

/-- C13: `findProcessPath` composes the two stages. When `resolveSocketByNetlink` fails
with `err`, it returns the empty path with that same error and makes no call besides
those of the netlink stage, so the filesystem search is not entered. Otherwise it
returns exactly the path and error of `resolveProcessPathByProcSearch` applied to the
inode and uid returned, and its calls are those of the first stage followed by those of
the search. In the scenario of the specification (TCP 127.0.0.1:51000 to
93.184.216.34:443, kernel answer inode 88221 of uid 1000, process 4242 of uid 1000 with
a descriptor linking to `socket:[88221]` and executable `/usr/bin/curl`) the result is
`/usr/bin/curl`. -/
theorem findProcessPath_composition (c : Networks) (w : World) (network : GoString)
    (from_ to_ : AddrPort) (inode uid : Nat) (oerr : Option Error) (t : List Event)
    (h : resolveSocketByNetlink c w network from_ to_ = ((inode, uid, oerr), t)) :
    (∀ err, oerr = some err →
        findProcessPath c w network from_ to_ = (([], some err), t)
          ∧ ∀ e ∈ (findProcessPath c w network from_ to_).2, e.isNetlink = true)
      ∧ (oerr = none →
          findProcessPath c w network from_ to_
            = ((resolveProcessPathByProcSearch w inode uid).1,
               t ++ (resolveProcessPathByProcSearch w inode uid).2))
      ∧ findProcessPath sampleNetworks curlWorld (lit "tcp") localhost51000 example443
          = ((lit "/usr/bin/curl", none),
             (resolveSocketByNetlink sampleNetworks curlWorld (lit "tcp") localhost51000
                example443).2 ++ (resolveProcessPathByProcSearch curlWorld 88221 1000).2) := by
  have hn := resolveSocketByNetlink_netlink_only c w network from_ to_
  rw [h] at hn
  refine ⟨?_, ?_, by decide⟩
  · intro err he
    subst he
    have hf : findProcessPath c w network from_ to_ = (([], some err), t) := by
      unfold findProcessPath
      rw [h]
    exact ⟨hf, by rw [hf]; exact hn⟩
  · intro he
    subst he
    unfold findProcessPath
    rw [h]

theorem findProcessPath_composition_witness :
    (findProcessPath sampleNetworks curlWorld (lit "tcp") localhost51000 example443).1
      = (lit "/usr/bin/curl", none) := by
  rw [(findProcessPath_composition sampleNetworks curlWorld (lit "tcp") localhost51000
    example443 88221 1000 none
    [.dial 4, .execute ⟨requestHeader, sampleTcpRequest.raw .little⟩, .connClose]
    (by decide)).2.1 rfl]
  decide

/-- C14: `isPid name` is true exactly when every byte of `name` is one of the ASCII
digits `'0'..'9'`, so a letter, a sign, a digit outside ASCII or a byte that is not
valid UTF-8 makes it false. And an entry of `/proc` whose name has such a byte is
skipped with no call made for it: the search over a listing with the entry returns the
same result and makes the same calls as the search on a host that differs only in not
listing it. -/
theorem isPid_digits_and_skip (w1 w2 : World) (inode uid : Nat) (pre post : List GoString)
    (entry : GoString) (hentry : ∃ b ∈ entry, b.val < 48 ∨ 57 < b.val)
    (hs : w1.stat = w2.stat) (ho : w1.osOpen = w2.osOpen) (hl : w1.readlink = w2.readlink)
    (hp : w1.pool = w2.pool)
    (hd : ∀ p, p ≠ lit "/proc" → w1.readdirnames p = w2.readdirnames p)
    (h1 : w1.readdirnames (lit "/proc") = .ok (pre ++ entry :: post))
    (h2 : w2.readdirnames (lit "/proc") = .ok (pre ++ post)) :
    (∀ name : GoString, isPid name = true ↔ ∀ b ∈ name, 48 ≤ b.val ∧ b.val ≤ 57)
      ∧ isPid entry = false
      ∧ resolveProcessPathByProcSearch w1 inode uid = resolveProcessPathByProcSearch w2 inode uid
      ∧ isPid (lit "4242") = true ∧ isPid (lit "12a") = false ∧ isPid (lit "-1") = false
      ∧ isPid [0xD9, 0xA1] = false ∧ isPid [0x31, 0xFF] = false := by
  have hiff : ∀ name : GoString, isPid name = true ↔ ∀ b ∈ name, 48 ≤ b.val ∧ b.val ≤ 57 := by
    intro name
    rw [isPid_eq_allDigits, allDigits_iff]
  have hfalse : isPid entry = false := by
    cases h : isPid entry with
    | false => rfl
    | true =>
      obtain ⟨b, hb, hbad⟩ := hentry
      have := (hiff entry).mp h b hb
      omega
  refine ⟨hiff, hfalse, ?_, by decide, by decide, by decide, by decide, by decide⟩
  cases hopen : w1.osOpen (lit "/proc") with
  | error e =>
    have hopen2 : w2.osOpen (lit "/proc") = .error e := by rw [← ho]; exact hopen
    unfold resolveProcessPathByProcSearch
    simp only [hopen, hopen2]
  | ok v =>
    have hopen2 : w2.osOpen (lit "/proc") = .ok () := by rw [← ho]; exact hopen
    rw [search_eq_listScan w1 inode uid _ hopen h1, search_eq_listScan w2 inode uid _ hopen2 h2,
      listScan_skip _ _ _ _ entry hfalse post pre, hp,
      listScan_congr w1 w2 hs ho hl hd]

theorem isPid_digits_and_skip_witness :
    resolveProcessPathByProcSearch (sampleWorld 1000) 88221 1000
      = resolveProcessPathByProcSearch (sampleWorldNoSelf 1000) 88221 1000 :=
  (isPid_digits_and_skip (sampleWorld 1000) (sampleWorldNoSelf 1000) 88221 1000 []
    [lit "1", lit "4242"] (lit "self") ⟨115, by decide, by decide⟩ rfl rfl rfl rfl
    (fun p hp => by simp [sampleWorldNoSelf, hp]) (by decide) (by decide)).2.2.1

/-- C15: in a search that cannot open or list `/proc` no buffer is checked out or
returned. In a search that lists `/proc`, whatever the listing and however the search
ends, the calls are: open and list `/proc`, check out a buffer of 64 and one of 32, the
calls of the scan (none of which touches the pool), then the return of the second
buffer, the return of the first, and the close of `/proc`. So exactly two buffers are
checked out, each is returned once, and after the first return no call is made that
uses a buffer. -/
theorem pool_checkouts_returned (w : World) (inode uid : Nat) :
    (((∃ e, w.osOpen (lit "/proc") = .error e) ∨ (∃ e, w.readdirnames (lit "/proc") = .error e)) →
        ∀ e ∈ (resolveProcessPathByProcSearch w inode uid).2, e.isPool = false)
      ∧ (∀ pids, w.osOpen (lit "/proc") = .ok () → w.readdirnames (lit "/proc") = .ok pids →
          ∃ mid,
            (resolveProcessPathByProcSearch w inode uid).2
              = [.osOpen (lit "/proc"), .readdirnames (lit "/proc"), .poolGet 64, .poolGet 32]
                ++ mid
                ++ [.poolPut (w.pool.get 32).length, .poolPut (w.pool.get 64).length,
                    .fileClose (lit "/proc")]
            ∧ (∀ e ∈ mid, e.isPool = false)
            ∧ (resolveProcessPathByProcSearch w inode uid).2.filter Event.isPool
              = [.poolGet 64, .poolGet 32, .poolPut (w.pool.get 32).length,
                 .poolPut (w.pool.get 64).length]) := by
  constructor
  · intro h e he
    unfold resolveProcessPathByProcSearch at he
    cases hopen : w.osOpen (lit "/proc") with
    | error x =>
      simp only [hopen, List.mem_singleton] at he
      rw [he]; rfl
    | ok v =>
      rcases h with ⟨x, hx⟩ | ⟨x, hx⟩
      · rw [hopen] at hx; exact Except.noConfusion hx
      · simp only [hopen, hx, List.mem_cons, List.mem_singleton, List.not_mem_nil,
          or_false] at he
        rcases he with h | h | h <;> rw [h] <;> rfl
  · intro pids hopen hlist
    have hmid := listScan_no_pool w uid (socketName inode) (w.pool.get 32).length pids
    refine ⟨(listScan w uid (socketName inode) (w.pool.get 32).length pids).2, ?_, hmid, ?_⟩
    · rw [search_eq_listScan w inode uid pids hopen hlist]
    · rw [search_eq_listScan w inode uid pids hopen hlist]
      have hf : (listScan w uid (socketName inode) (w.pool.get 32).length pids).2.filter
          Event.isPool = [] := by
        rw [List.filter_eq_nil_iff]
        intro e he
        simp [hmid e he]
      simp only [List.filter_append, hf]
      rfl

theorem pool_checkouts_returned_witness :
    (resolveProcessPathByProcSearch longNameWorld 9 5).2.filter Event.isPool
      = [.poolGet 64, .poolGet 32, .poolPut 32, .poolPut 64] := by
  obtain ⟨mid, -, -, h⟩ := (pool_checkouts_returned longNameWorld 9 5).2
    [List.replicate 70 (byte 49), lit "7"] (by decide) (by decide)
  exact h

/-- C18: the readlink buffer that the search checks out, `pool.Get(32)`, never changes
the outcome of the descriptor comparison. For a `uint32` inode the expected name
`socket:[<inode>]` has at most 19 bytes and the buffer has at least 32. So the
descriptor loop `fdLoop`, run with that buffer, returns from inside exactly when one of
the descriptors links to a target that as a whole equals the expected name, however
long the targets are; for one descriptor with link target `target`, it returns from
inside if and only if `target` equals the expected name; the search returns what the first listed entry with such a
descriptor gives; and its result is the one of a scan that cuts every target at any
length of 32 or more. -/
theorem readlink_buffer_never_changes_outcome (w : World) (inode uid : Nat)
    (pids : List GoString) (hinode : inode < 2 ^ 32)
    (hopen : w.osOpen (lit "/proc") = .ok ())
    (hlist : w.readdirnames (lit "/proc") = .ok pids) :
    (socketName inode).length ≤ 19
      ∧ 32 ≤ (w.pool.get 32).length
      ∧ (∀ (pid : GoString) (fds : List GoString) (s : Scan), fdDirPath pid <+: s.pathBuffer →
          s.readlinkBuffer.length = (w.pool.get 32).length →
          (fdLoop w (socketName inode) pid (fdDirPath pid).length fds s).1
            = (if fds.any (fun fd => linksTo w (fdDirPath pid ++ fd) (socketName inode))
               then some (osReadlink w (exePath pid)) else none))
      ∧ (∀ (pid fd target : GoString) (s : Scan), fdDirPath pid <+: s.pathBuffer →
          s.readlinkBuffer.length = (w.pool.get 32).length →
          w.readlink (fdDirPath pid ++ fd) = .ok target →
          ((fdLoop w (socketName inode) pid (fdDirPath pid).length [fd] s).1
              = some (osReadlink w (exePath pid))
            ↔ target = socketName inode))
      ∧ (resolveProcessPathByProcSearch w inode uid).1
          = (match pids.find? (holdsSocket w inode uid) with
             | some p => osReadlink w (exePath p)
             | none => ([], some (notFoundError inode uid)))
      ∧ (∀ L, 32 ≤ L →
          (resolveProcessPathByProcSearch w inode uid).1
            = (match (listScan w uid (socketName inode) L pids).1 with
               | some ret => ret
               | none => ([], some (notFoundError inode uid)))) := by
  have hlen := socketName_length inode hinode
  have h32 := w.pool.size_le 32
  refine ⟨hlen, h32, ?_, ?_, (search_spec w inode uid pids hopen hlist hinode).1, ?_⟩
  · intro pid fds s hp hl
    exact (fdLoop_spec w (socketName inode) pid (fdDirPath pid) (w.pool.get 32).length
      (by omega) fds s hp hl).1
  · intro pid fd target s hp hl hr
    rw [(fdLoop_spec w (socketName inode) pid (fdDirPath pid) (w.pool.get 32).length
      (by omega) [fd] s hp hl).1]
    simp only [List.any_cons, List.any_nil, Bool.or_false, linksTo_ok w _ _ target hr,
      decide_eq_true_eq]
    by_cases hm : target = socketName inode
    · simp only [hm, if_true]
    · simp only [hm, if_false, reduceCtorEq]
  · intro L hL
    rw [search_eq_listScan w inode uid pids hopen hlist]
    exact congrArg
      (fun r => match r with
        | some ret => ret
        | none => ([], some (notFoundError inode uid)))
      (listScan_fst_indep w uid (socketName inode) (w.pool.get 32).length L (by omega)
        (by omega) pids)

theorem readlink_buffer_never_changes_outcome_witness :
    linksTo longTargetWorld (lit "/proc/1/fd/0") (socketName 88221) = false
      ∧ (resolveProcessPathByProcSearch longTargetWorld 88221 5).1 = (lit "/bin/b", none) :=
  ⟨by decide,
    ((readlink_buffer_never_changes_outcome longTargetWorld 88221 5 [lit "1", lit "2"]
      (by decide) (by decide) (by decide)).2.2.2.2.1).trans (by decide)⟩

/-- C19: in a search that lists `/proc`, the calls between the checkouts and the returns
are the calls made for the listed entries one after the other, up to the entry at which
the search returns, and the calls made for an entry `pid` depend on `pid` alone, not on
what was in the path buffer: the stat is of `/proc/<pid>`, the directory opened, listed
and closed is `/proc/<pid>/fd/`, each descriptor read is of `/proc/<pid>/fd/<fd>` for an
`fd` of that listing, and the executable link read is `/proc/<pid>/exe`. This holds for
names of any length. -/
theorem paths_built_exactly (w : World) (inode uid : Nat) (pids : List GoString)
    (hopen : w.osOpen (lit "/proc") = .ok ())
    (hlist : w.readdirnames (lit "/proc") = .ok pids) :
    (∃ k, k ≤ pids.length ∧
        (resolveProcessPathByProcSearch w inode uid).2
          = [.osOpen (lit "/proc"), .readdirnames (lit "/proc"), .poolGet 64, .poolGet 32]
            ++ ((pids.take k).map (fun pid =>
                (candidateScan w uid (socketName inode) (w.pool.get 32).length pid).2)).flatten
            ++ [.poolPut (w.pool.get 32).length, .poolPut (w.pool.get 64).length,
                .fileClose (lit "/proc")])
      ∧ ∀ pid, ∀ e ∈ (candidateScan w uid (socketName inode) (w.pool.get 32).length pid).2,
          e = .stat (lit "/proc/" ++ pid)
            ∨ e = .osOpen (lit "/proc/" ++ pid ++ lit "/fd/")
            ∨ e = .readdirnames (lit "/proc/" ++ pid ++ lit "/fd/")
            ∨ e = .fileClose (lit "/proc/" ++ pid ++ lit "/fd/")
            ∨ (∃ fds fd, w.readdirnames (lit "/proc/" ++ pid ++ lit "/fd/") = .ok fds ∧ fd ∈ fds
                ∧ e = .unixReadlink (lit "/proc/" ++ pid ++ lit "/fd/" ++ fd)
                    (w.pool.get 32).length)
            ∨ e = .osReadlink (lit "/proc/" ++ pid ++ lit "/exe") := by
  constructor
  · obtain ⟨k, hk, h⟩ := listScan_flatten w uid (socketName inode) (w.pool.get 32).length pids
    exact ⟨k, hk, by rw [search_eq_listScan w inode uid pids hopen hlist, h]⟩
  · intro pid e he
    exact (candidateScan_events w uid (socketName inode) pid (w.pool.get 32).length e he).2

theorem paths_built_exactly_witness :
    (∃ k, k ≤ [List.replicate 70 (byte 49), lit "7"].length ∧
        (resolveProcessPathByProcSearch longNameWorld 9 5).2
          = [.osOpen (lit "/proc"), .readdirnames (lit "/proc"), .poolGet 64, .poolGet 32]
            ++ (([List.replicate 70 (byte 49), lit "7"].take k).map (fun pid =>
                (candidateScan longNameWorld 5 (socketName 9) (longNameWorld.pool.get 32).length
                  pid).2)).flatten
            ++ [.poolPut (longNameWorld.pool.get 32).length,
                .poolPut (longNameWorld.pool.get 64).length, .fileClose (lit "/proc")])
      ∧ (resolveProcessPathByProcSearch longNameWorld 9 5).2
        = [.osOpen (lit "/proc"), .readdirnames (lit "/proc"), .poolGet 64, .poolGet 32,
           .stat (lit "/proc/" ++ List.replicate 70 (byte 49)),
           .osOpen (lit "/proc/" ++ List.replicate 70 (byte 49) ++ lit "/fd/"),
           .readdirnames (lit "/proc/" ++ List.replicate 70 (byte 49) ++ lit "/fd/"),
           .fileClose (lit "/proc/" ++ List.replicate 70 (byte 49) ++ lit "/fd/"),
           .unixReadlink (lit "/proc/" ++ List.replicate 70 (byte 49) ++ lit "/fd/0") 32,
           .stat (lit "/proc/7"), .osOpen (lit "/proc/7/fd/"),
           .readdirnames (lit "/proc/7/fd/"), .fileClose (lit "/proc/7/fd/"),
           .unixReadlink (lit "/proc/7/fd/0") 32, .osReadlink (lit "/proc/7/exe"),
           .poolPut 32, .poolPut 64, .fileClose (lit "/proc")] :=
  ⟨(paths_built_exactly longNameWorld 9 5 [List.replicate 70 (byte 49), lit "7"]
      (by decide) (by decide)).1, by decide⟩

/-- C16: `Read` on an empty reader returns `(0, io.EOF)` when `p` has room and `(0, nil)`
when `p` is empty, and leaves the reader and `p` as they were. On a reader with bytes it
returns `(n, nil)` with `n = min(len(p), len(b))`; the first `n` bytes of `p` become the
first `n` bytes of the reader, the rest of `p` stays, and the reader loses its first `n`
bytes. -/
theorem BytesReader_Read_contract (b : BytesReader) (p : List Byte) :
    (b = [] → p ≠ [] → b.Read p = ((0, some .EOF), b, p))
      ∧ (b = [] → p = [] → b.Read p = ((0, none), b, p))
      ∧ (b ≠ [] →
          (b.Read p).1 = (min p.length b.length, none)
            ∧ (b.Read p).2.1 = b.drop (min p.length b.length)
            ∧ (b.Read p).2.2.take (min p.length b.length) = b.take (min p.length b.length)
            ∧ (b.Read p).2.2.drop (min p.length b.length) = p.drop (min p.length b.length)
            ∧ (b.Read p).2.2.length = p.length) := by
  refine ⟨?_, ?_, ?_⟩
  · rintro rfl hp
    have : p.length ≠ 0 := fun h => hp (List.length_eq_zero.mp h)
    simp [BytesReader.Read, BytesReader.IsEmpty, BytesReader.Len, this]
  · rintro rfl rfl
    simp [BytesReader.Read, BytesReader.IsEmpty, BytesReader.Len]
  · intro hb
    have hlen : b.length ≠ 0 := fun h => hb (List.length_eq_zero.mp h)
    have hR : b.Read p = ((min p.length b.length, none), b.drop (min p.length b.length),
        copy p b) := by
      simp [BytesReader.Read, BytesReader.IsEmpty, BytesReader.Len, hlen]
    rw [hR]
    refine ⟨rfl, rfl, ?_, ?_, copy_length p b⟩
    · simp only [copy]
      rw [List.take_append_eq_append_take]
      simp only [List.take_take, List.length_take]
      rw [show min p.length b.length - min p.length b.length = 0 by omega]
      simp [Nat.min_comm]
    · simp only [copy]
      rw [List.drop_append_eq_append_drop]
      simp only [List.length_take, List.drop_drop]
      rw [List.drop_of_length_le (by simp), show min p.length b.length
        - min p.length b.length = 0 by omega]
      simp only [List.nil_append, Nat.zero_add]
      rcases Nat.le_total p.length b.length with h | h
      · rw [List.drop_of_length_le (by omega), List.drop_of_length_le (by omega)]
      · rw [Nat.min_eq_right h]; rfl

theorem BytesReader_Read_contract_witness :
    BytesReader.Read [1, 2, 3] [0, 0] = ((2, none), [3], [1, 2])
      ∧ BytesReader.Read [] [0, 0] = ((0, some .EOF), [], [0, 0])
      ∧ BytesReader.Read [] [] = ((0, none), [], []) :=
  ⟨by decide, (BytesReader_Read_contract [] [0, 0]).1 rfl (by decide),
    (BytesReader_Read_contract [] []).2.1 rfl rfl⟩

/-- C17: for every writer `b` (nil, empty or not, of any capacity) and every `n ≥ 0`,
`Grow(n)` panics exactly when the spare capacity is under `n`, the small-buffer case does
not apply, and the new size overflows or the runtime gives no array. Otherwise it
returns the previous length of `b`, the length afterwards is the previous length plus
`n`, and the first previous-length bytes are unchanged, whichever path did the
growing. -/
theorem Grow_contract (a : Allocator) (b : BytesWriter) (n : Nat) :
    (b.Grow a n = none ↔ (¬ n ≤ b.Cap - b.Len ∧ ¬ (b = .nil ∧ n ≤ smallBufferSize)
        ∧ ((b.Cap : Int) > maxInt - b.Cap - n
            ∨ a.capFor (max (b.Len + n) (2 * b.Cap)) = none)))
      ∧ (∀ m b1, b.Grow a n = some (m, b1) →
          m = b.Len ∧ b1.Len = b.Len + n ∧ b1.Bytes.take b.Len = b.Bytes) := by
  obtain ⟨h1, h2⟩ := Grow_cases a b n
  by_cases hf : growFails a b n
  · have hnone := h1 hf
    refine ⟨⟨fun _ => hf, fun _ => hnone⟩, ?_⟩
    intro m b1 h
    rw [hnone] at h
    exact Option.noConfusion h
  · obtain ⟨b1, e1, e2, e3⟩ := h2 hf
    refine ⟨⟨fun h => ?_, fun h => absurd h hf⟩, ?_⟩
    · rw [e1] at h; exact Option.noConfusion h
    · intro m b1' h
      rw [e1] at h
      injection h with h
      injection h with hm hb
      subst hm; subst hb
      exact ⟨rfl, e2, e3⟩

theorem Grow_contract_witness :
    (BytesWriter.Grow roundingAllocator (.slice [1, 2, 3] [9]) 100).map
        (fun r => (r.1, r.2.Len, r.2.Bytes.take 3)) = some (3, 103, [1, 2, 3])
      ∧ (BytesWriter.Grow roundingAllocator .nil 10).map (fun r => (r.1, r.2.Len)) = some (0, 10)
      ∧ (BytesWriter.Grow roundingAllocator (.slice [1] [0, 0]) 2).map
          (fun r => (r.1, r.2.Bytes)) = some (1, [1, 0, 0]) := by
  have h := (Grow_contract roundingAllocator (.slice [1, 2, 3] [9]) 100).2
  exact ⟨by decide, by decide, by decide⟩

/-- C20: for every writer `w` whose growing does not panic and every value `v` of the
width in question, after `PutUint8`, `PutUint16be/le`, `PutUint32be/le`,
`PutUint64be/le`, `PutUvarint` or `PutVarint` the writer's bytes are those of `w`
followed by the encoding of `v` (for the fixed widths the bytes of `v` in the named
order, for the variable ones at most ten bytes), and a reader that starts with that
encoding gets `v` back from the matching `Read` method, with no error, and is left at
the bytes after the encoding. -/
theorem put_read_round_trip (a : Allocator) (w : BytesWriter) (rest : List Byte) :
    (∀ v, v < 2 ^ 8 → w.Grow a 1 ≠ none →
        ∃ w1, w.PutUint8 a v = some w1 ∧ w1.Bytes = w.Bytes ++ [byte v]
          ∧ BytesReader.ReadUint8 ([byte v] ++ rest) = some (v, rest))
      ∧ (∀ v, v < 2 ^ 16 → w.Grow a 2 ≠ none →
          ∃ w1, w.PutUint16be a v = some w1 ∧ w1.Bytes = w.Bytes ++ [byte (v >>> 8), byte v]
            ∧ BytesReader.ReadUint16be ([byte (v >>> 8), byte v] ++ rest) = some (v, rest))
      ∧ (∀ v, v < 2 ^ 16 → w.Grow a 2 ≠ none →
          ∃ w1, w.PutUint16le a v = some w1 ∧ w1.Bytes = w.Bytes ++ [byte v, byte (v >>> 8)]
            ∧ BytesReader.ReadUint16le ([byte v, byte (v >>> 8)] ++ rest) = some (v, rest))
      ∧ (∀ v, v < 2 ^ 32 → w.Grow a 4 ≠ none →
          ∃ w1, w.PutUint32be a v = some w1
            ∧ w1.Bytes = w.Bytes ++ [byte (v >>> 24), byte (v >>> 16), byte (v >>> 8), byte v]
            ∧ BytesReader.ReadUint32be
                ([byte (v >>> 24), byte (v >>> 16), byte (v >>> 8), byte v] ++ rest)
              = some (v, rest))
      ∧ (∀ v, v < 2 ^ 32 → w.Grow a 4 ≠ none →
          ∃ w1, w.PutUint32le a v = some w1
            ∧ w1.Bytes = w.Bytes ++ [byte v, byte (v >>> 8), byte (v >>> 16), byte (v >>> 24)]
            ∧ BytesReader.ReadUint32le
                ([byte v, byte (v >>> 8), byte (v >>> 16), byte (v >>> 24)] ++ rest)
              = some (v, rest))
      ∧ (∀ v, v < 2 ^ 64 → w.Grow a 8 ≠ none →
          ∃ w1, w.PutUint64be a v = some w1
            ∧ w1.Bytes = w.Bytes ++ [byte (v >>> 56), byte (v >>> 48), byte (v >>> 40),
                byte (v >>> 32), byte (v >>> 24), byte (v >>> 16), byte (v >>> 8), byte v]
            ∧ BytesReader.ReadUint64be ([byte (v >>> 56), byte (v >>> 48), byte (v >>> 40),
                byte (v >>> 32), byte (v >>> 24), byte (v >>> 16), byte (v >>> 8), byte v] ++ rest)
              = some (v, rest))
      ∧ (∀ v, v < 2 ^ 64 → w.Grow a 8 ≠ none →
          ∃ w1, w.PutUint64le a v = some w1
            ∧ w1.Bytes = w.Bytes ++ [byte v, byte (v >>> 8), byte (v >>> 16), byte (v >>> 24),
                byte (v >>> 32), byte (v >>> 40), byte (v >>> 48), byte (v >>> 56)]
            ∧ BytesReader.ReadUint64le ([byte v, byte (v >>> 8), byte (v >>> 16),
                byte (v >>> 24), byte (v >>> 32), byte (v >>> 40), byte (v >>> 48),
                byte (v >>> 56)] ++ rest)
              = some (v, rest))
      ∧ (∀ v, v < 2 ^ 64 → w.Grow a MaxVarintLen64 ≠ none →
          ∃ w1, w.PutUvarint a v = some w1
            ∧ w1.Bytes = w.Bytes ++ uvarintBytes MaxVarintLen64 v
            ∧ 1 ≤ (uvarintBytes MaxVarintLen64 v).length
            ∧ (uvarintBytes MaxVarintLen64 v).length ≤ 10
            ∧ BytesReader.ReadUvarint (uvarintBytes MaxVarintLen64 v ++ rest)
              = ((v, none), rest))
      ∧ (∀ v : Int, -2 ^ 63 ≤ v → v < 2 ^ 63 → w.Grow a MaxVarintLen64 ≠ none →
          ∃ w1, w.PutVarint a v = some w1
            ∧ w1.Bytes = w.Bytes ++ uvarintBytes MaxVarintLen64 (zigzag v)
            ∧ 1 ≤ (uvarintBytes MaxVarintLen64 (zigzag v)).length
            ∧ (uvarintBytes MaxVarintLen64 (zigzag v)).length ≤ 10
            ∧ BytesReader.ReadVarint (uvarintBytes MaxVarintLen64 (zigzag v) ++ rest)
              = ((v, none), rest)) := by
  refine ⟨?_, ?_, ?_, ?_, ?_, ?_, ?_, ?_, ?_⟩
  · intro v hv hg
    obtain ⟨w1, h1, h2⟩ := PutUint8_bytes a w v hg
    refine ⟨w1, h1, h2, ?_⟩
    have : (byte v).val = v := by rw [byte_val]; omega
    simp [BytesReader.ReadUint8, this]
  · intro v hv hg
    obtain ⟨w1, h1, h2⟩ := putFixed_bytes a w 2 (by omega) bigEndianPutUint16 v _
      (fun s hs => set2 s hs _ _) hg
    exact ⟨w1, h1, h2, uint16be_roundtrip v hv rest⟩
  · intro v hv hg
    obtain ⟨w1, h1, h2⟩ := putFixed_bytes a w 2 (by omega) littleEndianPutUint16 v _
      (fun s hs => set2 s hs _ _) hg
    exact ⟨w1, h1, h2, uint16le_roundtrip v hv rest⟩
  · intro v hv hg
    obtain ⟨w1, h1, h2⟩ := putFixed_bytes a w 4 (by omega) bigEndianPutUint32 v _
      (fun s hs => set4 s hs _ _ _ _) hg
    exact ⟨w1, h1, h2, uint32be_roundtrip v hv rest⟩
  · intro v hv hg
    obtain ⟨w1, h1, h2⟩ := putFixed_bytes a w 4 (by omega) littleEndianPutUint32 v _
      (fun s hs => set4 s hs _ _ _ _) hg
    exact ⟨w1, h1, h2, uint32le_roundtrip v hv rest⟩
  · intro v hv hg
    obtain ⟨w1, h1, h2⟩ := putFixed_bytes a w 8 (by omega) bigEndianPutUint64 v _
      (fun s hs => set8 s hs _ _ _ _ _ _ _ _) hg
    exact ⟨w1, h1, h2, uint64be_roundtrip v hv rest⟩
  · intro v hv hg
    obtain ⟨w1, h1, h2⟩ := putFixed_bytes a w 8 (by omega) littleEndianPutUint64 v _
      (fun s hs => set8 s hs _ _ _ _ _ _ _ _) hg
    exact ⟨w1, h1, h2, uint64le_roundtrip v hv rest⟩
  · intro v hv hg
    obtain ⟨w1, h1, h2⟩ := putVar_bytes a w v hv hg
    exact ⟨w1, h1, h2, uvarintBytes_ne_nil 9 v, uvarintBytes_length _ v,
      uvarint_roundtrip v hv rest⟩
  · intro v h0 h1 hg
    obtain ⟨w1, e1, e2⟩ := putVar_bytes a w (zigzag v) (zigzag_lt v) hg
    refine ⟨w1, ?_, e2, uvarintBytes_ne_nil 9 _, uvarintBytes_length _ _,
      varint_roundtrip v h0 h1 rest⟩
    rw [← e1]
    simp only [BytesWriter.PutVarint, putVarint_eq]

theorem put_read_round_trip_witness :
    (BytesWriter.PutUvarint roundingAllocator (.slice [1, 2, 3] [9, 9, 9, 9, 9]) 300).map
        BytesWriter.Bytes = some [1, 2, 3, 172, 2]
      ∧ BytesReader.ReadUvarint ([172, 2] ++ [4]) = ((300, none), [4])
      ∧ (BytesWriter.PutVarint roundingAllocator .nil (-3)).map BytesWriter.Bytes = some [5]
      ∧ BytesReader.ReadVarint ([5] ++ [4]) = ((-3, none), [4])
      ∧ BytesReader.ReadUint32be ([18, 52, 86, 120] ++ [4]) = some (0x12345678, [4]) := by
  have h := put_read_round_trip roundingAllocator (.slice [1, 2, 3] [9, 9, 9, 9, 9]) [4]
  obtain ⟨-, -, -, -, -, h3⟩ := h.2.2.2.2.2.2.2.1 300 (by norm_num) (by decide)
  obtain ⟨-, -, -, -, -, h4⟩ := h.2.2.2.2.2.2.2.2 (-3) (by norm_num) (by norm_num) (by decide)
  obtain ⟨-, -, -, h5⟩ := h.2.2.2.1 0x12345678 (by norm_num) (by decide)
  exact ⟨by decide, h3, by decide, h4, h5⟩

end Clash
